import Mathlib

/-!
# go-swagger3: directive parser, response interpreter, type registration, writer filters

A shallow embedding of `parser/operations`, `parser/schema` and `writer`.

* Go strings are read as sequences of code points (`Str`).  A byte offset of the
  source (`comment[len("@Router"):]`) is the same character offset whenever the
  characters before it are ASCII, which is the case for every line that starts
  with a directive keyword.
* Go maps are association lists with at most one entry per key; `mapGet`,
  `mapSet` and `mapDelete` are the three map operations the source uses.
* Pointers are addresses into explicit heaps carried by `State`.
* A Go call ends in one of three ways, see `Outcome`.
-/

set_option autoImplicit false

namespace GoSwagger3

/-- A Go string. -/
abbrev Str := List Char

/-! ## The `strings`, `unicode` and `strconv` functions the source calls -/

/-- The double quote character. -/
def dquote : Char := Char.ofNat 34

/-- `unicode.IsSpace`: the code points with the White_Space property. -/
def isSpace (c : Char) : Bool :=
  c.toNat == 9 || c.toNat == 10 || c.toNat == 11 || c.toNat == 12 || c.toNat == 13 ||
  c.toNat == 32 || c.toNat == 133 || c.toNat == 160 || c.toNat == 5760 ||
  (8192 ≤ c.toNat && c.toNat ≤ 8202) || c.toNat == 8232 || c.toNat == 8233 ||
  c.toNat == 8239 || c.toNat == 8287 || c.toNat == 12288

/-- `strings.TrimLeft(s, cutset)` for a cutset given as a predicate. -/
def trimLeftBy (p : Char → Bool) (s : Str) : Str := s.dropWhile p

/-- `strings.TrimRight(s, cutset)` for a cutset given as a predicate. -/
def trimRightBy (p : Char → Bool) (s : Str) : Str := (s.reverse.dropWhile p).reverse

/-- `strings.Trim(s, cutset)` for a cutset given as a predicate. -/
def trimBy (p : Char → Bool) (s : Str) : Str := trimRightBy p (trimLeftBy p s)

/-- `strings.TrimSpace`. -/
def TrimSpace (s : Str) : Str := trimBy isSpace s

/-- Worker of `Fields`: `cur` is the field being read. -/
def fieldsAux : Str → Str → List Str
  | cur, [] => if cur = [] then [] else [cur]
  | cur, c :: cs =>
    if isSpace c then
      (if cur = [] then fieldsAux [] cs else cur :: fieldsAux [] cs)
    else fieldsAux (cur ++ [c]) cs

/-- `strings.Fields`: the maximal runs of non-space characters. -/
def Fields (s : Str) : List Str := fieldsAux [] s

/-- `strings.HasPrefix`. -/
def HasPrefix (s pre : Str) : Bool := pre.isPrefixOf s

/-- `strings.HasSuffix`. -/
def HasSuffix (s suf : Str) : Bool := suf.isSuffixOf s

/-- `strings.Replace(s, old, new, 1)` for a non-empty `old`. -/
def replaceFirst (old new : Str) : Str → Str
  | [] => []
  | c :: cs => if old.isPrefixOf (c :: cs) then new ++ (c :: cs).drop old.length
               else c :: replaceFirst old new cs

/-- Worker of `replaceAll`: `skip` characters of the last occurrence are still to be dropped. -/
def replaceAllAux (old new : Str) : Nat → Str → Str
  | _, [] => []
  | skip + 1, _ :: cs => replaceAllAux old new skip cs
  | 0, c :: cs => if old.isPrefixOf (c :: cs) then new ++ replaceAllAux old new (old.length - 1) cs
                  else c :: replaceAllAux old new 0 cs

/-- `strings.Replace(s, old, new, -1)` for a non-empty `old`. -/
def replaceAll (old new : Str) (s : Str) : Str := replaceAllAux old new 0 s

/-- Worker of `splitOnChar`: `cur` is the piece being read. -/
def splitAux (sep : Char) : Str → Str → List Str
  | cur, [] => [cur]
  | cur, c :: cs => if c = sep then cur :: splitAux sep [] cs else splitAux sep (cur ++ [c]) cs

/-- `strings.Split(s, sep)` for a separator of one character. -/
def splitOnChar (sep : Char) (s : Str) : List Str := splitAux sep [] s

/-- `strings.SplitN(s, sep, 2)` for a separator of one character: cut at the first one. -/
def splitN2 (sep : Char) (s : Str) : List Str :=
  match s.dropWhile (fun c => c != sep) with
  | [] => [s]
  | _ :: after => [s.takeWhile (fun c => c != sep), after]

/-- `strings.Join(elems, sep)`. -/
def Join (elems : List Str) (sep : Str) : Str :=
  match elems with
  | [] => []
  | e :: es => e ++ es.foldr (fun x acc => sep ++ x ++ acc) []

/-- A decimal digit; also the class `\d` of a pattern. -/
def isDigit (c : Char) : Bool := 48 ≤ c.toNat && c.toNat ≤ 57

/-- The value of a string of decimal digits, most significant first. -/
def digitsValue (s : Str) : Nat := s.foldl (fun n c => 10 * n + (c.toNat - 48)) 0

/-- `strconv.Atoi` on a 64-bit platform: an optional sign, then one or more
decimal digits, and the value has to fit in an `int`. -/
def Atoi (s : Str) : Option Int :=
  let body : Bool × Str := match s with
    | c :: cs => if c = '-' then (true, cs) else if c = '+' then (false, cs) else (false, s)
    | [] => (false, [])
  if body.2 = [] ∨ ¬ (body.2.all isDigit = true) then none
  else if body.1 then
    (if digitsValue body.2 ≤ 9223372036854775808 then some (- (digitsValue body.2 : Int)) else none)
  else
    (if digitsValue body.2 ≤ 9223372036854775807 then some (digitsValue body.2 : Int) else none)

/-! ## Regular expressions

Go's `regexp` returns the leftmost match and, among the matches that start
there, the one a backtracking search finds first.  The patterns of the source
are built from the combinators below, which are that backtracking search:
`star`/`plus` try the longest repetition first and give characters back one
at a time, `opt` tries the group before skipping it, and `search` tries the
start positions from left to right. -/

/-- Of the class `\w`, that is `[0-9A-Za-z_]`. -/
def isWord (c : Char) : Bool :=
  (48 ≤ c.toNat && c.toNat ≤ 57) || (65 ≤ c.toNat && c.toNat ≤ 90) ||
  (97 ≤ c.toNat && c.toNat ≤ 122) || c.toNat == 95

/-- Of the class `\s`. -/
def reSpace (c : Char) : Bool :=
  c == '\t' || c == '\n' || c == Char.ofNat 12 || c == '\r' || c == ' '

/-- Greedy `C*` followed by `k`; `k` receives the text matched by the repetition and the rest. -/
def star {α : Type} (C : Char → Bool) (k : Str → Str → Option α) : Str → Str → Option α
  | acc, [] => k acc []
  | acc, c :: cs =>
    if C c then
      match star C k (acc ++ [c]) cs with
      | some r => some r
      | none => k acc (c :: cs)
    else k acc (c :: cs)

/-- Greedy `C+` followed by `k`. -/
def plus {α : Type} (C : Char → Bool) (k : Str → Str → Option α) : Str → Option α
  | [] => none
  | c :: cs => if C c then star C k [c] cs else none

/-- Greedy `(C+)?` followed by `k`; a skipped group is reported as the empty string,
as `FindStringSubmatch` does. -/
def opt {α : Type} (C : Char → Bool) (k : Str → Str → Option α) (s : Str) : Option α :=
  match plus C k s with
  | some r => some r
  | none => k [] s

/-- The leftmost start position at which `m` matches. -/
def search {α : Type} (m : Str → Option α) : Str → Option α
  | [] => m []
  | c :: cs =>
    match m (c :: cs) with
    | some r => some r
    | none => search m cs

/-- Of the class `[\w\.\/\-{}]`, the path token of a route. -/
def isRoutePathChar (c : Char) : Bool :=
  isWord c || c == '.' || c == '/' || c == '-' || c == '{' || c == '}'

/-- The pattern `([\w\.\/\-{}]+)[^\[]+\[([^\]]+)` tried at the start of `s`:
the whole match and the two groups. -/
def routeRegexAt (s : Str) : Option (List Str) :=
  plus isRoutePathChar (fun g1 r1 =>
    plus (fun c => c != '[') (fun _ r2 =>
      match r2 with
      | [] => none
      | c :: r3 =>
        if c = '[' then
          plus (fun c => c != ']') (fun g2 r4 => some [s.take (s.length - r4.length), g1, g2]) r3
        else none) r1) s

/-- `re.FindStringSubmatch` for the route pattern; `[]` stands for `nil`. -/
def routeFindStringSubmatch (s : Str) : List Str := (search routeRegexAt s).getD []

/-- Of the class `[\w\{\}]`, the jsonType of a response. -/
def isJsonTypeChar (c : Char) : Bool := isWord c || c == '{' || c == '}'

/-- Of the class `[\w\-\.\/\[\]\{\}=]`, the goType of a response. -/
def isGoTypeChar (c : Char) : Bool :=
  isWord c || c == '-' || c == '.' || c == '/' || c == '[' || c == ']' || c == '{' ||
  c == '}' || c == '='

/-- The end `(?P<description>.*)?` of the response pattern: the group is tried
first and `.` is any character but a line feed. -/
def respDescription (jsonType goType : Str) (r6 : Str) : Option (Str × Str × Str × Str) :=
  star (fun c => c != '\n') (fun description r7 => some (jsonType, goType, description, r7)) [] r6

/-- The part `[^"]*` of the response pattern and what follows it. -/
def respNotQuote (jsonType goType : Str) (r5 : Str) : Option (Str × Str × Str × Str) :=
  star (fun c => c != dquote) (fun _ r6 => respDescription jsonType goType r6) [] r5

/-- The part `(?P<goType>[\w\-\.\/\[\]\{\}=]+)?` of the response pattern and what follows it. -/
def respGoType (jsonType : Str) (r4 : Str) : Option (Str × Str × Str × Str) :=
  opt isGoTypeChar (fun goType r5 => respNotQuote jsonType goType r5) r4

/-- The part `[\s]+` of the response pattern and what follows it. -/
def respSpace (jsonType : Str) (r3 : Str) : Option (Str × Str × Str × Str) :=
  plus reSpace (fun _ r4 => respGoType jsonType r4) r3

/-- The part `(?P<jsonType>[\w\{\}]+)?` of the response pattern and what follows it. -/
def respJsonType (r2 : Str) : Option (Str × Str × Str × Str) :=
  opt isJsonTypeChar (fun jsonType r3 => respSpace jsonType r3) r2

/-- The part `[\s]*(?P<jsonType>[\w\{\}]+)?[\s]+(?P<goType>...+)?[^"]*(?P<description>.*)?`
of the response pattern, all that follows the status: jsonType, goType,
description and the text left after the match. -/
def responseTailAt (s : Str) : Option (Str × Str × Str × Str) :=
  star reSpace (fun _ r2 => respJsonType r2) [] s

/-- The response pattern
`(?P<status>[\d]+)[\s]*(?P<jsonType>[\w\{\}]+)?[\s]+(?P<goType>[\w\-\.\/\[\]\{\}=]+)?[^"]*(?P<description>.*)?`
tried at the start of `s`: the whole match and the four groups. -/
def responseRegexAt (s : Str) : Option (List Str) :=
  plus isDigit (fun status r1 =>
    match responseTailAt r1 with
    | some (jsonType, goType, description, r7) =>
      some [s.take (s.length - r7.length), status, jsonType, goType, description]
    | none => none) s

/-- `re.FindStringSubmatch` for the response pattern; `[]` stands for `nil`. -/
def responseFindStringSubmatch (s : Str) : List Str := (search responseRegexAt s).getD []

/-- The pattern `\{([^}]+)\}` (`genericPattern`) tried at the start of `s`. -/
def genericRegexAt (s : Str) : Option (List Str) :=
  match s with
  | [] => none
  | c :: r1 =>
    if c = '{' then
      plus (fun c => c != '}') (fun g1 r2 =>
        match r2 with
        | [] => none
        | d :: _ => if d = '}' then some [c :: (g1 ++ [d]), g1] else none) r1
    else none

/-- `genericPattern.FindStringSubmatch`; `[]` stands for `nil`. -/
def genericFindStringSubmatch (s : Str) : List Str := (search genericRegexAt s).getD []

/-- The pattern `\[\w*\]` tried at the start of `s`: the length of the match. -/
def bracketRegexAt (s : Str) : Option Nat :=
  match s with
  | [] => none
  | c :: r1 =>
    if c = '[' then
      star isWord (fun w r2 =>
        match r2 with
        | [] => none
        | d :: _ => if d = ']' then some (w.length + 2) else none) [] r1
    else none

/-- Worker of `bracketReplaceAll`: `skip` characters of the last match are still to be dropped. -/
def bracketReplaceAux (repl : Str) : Nat → Str → Str
  | _, [] => []
  | skip + 1, _ :: cs => bracketReplaceAux repl skip cs
  | 0, c :: cs =>
    match bracketRegexAt (c :: cs) with
    | some n => repl ++ bracketReplaceAux repl (n - 1) cs
    | none => c :: bracketReplaceAux repl 0 cs

/-- `regexp.MustCompile("\[\w*\]").ReplaceAllString(s, repl)` for a `repl` without `$`. -/
def bracketReplaceAll (s repl : Str) : Str := bracketReplaceAux repl 0 s

/-! ## Data model

The types of the `openApi3Schema` package, with the fields the source reads or
writes.  A `*T` that is shared and written through is an address (`Ptr`) into
the heap of `State` that holds the `T`s; `none` is `nil`. -/

/-- An address into one of the heaps of `State`. -/
abbrev Ptr := Nat

/-- How a Go call ends: a normal return with a `nil` error, a normal return
with an error, or a run-time panic (index out of range, `nil` dereference). -/
inductive Outcome (α : Type) where
  | ok (a : α)
  | error (msg : Str)
  | panic
deriving DecidableEq, Repr

/-- Go map lookup `m[k]`. -/
def mapGet {β : Type} (m : List (Str × β)) (k : Str) : Option β :=
  match m with
  | [] => none
  | (k1, v) :: rest => if k1 = k then some v else mapGet rest k

/-- Go map assignment `m[k] = v`; also `orderedmap.Set`, which keeps the
position of a key that is already there and appends a new one. -/
def mapSet {β : Type} (m : List (Str × β)) (k : Str) (v : β) : List (Str × β) :=
  match m with
  | [] => [(k, v)]
  | (k1, v1) :: rest => if k1 = k then (k, v) :: rest else (k1, v1) :: mapSet rest k v

/-- Go `delete(m, k)`. -/
def mapDelete {β : Type} (m : List (Str × β)) (k : Str) : List (Str × β) :=
  m.filter (fun e => e.1 != k)

/-- `openApi3Schema.SchemaObject`. `Properties` is a `*orderedmap.OrderedMap`,
`Items` a `*SchemaObject`. -/
structure SchemaObject where
  ID : Str := []
  Type_ : Str := []
  Ref : Str := []
  Properties : Option Ptr := none
  Items : Option Ptr := none
deriving DecidableEq, Repr

/-- `openApi3Schema.MediaTypeObject`. -/
structure MediaTypeObject where
  Schema : SchemaObject
deriving DecidableEq, Repr

/-- `openApi3Schema.ResponseObject`. -/
structure ResponseObject where
  Description : Str := []
  Content : List (Str × MediaTypeObject) := []
deriving DecidableEq, Repr

/-- `openApi3Schema.OperationObject`: the fields the source reads or writes.
Parameters, headers and the request body are written only by functions that
are not among the sources. -/
structure OperationObject where
  Responses : List (Str × ResponseObject) := []
  Tags : List Str := []
  Summary : Str := []
  Description : Str := []
  OperationID : Str := []
deriving DecidableEq, Repr

/-- `openApi3Schema.PathItemObject`: three strings and one `*OperationObject` per verb. -/
structure PathItemObject where
  Ref : Str := []
  Summary : Str := []
  Description : Str := []
  Get : Option Ptr := none
  Post : Option Ptr := none
  Patch : Option Ptr := none
  Put : Option Ptr := none
  Delete : Option Ptr := none
  Options : Option Ptr := none
  Head : Option Ptr := none
  Trace : Option Ptr := none
deriving DecidableEq, Repr

/-- `pendingRoute`: route info that is added after tag checking. -/
structure pendingRoute where
  path : Str
  method : Str
  operation : Option Ptr
deriving DecidableEq, Repr

/-- One call of the schema resolver, recorded in `State.resolverCalls`. -/
inductive ResolverCall where
  | RegisterType (pkgPath pkgName typeName : Str)
  | ParseSchemaObject (pkgPath pkgName typeName : Str)
deriving DecidableEq, Repr

/-- The mutable state the two parsers share: the document (`OpenAPI.Paths`,
`OpenAPI.Components.Schemas`), `Utils.KnownIDSchema`, the used operation IDs
(the key set of `usedOperationIds`), the three heaps, and the record of the
resolver calls made so far (kept for the claims about what is not called). -/
structure State where
  Paths : List (Str × PathItemObject) := []
  Schemas : List (Str × Ptr) := []
  KnownIDSchema : List (Str × Ptr) := []
  usedOperationIds : List Str := []
  operations : List OperationObject := []
  schemaObjects : List SchemaObject := []
  orderedMaps : List (List (Str × Ptr)) := []
  resolverCalls : List ResolverCall := []
deriving DecidableEq, Repr

/-- What `ParseSchemaObject` returns: `(*SchemaObject, error)`, each possibly `nil`. -/
structure SchemaResult where
  schema : Option Ptr
  err : Option Str
deriving DecidableEq, Repr

/-- What the source takes from outside `src/`: the configuration in
`model.Utils`, the case tables of `unicode`, the helpers of the `utils`
package and the parser methods whose bodies are not among the sources.  Every
theorem below holds for every such environment.  `mapOrder` is the order in
which a `range` over a Go map visits its entries. -/
structure Env where
  ModulePath : Str
  HandlerPath : Str
  FilterTag : Str
  SchemaWithoutPkg : Bool
  lower : Char → Char
  upper : Char → Char
  IsValidHTTPStatusCode : Int → Bool
  IsBasicGoType : Str → Bool
  IsInterfaceType : Str → Bool
  GenSchemaObjectID : Str → Str → Bool → Str
  ReplaceBackslash : Str → Str
  AddSchemaRefLinkPrefix : Str → Str
  parseResourceAndTag : Str → Str → OperationObject → OperationObject
  parseParamComment : Str → Str → Ptr → Str → State → Outcome Unit × State
  parseHeaders : Str → Str → Ptr → Str → State → Outcome Unit × State
  parseBasicTypeSchemaObject : Str → Str → Str → State → (SchemaResult × Bool) × State
  parseCustomTypeSchemaObject : Str → Str → Str → State → SchemaResult × State
  mapOrder : List (Str × Str) → List (Str × Str)

/-- Modelled from the spec: the constant `ContentTypeJson` of the
`openApi3Schema` package, which is not among the sources; the spec names the
content type `application/json`. -/
def ContentTypeJson : Str := "application/json".toList

/-- Modelled from the spec: the constant `ContentTypeText` of the
`openApi3Schema` package, which is not among the sources; the spec names the
content type `text/plain`. -/
def ContentTypeText : Str := "text/plain".toList

/-- `strings.ToLower`, rune by rune. -/
def ToLower (env : Env) (s : Str) : Str := s.map env.lower

/-- `strings.ToUpper`, rune by rune. -/
def ToUpper (env : Env) (s : Str) : Str := s.map env.upper

/-! ## `parser/schema/parser.go` -/

/-- `(*parser).ParseSchemaObject`. -/
def ParseSchemaObject (env : Env) (pkgPath pkgName typeName : Str) (s : State) :
    SchemaResult × State :=
  let s0 := { s with resolverCalls :=
    s.resolverCalls ++ [ResolverCall.ParseSchemaObject pkgPath pkgName typeName] }
  match env.parseBasicTypeSchemaObject pkgPath pkgName typeName s0 with
  | ((res, isBasicType), s1) =>
    if isBasicType then (res, s1)
    else env.parseCustomTypeSchemaObject pkgPath pkgName typeName s1

/-- The statement pair `_, ok := m[key]; if !ok { m[key] = v }`. -/
def mapPutIfAbsent {β : Type} (m : List (Str × β)) (key : Str) (v : β) : List (Str × β) :=
  match mapGet m key with
  | some _ => m
  | none => mapSet m key v

/-- `(*parser).RegisterType`. -/
def RegisterType (env : Env) (pkgPath pkgName typeName : Str) (s : State) :
    Outcome Str × State :=
  let s0 := { s with resolverCalls :=
    s.resolverCalls ++ [ResolverCall.RegisterType pkgPath pkgName typeName] }
  if env.IsBasicGoType typeName || env.IsInterfaceType typeName then
    (Outcome.ok typeName, s0)
  else
    match mapGet s0.KnownIDSchema (env.GenSchemaObjectID pkgName typeName env.SchemaWithoutPkg) with
    | some schemaObject =>
      let registerTypeName := env.GenSchemaObjectID pkgName typeName env.SchemaWithoutPkg
      let idKey := env.ReplaceBackslash registerTypeName
      let s1 := { s0 with Schemas := mapPutIfAbsent s0.Schemas idKey schemaObject }
      let legacyKey := env.ReplaceBackslash typeName
      let s2 := if legacyKey ≠ idKey then
          { s1 with Schemas := mapPutIfAbsent s1.Schemas legacyKey schemaObject }
        else s1
      (Outcome.ok registerTypeName, s2)
    | none =>
      match ParseSchemaObject env pkgPath pkgName typeName s0 with
      | (res, s1) =>
        match res.err with
        | some e => (Outcome.error e, s1)
        | none =>
          match res.schema with
          | none => (Outcome.panic, s1)
          | some schemaObject =>
            match s1.schemaObjects[schemaObject]? with
            | none => (Outcome.panic, s1)
            | some obj =>
              (Outcome.ok obj.ID,
                { s1 with
                  Schemas := mapPutIfAbsent s1.Schemas (env.ReplaceBackslash obj.ID) schemaObject })

/-! ## `parser/operations/route.go` -/

/-- `(*parser).parseRouteInfo`. The slice `comment[len("@Router"):]` panics on a
line shorter than seven bytes. -/
def parseRouteInfo (env : Env) (comment : Str) : Outcome pendingRoute :=
  if comment.length < 7 then Outcome.panic
  else
    let sourceString := TrimSpace (comment.drop 7)
    let ms := routeFindStringSubmatch sourceString
    if ms.length ≠ 3 then
      Outcome.error ("Can not parse router comment \"".toList ++ comment ++ "\", skipped".toList)
    else
      Outcome.ok { path := ms.getD 1 [], method := ToUpper env (ms.getD 2 []), operation := none }

/-- The `switch` on the method that both route binders end with: the slot of
the verb is set to the operation, an unknown verb sets nothing. -/
def bindMethod (method : Str) (operation : Option Ptr) (item : PathItemObject) : PathItemObject :=
  if method = "GET".toList then { item with Get := operation }
  else if method = "POST".toList then { item with Post := operation }
  else if method = "PATCH".toList then { item with Patch := operation }
  else if method = "PUT".toList then { item with Put := operation }
  else if method = "DELETE".toList then { item with Delete := operation }
  else if method = "OPTIONS".toList then { item with Options := operation }
  else if method = "HEAD".toList then { item with Head := operation }
  else if method = "TRACE".toList then { item with Trace := operation }
  else item

/-- The body shared by `addRouteToOpenAPI` and `parseRouteComment`: create the
path item when the path is new, then write the slot through `Paths[path]`. -/
def bindRoute (path method : Str) (operation : Option Ptr) (s : State) : Outcome Unit × State :=
  let s1 := match mapGet s.Paths path with
    | some _ => s
    | none => { s with Paths := mapSet s.Paths path {} }
  match mapGet s1.Paths path with
  | none => (Outcome.panic, s1)
  | some item => (Outcome.ok (), { s1 with Paths := mapSet s1.Paths path (bindMethod method operation item) })

/-- `(*parser).addRouteToOpenAPI`. -/
def addRouteToOpenAPI (route : Option pendingRoute) (s : State) : Outcome Unit × State :=
  match route with
  | none => (Outcome.ok (), s)
  | some r => bindRoute r.path r.method r.operation s

/-- `(*parser).parseRouteComment`. -/
def parseRouteComment (env : Env) (operation : Ptr) (comment : Str) (s : State) :
    Outcome Unit × State :=
  if comment.length < 7 then (Outcome.panic, s)
  else
    let sourceString := TrimSpace (comment.drop 7)
    let ms := routeFindStringSubmatch sourceString
    if ms.length ≠ 3 then
      (Outcome.error ("Can not parse router comment \"".toList ++ comment ++ "\", skipped".toList), s)
    else bindRoute (ms.getD 1 []) (ToUpper env (ms.getD 2 [])) (some operation) s

/-! ## `parser/operations/response.go` -/

/-- `(*parser).simpleResponseObject`; the response object is passed in and handed back. -/
def simpleResponseObject (jsonType : Str) (responseObject : ResponseObject) : ResponseObject :=
  let formattedType :=
    if HasPrefix jsonType "\x7b".toList && HasSuffix jsonType "\x7d".toList then
      (jsonType.take (jsonType.length - 1)).drop 1
    else jsonType
  { responseObject with
      Content := mapSet responseObject.Content ContentTypeJson { Schema := { Type_ := formattedType } } }

/-- The loop of `complexResponseObject` that reads the field mappings out of
the text between the braces. -/
def collectFieldMappings : List Str → List (Str × Str) → List (Str × Str)
  | [], fieldMappings => fieldMappings
  | field :: rest, fieldMappings =>
    if TrimSpace field = [] then collectFieldMappings rest fieldMappings
    else if (splitN2 '=' (TrimSpace field)).length ≠ 2 then collectFieldMappings rest fieldMappings
    else collectFieldMappings rest
      (mapSet fieldMappings (TrimSpace ((splitN2 '=' (TrimSpace field)).getD 0 []))
        (TrimSpace ((splitN2 '=' (TrimSpace field)).getD 1 [])))

/-- The loop of `complexResponseObject` over the field mappings: resolve each
field type and `Set` it in the property map at `props`. -/
def overrideFields (env : Env) (pkgPath pkgName : Str) (props : Ptr) :
    List (Str × Str) → State → Outcome Unit × State
  | [], s => (Outcome.ok (), s)
  | (fieldName, fieldType) :: rest, s =>
    match ParseSchemaObject env pkgPath pkgName fieldType s with
    | (res, s1) =>
      match res.err with
      | some e =>
        (Outcome.error ("解析字段 ".toList ++ fieldName ++ " 的类型 ".toList ++ fieldType ++
          " 失败: ".toList ++ e), s1)
      | none =>
        match res.schema with
        | none =>
          (Outcome.error ("字段 ".toList ++ fieldName ++ " 的类型 ".toList ++ fieldType ++
            " 解析结果为空".toList), s1)
        | some fieldSchema =>
          match s1.orderedMaps[props]? with
          | none => (Outcome.panic, s1)
          | some m =>
            overrideFields env pkgPath pkgName props rest
              { s1 with orderedMaps := s1.orderedMaps.set props (mapSet m fieldName fieldSchema) }

/-- The branch of `complexResponseObject` for a container with field mappings. -/
def genericResponseObject (env : Env) (pkgPath pkgName containerType : Str)
    (fieldMappings : List (Str × Str)) (responseObject : ResponseObject) (s : State) :
    Outcome ResponseObject × State :=
  match ParseSchemaObject env pkgPath pkgName containerType s with
  | (res, s1) =>
    match res.err with
    | some e =>
      (Outcome.error ("解析容器类型 ".toList ++ containerType ++ " 失败: ".toList ++ e), s1)
    | none =>
      -- `if containerSchema == nil`: a fresh object with a fresh property map
      let alloc : Ptr × State := match res.schema with
        | some c => (c, s1)
        | none =>
          (s1.schemaObjects.length,
            { s1 with
              orderedMaps := s1.orderedMaps ++ [[]],
              schemaObjects := s1.schemaObjects ++
                [{ Type_ := "object".toList, Properties := some s1.orderedMaps.length }] })
      match alloc.2.schemaObjects[alloc.1]? with
      | none => (Outcome.panic, alloc.2)
      | some obj =>
        -- `if containerSchema.Properties == nil`: written through the pointer
        let withProps : Ptr × State := match obj.Properties with
          | some props => (props, alloc.2)
          | none =>
            (alloc.2.orderedMaps.length,
              { alloc.2 with
                orderedMaps := alloc.2.orderedMaps ++ [[]],
                schemaObjects := alloc.2.schemaObjects.set alloc.1
                  { obj with Properties := some alloc.2.orderedMaps.length } })
        match overrideFields env pkgPath pkgName withProps.1 (env.mapOrder fieldMappings)
            withProps.2 with
        | (Outcome.ok _, s3) =>
          match s3.schemaObjects[alloc.1]? with
          | none => (Outcome.panic, s3)
          | some final =>
            (Outcome.ok { responseObject with
                Content := mapSet responseObject.Content ContentTypeJson { Schema := final } }, s3)
        | (Outcome.error e, s3) => (Outcome.error e, s3)
        | (Outcome.panic, s3) => (Outcome.panic, s3)

/-- `(*parser).complexResponseObject`; the response object is passed in and
handed back when the call returns without an error. -/
def complexResponseObject (env : Env) (pkgPath pkgName typ : Str)
    (responseObject : ResponseObject) (s : State) : Outcome ResponseObject × State :=
  let ms := genericFindStringSubmatch typ
  let containerType : Str :=
    if ms.length > 1 then TrimSpace (replaceFirst (ms.getD 0 []) [] typ) else typ
  let fieldMappings : List (Str × Str) :=
    if ms.length > 1 then collectFieldMappings (splitOnChar ',' (ms.getD 1 [])) [] else []
  if fieldMappings.length > 0 then
    genericResponseObject env pkgPath pkgName containerType fieldMappings responseObject s
  else
    let goType := bracketReplaceAll containerType "[]".toList
    if HasPrefix goType "map[]".toList then
      match ParseSchemaObject env pkgPath pkgName goType s with
      | (res, s1) =>
        -- an error is only logged; `*schema` follows
        match res.schema with
        | none => (Outcome.panic, s1)
        | some schema =>
          match s1.schemaObjects[schema]? with
          | none => (Outcome.panic, s1)
          | some obj =>
            (Outcome.ok { responseObject with
                Content := mapSet responseObject.Content ContentTypeJson { Schema := obj } }, s1)
    else if HasPrefix goType "[]".toList then
      match RegisterType env pkgPath pkgName (replaceAll "[]".toList [] goType) s with
      | (Outcome.error e, s1) => (Outcome.error e, s1)
      | (Outcome.panic, s1) => (Outcome.panic, s1)
      | (Outcome.ok typeName, s1) =>
        let item : SchemaObject :=
          if env.IsBasicGoType typeName then { Type_ := "string".toList }
          else { Ref := env.AddSchemaRefLinkPrefix typeName }
        (Outcome.ok { responseObject with
            Content := mapSet responseObject.Content ContentTypeJson
              { Schema := { Type_ := "array".toList, Items := some s1.schemaObjects.length } } },
          { s1 with schemaObjects := s1.schemaObjects ++ [item] })
    else
      match RegisterType env pkgPath pkgName containerType s with
      | (Outcome.error e, s1) => (Outcome.error e, s1)
      | (Outcome.panic, s1) => (Outcome.panic, s1)
      | (Outcome.ok typeName, s1) =>
        if env.IsBasicGoType typeName then
          (Outcome.ok { responseObject with
              Content := mapSet responseObject.Content ContentTypeText
                { Schema := { Type_ := "string".toList } } }, s1)
        else if env.IsInterfaceType typeName then
          (Outcome.ok { responseObject with
              Content := mapSet responseObject.Content ContentTypeJson
                { Schema := { Type_ := "object".toList } } }, s1)
        else
          (Outcome.ok { responseObject with
              Content := mapSet responseObject.Content ContentTypeJson
                { Schema := { Ref := env.AddSchemaRefLinkPrefix typeName } } }, s1)

/-- The statement `operation.Responses[status] = responseObject`, through the pointer. -/
def storeResponse (operation : Ptr) (status : Str) (responseObject : ResponseObject)
    (s : State) : Outcome Unit × State :=
  match s.operations[operation]? with
  | none => (Outcome.panic, s)
  | some op =>
    (Outcome.ok (), { s with
        operations := s.operations.set operation
          { op with Responses := mapSet op.Responses status responseObject } })

/-- `(*parser).parseResponseComment`. -/
def parseResponseComment (env : Env) (pkgPath pkgName : Str) (operation : Ptr) (comment : Str)
    (s : State) : Outcome Unit × State :=
  let ms := responseFindStringSubmatch comment
  if ms.length ≤ 2 then
    (Outcome.error ("parseResponseComment can not parse response comment \"".toList ++ comment ++
      "\"".toList), s)
  else
    let status := ms.getD 1 []
    match Atoi (ms.getD 1 []) with
    | none =>
      (Outcome.error ("parseResponseComment: http status must be int, but got ".toList ++ status), s)
    | some statusInt =>
      if ¬ (env.IsValidHTTPStatusCode statusInt = true) then
        (Outcome.error ("parseResponseComment: Invalid http status code ".toList ++ status), s)
      else
        let responseObject : ResponseObject :=
          { Content := [], Description := trimBy (fun c => c == dquote) (ms.getD 4 []) }
        let jsonType := ms.getD 2 []
        if jsonType = "object".toList ∨ jsonType = "array".toList ∨
            jsonType = "\x7bobject\x7d".toList ∨ jsonType = "\x7barray\x7d".toList then
          match complexResponseObject env pkgPath pkgName (ms.getD 3 []) responseObject s with
          | (Outcome.ok r, s1) => storeResponse operation status r s1
          | (Outcome.error e, s1) => (Outcome.error e, s1)
          | (Outcome.panic, s1) => (Outcome.panic, s1)
        else if jsonType = "\x7bstring\x7d".toList ∨ jsonType = "\x7binteger\x7d".toList ∨
            jsonType = "\x7bboolean\x7d".toList ∨ jsonType = "string".toList ∨
            jsonType = "integer".toList ∨ jsonType = "boolean".toList then
          storeResponse operation status (simpleResponseObject jsonType responseObject) s
        else if jsonType = [] then
          storeResponse operation status responseObject s
        else
          (Outcome.error ("parseResponseComment: invalid jsonType ".toList ++ jsonType), s)

/-! ## `parser/operations/parser.go` -/

/-- `(*parser).operationMatchesFilter`. -/
def operationMatchesFilter (env : Env) (operation : OperationObject) : Bool :=
  if env.FilterTag = [] then true
  else operation.Tags.any (fun tag => tag == env.FilterTag)

/-- `(*parser).validateOperationID`. -/
def validateOperationID (operationID : Str) (s : State) : Outcome Unit × State :=
  if operationID = [] then (Outcome.ok (), s)
  else if operationID ∈ s.usedOperationIds then
    (Outcome.error ("operation ID \x27".toList ++ operationID ++ "\x27 is not unique".toList), s)
  else (Outcome.ok (), { s with usedOperationIds := operationID :: s.usedOperationIds })

/-- A write to a field of `*operation`. -/
def updateOperation (operation : Ptr) (f : OperationObject → OperationObject) (s : State) :
    Outcome Unit × State :=
  match s.operations[operation]? with
  | none => (Outcome.panic, s)
  | some op => (Outcome.ok (), { s with operations := s.operations.set operation (f op) })

/-- `(*parser).parseOperationFromComment`. -/
def parseOperationFromComment (env : Env) (pkgPath pkgName comment : Str) (operation : Ptr)
    (s : State) : Outcome Unit × State :=
  match Fields comment with
  | [] => (Outcome.panic, s)
  | attr :: _ =>
    if ToLower env attr = "@title".toList then
      updateOperation operation
        (fun op => { op with Summary := TrimSpace (comment.drop attr.length) }) s
    else if ToLower env attr = "@description".toList then
      updateOperation operation
        (fun op => { op with
          Description := Join [op.Description, TrimSpace (comment.drop attr.length)] " ".toList }) s
    else if ToLower env attr = "@param".toList then
      env.parseParamComment pkgPath pkgName operation (TrimSpace (comment.drop attr.length)) s
    else if ToLower env attr = "@header".toList then
      env.parseHeaders pkgPath pkgName operation (TrimSpace (comment.drop attr.length)) s
    else if ToLower env attr = "@success".toList ∨
        ToLower env attr = "@failure".toList then
      parseResponseComment env pkgPath pkgName operation
        (TrimSpace (comment.drop attr.length)) s
    else if ToLower env attr = "@resource".toList ∨ ToLower env attr = "@tag".toList then
      updateOperation operation (env.parseResourceAndTag comment attr) s
    else if ToLower env attr = "@route".toList ∨ ToLower env attr = "@router".toList then
      parseRouteComment env operation comment s
    else if ToLower env attr = "@operationid".toList then
      match validateOperationID (TrimSpace (comment.drop attr.length)) s with
      | (Outcome.ok _, s1) =>
        updateOperation operation
          (fun op => { op with OperationID := TrimSpace (comment.drop attr.length) }) s1
      | (Outcome.error e, s1) => (Outcome.error e, s1)
      | (Outcome.panic, s1) => (Outcome.panic, s1)
    else (Outcome.ok (), s)

/-- The first loop of `Parse`: tags and route info only.  Until the second
loop nothing but this loop can reach the new operation, so it is carried as a
value; `operation` is its address, which the pending route records. -/
def pass1 (env : Env) (operation : Ptr) :
    List Str → OperationObject → Option pendingRoute →
      Outcome (Option pendingRoute) × OperationObject
  | [], op, pending => (Outcome.ok pending, op)
  | text :: rest, op, pending =>
    if (TrimSpace (trimLeftBy (fun c => c == '/') text)).length = 0 then
      pass1 env operation rest op pending
    else
      match Fields (TrimSpace (trimLeftBy (fun c => c == '/') text)) with
      | [] => (Outcome.panic, op)
      | attr :: _ =>
        if ToLower env attr = "@route".toList ∨ ToLower env attr = "@router".toList then
          match parseRouteInfo env (TrimSpace (trimLeftBy (fun c => c == '/') text)) with
          | Outcome.error e => (Outcome.error e, op)
          | Outcome.panic => (Outcome.panic, op)
          | Outcome.ok route =>
            pass1 env operation rest op (some { route with operation := some operation })
        else if ToLower env attr = "@resource".toList ∨
            ToLower env attr = "@tag".toList then
          pass1 env operation rest
            (env.parseResourceAndTag (TrimSpace (trimLeftBy (fun c => c == '/') text)) attr op)
            pending
        else pass1 env operation rest op pending

/-- The second loop of `Parse`: every directive, through the pointer. -/
def pass2 (env : Env) (pkgPath pkgName : Str) (operation : Ptr) :
    List Str → State → Outcome Unit × State
  | [], s => (Outcome.ok (), s)
  | text :: rest, s =>
    if (TrimSpace (trimLeftBy (fun c => c == '/') text)).length = 0 then
      pass2 env pkgPath pkgName operation rest s
    else
      match parseOperationFromComment env pkgPath pkgName
          (TrimSpace (trimLeftBy (fun c => c == '/') text)) operation s with
      | (Outcome.ok _, s1) => pass2 env pkgPath pkgName operation rest s1
      | (Outcome.error e, s1) => (Outcome.error e, s1)
      | (Outcome.panic, s1) => (Outcome.panic, s1)

/-- `(*parser).Parse`; `astComments` are the `Text`s of the comments.  The new
operation takes the next free address of the heap. -/
def Parse (env : Env) (pkgPath pkgName : Str) (astComments : List Str) (s : State) :
    Outcome Unit × State :=
  if !HasPrefix pkgPath env.ModulePath ||
      (env.HandlerPath != [] && !HasPrefix pkgPath env.HandlerPath) then
    (Outcome.ok (), { s with operations := s.operations ++ [{}] })
  else
    match pass1 env s.operations.length astComments {} none with
    | (Outcome.error e, op) => (Outcome.error e, { s with operations := s.operations ++ [op] })
    | (Outcome.panic, op) => (Outcome.panic, { s with operations := s.operations ++ [op] })
    | (Outcome.ok none, op) => (Outcome.ok (), { s with operations := s.operations ++ [op] })
    | (Outcome.ok (some route), op) =>
      if env.FilterTag ≠ [] ∧ ¬ (operationMatchesFilter env op = true) then
        (Outcome.ok (), { s with operations := s.operations ++ [op] })
      else
        match pass2 env pkgPath pkgName s.operations.length astComments
            { s with operations := s.operations ++ [op] } with
        | (Outcome.ok _, s2) => addRouteToOpenAPI (some route) s2
        | (Outcome.error e, s2) => (Outcome.error e, s2)
        | (Outcome.panic, s2) => (Outcome.panic, s2)

/-! ## `writer/writer.go` -/

/-- `containsTag`. -/
def containsTag (tags : List Str) (targetTag : Str) : Bool :=
  match tags with
  | [] => false
  | tag :: rest => if tag = targetTag then true else containsTag rest targetTag

/-- The test `pathItem.M != nil && containsTag(pathItem.M.Tags, filterTag)` for
one method slot.  An address outside the heap, which no Go run produces, is
read as an operation that is not kept. -/
def keepSlot (s : State) (filterTag : Str) (slot : Option Ptr) : Bool :=
  match slot with
  | none => false
  | some a =>
    match s.operations[a]? with
    | none => false
    | some op => containsTag op.Tags filterTag

/-- The body of the loop of `filterPathsByTag` for one path item:
`filteredPathItem` and `hasMatchingOperation`. -/
def filterPathItem (s : State) (filterTag : Str) (pathItem : PathItemObject) :
    PathItemObject × Bool :=
  ({ Get := if keepSlot s filterTag pathItem.Get then pathItem.Get else none,
     Post := if keepSlot s filterTag pathItem.Post then pathItem.Post else none,
     Put := if keepSlot s filterTag pathItem.Put then pathItem.Put else none,
     Patch := if keepSlot s filterTag pathItem.Patch then pathItem.Patch else none,
     Delete := if keepSlot s filterTag pathItem.Delete then pathItem.Delete else none,
     Options := if keepSlot s filterTag pathItem.Options then pathItem.Options else none,
     Head := if keepSlot s filterTag pathItem.Head then pathItem.Head else none,
     Trace := if keepSlot s filterTag pathItem.Trace then pathItem.Trace else none,
     Ref := pathItem.Ref,
     Summary := pathItem.Summary,
     Description := pathItem.Description },
   keepSlot s filterTag pathItem.Get || keepSlot s filterTag pathItem.Post ||
   keepSlot s filterTag pathItem.Put || keepSlot s filterTag pathItem.Patch ||
   keepSlot s filterTag pathItem.Delete || keepSlot s filterTag pathItem.Options ||
   keepSlot s filterTag pathItem.Head || keepSlot s filterTag pathItem.Trace)

/-- The loop of `filterPathsByTag` over the entries of `Paths`, filling
`filteredPaths`.  The entries are visited in the order of the list; each one
is handled on its own, so the map that results does not depend on the order. -/
def filterPathsLoop (s : State) (filterTag : Str) :
    List (Str × PathItemObject) → List (Str × PathItemObject) → List (Str × PathItemObject)
  | [], filteredPaths => filteredPaths
  | (path, pathItem) :: rest, filteredPaths =>
    if (filterPathItem s filterTag pathItem).2 then
      filterPathsLoop s filterTag rest
        (mapSet filteredPaths path (filterPathItem s filterTag pathItem).1)
    else filterPathsLoop s filterTag rest filteredPaths

/-- `filterPathsByTag`. -/
def filterPathsByTag (filterTag : Str) (s : State) : State :=
  if filterTag = [] then s
  else { s with Paths := filterPathsLoop s filterTag s.Paths [] }

/-- The loop of `filterSchemaWithoutPkg`.  `order` is the order in which the
`range` visits the keys; a key that has been deleted before it is reached is
not visited, as Go specifies.  The index `key_sep[len(key_sep)-1]` panics on
an empty slice. -/
def filterSchemaLoop : List Str → List (Str × Ptr) → Outcome Unit × List (Str × Ptr)
  | [], schemas => (Outcome.ok (), schemas)
  | key :: rest, schemas =>
    match mapGet schemas key with
    | none => filterSchemaLoop rest schemas
    | some _ =>
      match (splitOnChar '.' key).getLast? with
      | none => (Outcome.panic, schemas)
      | some key_sep_last =>
        if (splitOnChar '.' key).length > 1 ∧ (mapGet schemas key_sep_last).isSome = true then
          filterSchemaLoop rest (mapDelete schemas key_sep_last)
        else filterSchemaLoop rest schemas

/-- `filterSchemaWithoutPkg`, with the order in which the keys are visited. -/
def filterSchemaWithoutPkg (order : List Str) (s : State) : Outcome Unit × State :=
  ((filterSchemaLoop order s.Schemas).1, { s with Schemas := (filterSchemaLoop order s.Schemas).2 })

/-! ## A concrete environment

Used to evaluate the embedding on concrete comment blocks. -/

/-- Modelled from the spec: the basic-type classifier of the `utils` package,
which is not among the sources (a table lookup on type names). -/
def demoIsBasicGoType (typeName : Str) : Bool :=
  typeName ∈ ["string".toList, "int".toList, "int64".toList, "bool".toList, "float64".toList]

/-- Modelled from the spec: `parseResourceAndTag`, which is not among the
sources; it records the tag into the operation's tag set. -/
def demoParseResourceAndTag (comment attr : Str) (op : OperationObject) : OperationObject :=
  if TrimSpace (comment.drop attr.length) ∈ op.Tags then op
  else { op with Tags := op.Tags ++ [TrimSpace (comment.drop attr.length)] }

/-- Modelled from the spec: the resolver for primitive type names, which is
not among the sources; a primitive gets a fresh literal schema. -/
def demoParseBasic (_pkgPath _pkgName typeName : Str) (s : State) :
    (SchemaResult × Bool) × State :=
  if demoIsBasicGoType typeName then
    (({ schema := some s.schemaObjects.length, err := none }, true),
      { s with schemaObjects := s.schemaObjects ++
          [{ Type_ := if typeName = "int".toList ∨ typeName = "int64".toList then "integer".toList
                      else if typeName = "bool".toList then "boolean".toList
                      else if typeName = "float64".toList then "number".toList
                      else "string".toList }] })
  else (({ schema := none, err := none }, false), s)

/-- Modelled from the spec: the resolver for declared types, which is not
among the sources; here a type is known when `KnownIDSchema` holds its ID. -/
def demoParseCustom (_pkgPath pkgName typeName : Str) (s : State) : SchemaResult × State :=
  match mapGet s.KnownIDSchema (pkgName ++ ['.'] ++ typeName) with
  | some ptr => ({ schema := some ptr, err := none }, s)
  | none => ({ schema := none, err := some ("can not find definition of ".toList ++ typeName) }, s)

/-- Modelled from the spec: one environment for the parts that are not among
the sources: module path `app`, no handler path, no filter tag, ASCII case
tables, status codes 100 to 599, package-qualified schema IDs. -/
def demoEnv : Env where
  ModulePath := "app".toList
  HandlerPath := []
  FilterTag := []
  SchemaWithoutPkg := false
  lower := Char.toLower
  upper := Char.toUpper
  IsValidHTTPStatusCode := fun n => decide (100 ≤ n ∧ n < 600)
  IsBasicGoType := demoIsBasicGoType
  IsInterfaceType := fun typeName => typeName == "interface\x7b\x7d".toList
  GenSchemaObjectID := fun pkgName typeName withoutPkg =>
    if withoutPkg then typeName else pkgName ++ ['.'] ++ typeName
  ReplaceBackslash := fun x => x.map (fun c => if c = Char.ofNat 92 then '/' else c)
  AddSchemaRefLinkPrefix := fun name => "#/components/schemas/".toList ++ name
  parseResourceAndTag := demoParseResourceAndTag
  parseParamComment := fun _ _ _ _ s => (Outcome.ok (), s)
  parseHeaders := fun _ _ _ _ s => (Outcome.ok (), s)
  parseBasicTypeSchemaObject := demoParseBasic
  parseCustomTypeSchemaObject := demoParseCustom
  mapOrder := fun m => m

/-- The environment `demoEnv` with the filter tag `billing` configured. -/
def demoEnvBilling : Env := { demoEnv with FilterTag := "billing".toList }

/-- A state in which the package `h` has the two known types `Wrapper` (with the
properties `code` and `data`) and `Item`, and one fresh operation is allocated. -/
def demoKnownState : State :=
  { KnownIDSchema := [("h.Wrapper".toList, 0), ("h.Item".toList, 1)],
    schemaObjects :=
      [{ ID := "h.Wrapper".toList, Type_ := "object".toList, Properties := some 0 },
       { ID := "h.Item".toList, Type_ := "object".toList },
       { Type_ := "integer".toList }, { Type_ := "string".toList }],
    orderedMaps := [[("code".toList, 2), ("data".toList, 3)]],
    operations := [{}] }

/-- A document with two path items: `/internal`, whose GET operation is tagged
`internal`, and `/public`, whose GET and POST operations are tagged `public`. -/
def demoTaggedState : State :=
  { Paths := [("/internal".toList, { Get := some 0 }),
              ("/public".toList, { Get := some 1, Post := some 2, Summary := "pets".toList })],
    operations := [{ Tags := ["internal".toList] }, { Tags := ["public".toList] },
                   { Tags := ["public".toList, "v2".toList] }] }

/-- The comment block of the spec's pass-ordering example. -/
def demoAdminBlock : List Str :=
  ["// @tag admin".toList, "// @route /x [get]".toList,
   "// @success 200 object User \"x\"".toList]

/-- A block whose route directive comes before a response directive with the
invalid status 999. -/
def demoFailingBlock : List Str :=
  ["// @route /x [get]".toList, "// @success 999 object User \"bad\"".toList]

/-! ## Vocabulary of the statements -/

/-- The eight verbs that have a slot in a path item. -/
def httpVerbs : List Str :=
  ["GET".toList, "POST".toList, "PATCH".toList, "PUT".toList, "DELETE".toList,
   "OPTIONS".toList, "HEAD".toList, "TRACE".toList]

/-- The method slot of a path item that belongs to an upper-case verb. -/
def slotOf (M : Str) (item : PathItemObject) : Option Ptr :=
  if M = "GET".toList then item.Get
  else if M = "POST".toList then item.Post
  else if M = "PATCH".toList then item.Patch
  else if M = "PUT".toList then item.Put
  else if M = "DELETE".toList then item.Delete
  else if M = "OPTIONS".toList then item.Options
  else if M = "HEAD".toList then item.Head
  else if M = "TRACE".toList then item.Trace
  else none

/-- The operation behind a method slot is there and has the tag `t` in its tag list. -/
def carriesTag (s : State) (t : Str) (slot : Option Ptr) : Prop :=
  ∃ a op, slot = some a ∧ s.operations[a]? = some op ∧ t ∈ op.Tags

/-- The comment is a route-binding directive for `Parse`: the first field of
the normalised line lower-cases to `@route` or `@router`. -/
def isRouteDirective (env : Env) (text : Str) : Bool :=
  match Fields (TrimSpace (trimLeftBy (fun c => c == '/') text)) with
  | [] => false
  | attr :: _ =>
    ToLower env attr == "@route".toList || ToLower env attr == "@router".toList

/-- The six jsonType keywords of a simple response. -/
def simpleJsonTypes : List Str :=
  ["\x7bstring\x7d".toList, "\x7binteger\x7d".toList, "\x7bboolean\x7d".toList,
   "string".toList, "integer".toList, "boolean".toList]

/-- A jsonType keyword with its braces removed. -/
def withoutBraces (j : Str) : Str := j.filter (fun c => c != '{' && c != '}')

/-- The first character of `rest`, if there is one, is outside the class `C`. -/
def stopsAt (C : Char → Bool) (rest : Str) : Prop := ∀ c cs, rest = c :: cs → C c = false

/-- The text of a `@description` directive: the line's first field lower-cases
to `@description`, and the text is what follows it, trimmed. -/
def descriptionText (env : Env) (comment : Str) : Option Str :=
  match Fields comment with
  | [] => none
  | attr :: _ =>
    if ToLower env attr = "@description".toList then
      some (TrimSpace (comment.drop attr.length))
    else none

/-- The container type `complexResponseObject` reads out of a type reference:
the reference without its first `{...}` group, trimmed, or the reference
itself when it has no such group. -/
def containerOf (typ : Str) : Str :=
  if (genericFindStringSubmatch typ).length > 1 then
    TrimSpace (replaceFirst ((genericFindStringSubmatch typ).getD 0 []) [] typ)
  else typ

/-- The field mappings `complexResponseObject` reads out of a type reference:
one per field named in a well-formed `field=Type` entry of the `{...}` group. -/
def overridesOf (typ : Str) : List (Str × Str) :=
  if (genericFindStringSubmatch typ).length > 1 then
    collectFieldMappings (splitOnChar ',' ((genericFindStringSubmatch typ).getD 1 [])) []
  else []

/-- The last of the `.`-separated segments of a registry key. -/
def lastSegment (key : Str) : Str := ((splitOnChar '.' key).getLast?).getD []

/-- The key has at least two `.`-separated segments. -/
def hasPkg (key : Str) : Bool := decide ((splitOnChar '.' key).length > 1)

/-- Some key of the registry with at least two segments has `k` as its last segment. -/
def shadowedBy (schemas : List (Str × Ptr)) (k : Str) : Bool :=
  schemas.any (fun e => hasPkg e.1 && lastSegment e.1 == k)

/-- A registry with the qualified keys `h.Wrapper` and `h.Item`, the short
alias `Item` and the unqualified key `Other`, over the heaps of `demoKnownState`. -/
def demoRegistryState : State :=
  { demoKnownState with
    Schemas := [("h.Wrapper".toList, 0), ("h.Item".toList, 1), ("Item".toList, 1),
                ("Other".toList, 2)] }

/-- One entry of a `{...}` group, read as `field=Type`: the trimmed text before
the first `=` and the trimmed text after it; nothing for an entry without `=`
(an empty entry is one). -/
def parseEntry (entry : Str) : Option (Str × Str) :=
  if '=' ∈ TrimSpace entry then
    some (TrimSpace ((TrimSpace entry).takeWhile (fun c => c != '=')),
          TrimSpace (((TrimSpace entry).dropWhile (fun c => c != '=')).drop 1))
  else none

/-- The type that the entries of a `{...}` group give to a field: the one of
the last `field=Type` entry that names the field. -/
def overrideOf (entries : List Str) (field : Str) : Option Str :=
  ((entries.filterMap parseEntry).reverse.find? (fun p => p.1 == field)).map Prod.snd

/-- Every cell of the two schema heaps that is allocated in `s` has the same
content in `t`. -/
def keepsHeap (s t : State) : Prop :=
  (∀ (i : Nat) x, s.schemaObjects[i]? = some x → t.schemaObjects[i]? = some x) ∧
  (∀ (i : Nat) m, s.orderedMaps[i]? = some m → t.orderedMaps[i]? = some m)

/-- The property `I` of states does not depend on the two schema heaps, and a
call of the resolver from a state with `I` ends in a state with `I` in which
the allocated cells of the two heaps are as they were. -/
def resolverInvariant (env : Env) (pkgPath pkgName : Str) (I : State → Prop) : Prop :=
  (∀ typeName s, I s →
    I (ParseSchemaObject env pkgPath pkgName typeName s).2 ∧
    keepsHeap s (ParseSchemaObject env pkgPath pkgName typeName s).2) ∧
  (∀ s objs maps, I s → I { s with schemaObjects := objs, orderedMaps := maps })

/-- The schema object behind what the resolver returned for a container: the
object at the pointer, or the fresh `object` schema that stands in for `nil`. -/
def resolvedSchema (s : State) (res : Option Ptr) : SchemaObject :=
  match res with
  | none => { Type_ := "object".toList }
  | some c => (s.schemaObjects[c]?).getD {}

/-- The property map of `resolvedSchema`, empty when the object has none. -/
def resolvedProperties (s : State) (res : Option Ptr) : List (Str × Ptr) :=
  match (resolvedSchema s res).Properties with
  | none => []
  | some props => (s.orderedMaps[props]?).getD []

/-- A pointer the resolver returned is allocated, and so is the property map
of the object behind it. -/
def allocated (s : State) (res : Option Ptr) : Prop :=
  ∀ c, res = some c → ∃ obj, s.schemaObjects[c]? = some obj ∧
    ∀ props, obj.Properties = some props → ∃ m, s.orderedMaps[props]? = some m

/-- The entries of the reference `Wrapper{data=Item, oops, , extra=int}`: two
`field=Type` entries, one entry without `=` and one empty entry. -/
def demoOverrideBody : Str := "data=Item, oops, , extra=int".toList

/-- The resolver's view of `demoKnownState`: the known schema IDs are those of
`demoKnownState`. -/
def demoKnown (t : State) : Prop := t.KnownIDSchema = demoKnownState.KnownIDSchema

/-- The state after `complexResponseObject` has handled the reference
`Wrapper{data=Item}` on `demoRegistryState`. -/
def demoAfterItem : State :=
  (complexResponseObject demoEnv "app/h".toList "h".toList
    "Wrapper\x7bdata=Item\x7d".toList {} demoRegistryState).2

/-- An array reference as text: one bracketed annotation per entry of `sizes`
(`[]` for an empty entry), then the element type. -/
def arrayRef (sizes : List Str) (elem : Str) : Str :=
  sizes.foldr (fun w acc => '[' :: (w ++ ']' :: acc)) elem

/-- The run of the resolver over the field mappings, in the order they are
visited, from the state `s` to the state `s2`: each type is resolved in the
state the step before has left, and the pointer returned is set for the field
in the property map at `props`.  `steps` lists, per field, the pointer the
resolver returned and the state in which it returned it. -/
def overrideRun (env : Env) (pkgPath pkgName : Str) (props : Ptr) :
    List (Str × Str) → List (Str × Ptr × State) → State → State → Prop
  | [], [], s, s2 => s2 = s
  | (f, T) :: rest, (g, p, t) :: steps, s, s2 =>
    g = f ∧ ParseSchemaObject env pkgPath pkgName T s = (⟨some p, none⟩, t) ∧
    ∃ m, t.orderedMaps[props]? = some m ∧
      overrideRun env pkgPath pkgName props rest steps
        { t with orderedMaps := t.orderedMaps.set props (mapSet m f p) } s2
  | _, _, _, _ => False

/-! ## Lemmas on maps -/

theorem mapGet_mapSet_self {β : Type} (m : List (Str × β)) (k : Str) (v : β) :
    mapGet (mapSet m k v) k = some v := by
  induction m with
  | nil => simp [mapSet, mapGet]
  | cons e rest ih =>
    obtain ⟨k1, v1⟩ := e
    by_cases h : k1 = k
    · simp [mapSet, mapGet, h]
    · simp [mapSet, mapGet, h, ih]

theorem mapGet_mapSet_ne {β : Type} (m : List (Str × β)) (k q : Str) (v : β) (h : q ≠ k) :
    mapGet (mapSet m k v) q = mapGet m q := by
  induction m with
  | nil =>
    have h1 : ¬ k = q := fun e => h e.symm
    simp [mapSet, mapGet, h1]
  | cons e rest ih =>
    obtain ⟨k1, v1⟩ := e
    by_cases h1 : k1 = k
    · have h2 : ¬ k = q := fun e => h e.symm
      subst h1
      simp [mapSet, mapGet, h2]
    · by_cases h2 : k1 = q
      · subst h2
        simp [mapSet, mapGet, h1]
      · simp [mapSet, mapGet, h1, h2, ih]

theorem mapGet_mapSet {β : Type} (m : List (Str × β)) (k q : Str) (v : β) :
    mapGet (mapSet m k v) q = if q = k then some v else mapGet m q := by
  by_cases h : q = k
  · subst h
    simp [mapGet_mapSet_self]
  · simp [h, mapGet_mapSet_ne]

/-! ## Operation IDs -/

/-- C3. `validateOperationID` returns an error exactly when the ID is non-empty
and already used; on an error and on an empty ID the state is unchanged,
otherwise the ID is added to the used set and nothing else changes; no used ID
is ever dropped; and a fresh non-empty ID passes once and then fails with the
error that quotes it. -/
theorem validateOperationID_unique (operationID : Str) (s : State) :
    ((∃ msg, (validateOperationID operationID s).1 = Outcome.error msg) ↔
      (operationID ≠ [] ∧ operationID ∈ s.usedOperationIds)) ∧
    (¬ (operationID ≠ [] ∧ operationID ∈ s.usedOperationIds) →
      (validateOperationID operationID s).1 = Outcome.ok ()) ∧
    ((operationID = [] ∨ operationID ∈ s.usedOperationIds) →
      (validateOperationID operationID s).2 = s) ∧
    ((operationID ≠ [] ∧ operationID ∉ s.usedOperationIds) →
      (validateOperationID operationID s).2 =
        { s with usedOperationIds := operationID :: s.usedOperationIds }) ∧
    (∀ x, x ∈ s.usedOperationIds → x ∈ (validateOperationID operationID s).2.usedOperationIds) ∧
    ((operationID ≠ [] ∧ operationID ∉ s.usedOperationIds) →
      (validateOperationID operationID s).1 = Outcome.ok () ∧
      (validateOperationID operationID (validateOperationID operationID s).2).1 =
        Outcome.error ("operation ID \x27".toList ++ operationID ++ "\x27 is not unique".toList) ∧
      (validateOperationID operationID (validateOperationID operationID s).2).2 =
        (validateOperationID operationID s).2) := by
  by_cases h0 : operationID = []
  · subst h0
    simp [validateOperationID]
  · by_cases h1 : operationID ∈ s.usedOperationIds
    · simp [validateOperationID, h0, h1]
    · simp [validateOperationID, h0, h1]
      intro x hx
      exact Or.inr hx

/-- C3, at the ID `getUser` of the spec: the first validation passes and the
second one fails with the error that names `getUser`. -/
theorem validateOperationID_unique_witness :
    (validateOperationID "getUser".toList ({} : State)).1 = Outcome.ok () ∧
    (validateOperationID "getUser".toList (validateOperationID "getUser".toList {}).2).1 =
      Outcome.error "operation ID \x27getUser\x27 is not unique".toList ∧
    (validateOperationID "getUser".toList (validateOperationID "getUser".toList {}).2).2 =
      (validateOperationID "getUser".toList {}).2 :=
  (validateOperationID_unique "getUser".toList {}).2.2.2.2.2 ⟨by decide, by decide⟩

/-! ## Route binding -/

theorem slotOf_bindMethod_same (M : Str) (o : Option Ptr) (item : PathItemObject)
    (hM : M ∈ httpVerbs) : slotOf M (bindMethod M o item) = o := by
  simp only [httpVerbs, List.mem_cons, List.mem_singleton, List.not_mem_nil, or_false] at hM
  rcases hM with h | h | h | h | h | h | h | h <;> subst h <;> rfl

theorem slotOf_bindMethod_other (M N : Str) (o : Option Ptr) (item : PathItemObject)
    (hM : M ∈ httpVerbs) (hN : N ∈ httpVerbs) (hne : N ≠ M) :
    slotOf N (bindMethod M o item) = slotOf N item := by
  simp only [httpVerbs, List.mem_cons, List.mem_singleton, List.not_mem_nil, or_false] at hM hN
  rcases hM with h | h | h | h | h | h | h | h <;> subst h <;>
    rcases hN with h | h | h | h | h | h | h | h <;> subst h <;>
    first
      | rfl
      | exact absurd rfl hne

theorem bindMethod_meta (M : Str) (o : Option Ptr) (item : PathItemObject) :
    (bindMethod M o item).Ref = item.Ref ∧ (bindMethod M o item).Summary = item.Summary ∧
    (bindMethod M o item).Description = item.Description := by
  unfold bindMethod
  repeat' split
  all_goals exact ⟨rfl, rfl, rfl⟩

theorem bindRoute_spec (path method : Str) (operation : Option Ptr) (s : State) :
    bindRoute path method operation s =
      (Outcome.ok (), { s with
        Paths := mapSet s.Paths path
          (bindMethod method operation ((mapGet s.Paths path).getD {})) }) := by
  unfold bindRoute
  cases h : mapGet s.Paths path with
  | none =>
    simp only [mapGet_mapSet_self, Option.getD_none]
    congr 2
    induction s.Paths with
    | nil => simp [mapSet]
    | cons e rest ih =>
      obtain ⟨k1, v1⟩ := e
      by_cases h1 : k1 = path
      · simp [mapSet, h1]
      · simp [mapSet, h1, ih]
  | some item => simp [h]

/-- C6. For each of the eight verbs `addRouteToOpenAPI` returns no error; the
slot of the verb at the path holds the operation afterwards; the other seven
slots and the three strings of that path item are those of the item that was
there (of an empty item when the path is new); the entry of every other path
and everything outside the path table are unchanged; and binding DELETE and
then GET on one path leaves both slots populated. -/
theorem addRouteToOpenAPI_own_slot (s : State) (p M : Str) (o : Ptr) (hM : M ∈ httpVerbs) :
    (addRouteToOpenAPI (some { path := p, method := M, operation := some o }) s).1 =
      Outcome.ok () ∧
    (∃ item,
      mapGet (addRouteToOpenAPI (some { path := p, method := M, operation := some o }) s).2.Paths p
        = some item ∧
      slotOf M item = some o ∧
      (∀ N, N ∈ httpVerbs → N ≠ M → slotOf N item = slotOf N ((mapGet s.Paths p).getD {})) ∧
      (mapGet s.Paths p = none → ∀ N, N ∈ httpVerbs → N ≠ M → slotOf N item = none) ∧
      item.Ref = ((mapGet s.Paths p).getD {}).Ref ∧
      item.Summary = ((mapGet s.Paths p).getD {}).Summary ∧
      item.Description = ((mapGet s.Paths p).getD {}).Description) ∧
    (∀ q, q ≠ p →
      mapGet (addRouteToOpenAPI (some { path := p, method := M, operation := some o }) s).2.Paths q
        = mapGet s.Paths q) ∧
    (addRouteToOpenAPI (some { path := p, method := M, operation := some o }) s).2 =
      { s with
        Paths := (addRouteToOpenAPI
          (some { path := p, method := M, operation := some o }) s).2.Paths } ∧
    (∀ o1 o2 : Ptr, ∃ item,
      mapGet (addRouteToOpenAPI (some { path := p, method := "GET".toList, operation := some o2 })
        (addRouteToOpenAPI (some { path := p, method := "DELETE".toList, operation := some o1 })
          s).2).2.Paths p = some item ∧
      item.Delete = some o1 ∧ item.Get = some o2) := by
  simp only [addRouteToOpenAPI, bindRoute_spec, mapGet_mapSet_self, Option.getD_some]
  refine ⟨trivial, ?_, ?_, trivial, ?_⟩
  · refine ⟨bindMethod M (some o) ((mapGet s.Paths p).getD {}), rfl, ?_, ?_, ?_, ?_⟩
    · exact slotOf_bindMethod_same M _ _ hM
    · intro N hN hne
      exact slotOf_bindMethod_other M N _ _ hM hN hne
    · intro hnone N hN hne
      rw [slotOf_bindMethod_other M N _ _ hM hN hne, hnone]
      simp only [httpVerbs, List.mem_cons, List.mem_singleton, List.not_mem_nil, or_false] at hN
      rcases hN with h | h | h | h | h | h | h | h <;> subst h <;> rfl
    · exact bindMethod_meta M _ _
  · intro q hq
    exact mapGet_mapSet_ne _ _ _ _ hq
  · intro o1 o2
    exact ⟨_, rfl, rfl, rfl⟩

/-- C6, on the route of the spec: DELETE and then GET are bound on `/pets/{id}`
of an empty path table. -/
theorem addRouteToOpenAPI_own_slot_witness :
    "DELETE".toList ∈ httpVerbs ∧
    (addRouteToOpenAPI
      (some { path := "/pets/\x7bid\x7d".toList, method := "DELETE".toList, operation := some 0 })
      ({} : State)).1 = Outcome.ok () :=
  ⟨by decide,
   (addRouteToOpenAPI_own_slot {} "/pets/\x7bid\x7d".toList "DELETE".toList 0 (by decide)).1⟩

/-! ## Registration -/

theorem mapPutIfAbsent_present {β : Type} (m : List (Str × β)) (key : Str) (v : β) :
    (mapGet (mapPutIfAbsent m key v) key).isSome = true := by
  unfold mapPutIfAbsent
  cases h : mapGet m key with
  | none => simp [mapGet_mapSet_self]
  | some w => simp [h]

theorem mapPutIfAbsent_keeps {β : Type} (m : List (Str × β)) (key q : Str) (v : β)
    (h : (mapGet m q).isSome = true) : (mapGet (mapPutIfAbsent m key v) q).isSome = true := by
  unfold mapPutIfAbsent
  cases h1 : mapGet m key with
  | none =>
    have hne : q ≠ key := by
      intro e
      subst e
      simp [h1] at h
    simp [mapGet_mapSet_ne _ _ _ _ hne, h]
  | some w => simpa using h

theorem mapPutIfAbsent_of_present {β : Type} (m : List (Str × β)) (key : Str) (v : β)
    (h : (mapGet m key).isSome = true) : mapPutIfAbsent m key v = m := by
  unfold mapPutIfAbsent
  cases h1 : mapGet m key with
  | none => simp [h1] at h
  | some w => rfl

/-- C10. For a primitive or interface type name, and for a type whose schema
ID is in `KnownIDSchema`, `RegisterType` returns the identifier (the name
itself, or the generated schema ID) and records no `ParseSchemaObject` call;
a second call with the same arguments returns the same identifier and leaves
the schema registry as the first call left it, with the same schema objects
behind the entries. -/
theorem RegisterType_idempotent (env : Env) (pkgPath pkgName typeName : Str) (s : State)
    (h : env.IsBasicGoType typeName = true ∨ env.IsInterfaceType typeName = true ∨
      (mapGet s.KnownIDSchema
        (env.GenSchemaObjectID pkgName typeName env.SchemaWithoutPkg)).isSome = true) :
    (RegisterType env pkgPath pkgName typeName s).1 =
      Outcome.ok (if env.IsBasicGoType typeName = true ∨ env.IsInterfaceType typeName = true
        then typeName else env.GenSchemaObjectID pkgName typeName env.SchemaWithoutPkg) ∧
    (RegisterType env pkgPath pkgName typeName s).2.resolverCalls =
      s.resolverCalls ++ [ResolverCall.RegisterType pkgPath pkgName typeName] ∧
    (RegisterType env pkgPath pkgName typeName
        (RegisterType env pkgPath pkgName typeName s).2).1 =
      (RegisterType env pkgPath pkgName typeName s).1 ∧
    (RegisterType env pkgPath pkgName typeName
        (RegisterType env pkgPath pkgName typeName s).2).2.Schemas =
      (RegisterType env pkgPath pkgName typeName s).2.Schemas ∧
    (RegisterType env pkgPath pkgName typeName
        (RegisterType env pkgPath pkgName typeName s).2).2.schemaObjects = s.schemaObjects ∧
    (RegisterType env pkgPath pkgName typeName
        (RegisterType env pkgPath pkgName typeName s).2).2.orderedMaps = s.orderedMaps ∧
    (RegisterType env pkgPath pkgName typeName
        (RegisterType env pkgPath pkgName typeName s).2).2.resolverCalls =
      s.resolverCalls ++ [ResolverCall.RegisterType pkgPath pkgName typeName,
        ResolverCall.RegisterType pkgPath pkgName typeName] := by
  by_cases hb : env.IsBasicGoType typeName = true ∨ env.IsInterfaceType typeName = true
  · have hb1 : (env.IsBasicGoType typeName || env.IsInterfaceType typeName) = true := by
      simpa using hb
    simp [RegisterType, hb1, hb]
  · have hb1 : (env.IsBasicGoType typeName || env.IsInterfaceType typeName) = false := by
      simpa using hb
    have hk : (mapGet s.KnownIDSchema
        (env.GenSchemaObjectID pkgName typeName env.SchemaWithoutPkg)).isSome = true := by
      rcases h with h | h | h
      · exact absurd (Or.inl h) hb
      · exact absurd (Or.inr h) hb
      · exact h
    obtain ⟨ptr, hptr⟩ := Option.isSome_iff_exists.mp hk
    by_cases hl : env.ReplaceBackslash typeName =
        env.ReplaceBackslash (env.GenSchemaObjectID pkgName typeName env.SchemaWithoutPkg)
    · simp [RegisterType, hb1, hb, hptr, hl,
        mapPutIfAbsent_of_present _ _ _ (mapPutIfAbsent_present _ _ _)]
    · simp [RegisterType, hb1, hb, hptr, hl,
        mapPutIfAbsent_of_present _ _ _ (mapPutIfAbsent_present _ _ _),
        mapPutIfAbsent_of_present _ _ _
          (mapPutIfAbsent_keeps _ _ _ _ (mapPutIfAbsent_present _ _ _))]

/-- C10, on the known type `Item` of package `h`: the identifier is `h.Item`
both times and the second call adds nothing to the registry. -/
theorem RegisterType_idempotent_witness :
    (RegisterType demoEnv "app/h".toList "h".toList "Item".toList demoKnownState).1 =
      Outcome.ok "h.Item".toList ∧
    (RegisterType demoEnv "app/h".toList "h".toList "Item".toList
        (RegisterType demoEnv "app/h".toList "h".toList "Item".toList demoKnownState).2).2.Schemas =
      (RegisterType demoEnv "app/h".toList "h".toList "Item".toList demoKnownState).2.Schemas :=
  ⟨(RegisterType_idempotent demoEnv "app/h".toList "h".toList "Item".toList demoKnownState
      (Or.inr (Or.inr (by decide)))).1,
   (RegisterType_idempotent demoEnv "app/h".toList "h".toList "Item".toList demoKnownState
      (Or.inr (Or.inr (by decide)))).2.2.2.1⟩

/-! ## Tag-filter pruning -/

theorem containsTag_iff (tags : List Str) (t : Str) : containsTag tags t = true ↔ t ∈ tags := by
  induction tags with
  | nil => simp [containsTag]
  | cons tag rest ih =>
    by_cases h : tag = t
    · simp [containsTag, h]
    · have h1 : ¬ t = tag := fun e => h e.symm
      simp [containsTag, h, h1, ih]

theorem keepSlot_iff (s : State) (t : Str) (slot : Option Ptr) :
    keepSlot s t slot = true ↔ carriesTag s t slot := by
  unfold keepSlot carriesTag
  cases slot with
  | none => simp
  | some a =>
    cases h : s.operations[a]? with
    | none => simp [h]
    | some op => simp [h, containsTag_iff]

theorem mapGet_eq_none_of_not_mem {β : Type} (m : List (Str × β)) (k : Str)
    (h : k ∉ m.map Prod.fst) : mapGet m k = none := by
  induction m with
  | nil => rfl
  | cons e rest ih =>
    obtain ⟨k1, v1⟩ := e
    simp only [List.map_cons, List.mem_cons, not_or] at h
    have h1 : ¬ k1 = k := fun e => h.1 e.symm
    simp [mapGet, h1, ih h.2]

theorem filterPathsLoop_get (s : State) (t : Str) (P : List (Str × PathItemObject))
    (hP : (P.map Prod.fst).Nodup) (acc : List (Str × PathItemObject)) (p : Str) :
    mapGet (filterPathsLoop s t P acc) p =
      match mapGet P p with
      | some item =>
        if (filterPathItem s t item).2 = true then some (filterPathItem s t item).1
        else mapGet acc p
      | none => mapGet acc p := by
  induction P generalizing acc with
  | nil => simp [filterPathsLoop, mapGet]
  | cons e rest ih =>
    obtain ⟨k, item⟩ := e
    simp only [List.map_cons, List.nodup_cons] at hP
    by_cases hk : k = p
    · subst hk
      have hnone : mapGet rest k = none := mapGet_eq_none_of_not_mem rest k hP.1
      by_cases hkeep : (filterPathItem s t item).2 = true
      · simp [filterPathsLoop, mapGet, hkeep, ih hP.2, hnone, mapGet_mapSet_self]
      · simp [filterPathsLoop, mapGet, hkeep, ih hP.2, hnone]
    · have hpk : p ≠ k := fun e => hk e.symm
      by_cases hkeep : (filterPathItem s t item).2 = true
      · simp [filterPathsLoop, mapGet, hkeep, ih hP.2, hk, mapGet_mapSet_ne _ _ _ _ hpk]
      · simp [filterPathsLoop, mapGet, hkeep, ih hP.2, hk]

theorem filterPathItem_has (s : State) (t : Str) (item : PathItemObject) :
    (filterPathItem s t item).2 = true ↔
      ∃ M, M ∈ httpVerbs ∧ keepSlot s t (slotOf M item) = true := by
  constructor
  · intro h
    simp only [filterPathItem, Bool.or_eq_true] at h
    rcases h with ((((((h | h) | h) | h) | h) | h) | h) | h
    · exact ⟨"GET".toList, by decide, h⟩
    · exact ⟨"POST".toList, by decide, h⟩
    · exact ⟨"PUT".toList, by decide, h⟩
    · exact ⟨"PATCH".toList, by decide, h⟩
    · exact ⟨"DELETE".toList, by decide, h⟩
    · exact ⟨"OPTIONS".toList, by decide, h⟩
    · exact ⟨"HEAD".toList, by decide, h⟩
    · exact ⟨"TRACE".toList, by decide, h⟩
  · rintro ⟨M, hM, h⟩
    simp only [httpVerbs, List.mem_cons, List.mem_singleton, List.not_mem_nil, or_false] at hM
    simp only [filterPathItem, Bool.or_eq_true]
    rcases hM with e | e | e | e | e | e | e | e <;> subst e
    · exact Or.inl (Or.inl (Or.inl (Or.inl (Or.inl (Or.inl (Or.inl h))))))
    · exact Or.inl (Or.inl (Or.inl (Or.inl (Or.inl (Or.inl (Or.inr h))))))
    · exact Or.inl (Or.inl (Or.inl (Or.inl (Or.inr h))))
    · exact Or.inl (Or.inl (Or.inl (Or.inl (Or.inl (Or.inr h)))))
    · exact Or.inl (Or.inl (Or.inl (Or.inr h)))
    · exact Or.inl (Or.inl (Or.inr h))
    · exact Or.inl (Or.inr h)
    · exact Or.inr h

theorem filterPathItem_slot (s : State) (t : Str) (item : PathItemObject) (M : Str)
    (hM : M ∈ httpVerbs) :
    slotOf M (filterPathItem s t item).1 =
      if keepSlot s t (slotOf M item) = true then slotOf M item else none := by
  simp only [httpVerbs, List.mem_cons, List.mem_singleton, List.not_mem_nil, or_false] at hM
  rcases hM with e | e | e | e | e | e | e | e <;> subst e <;> rfl

theorem keep_or_none (s : State) (t : Str) (slot : Option Ptr)
    (h : slot ≠ none → keepSlot s t slot = true) :
    (if keepSlot s t slot = true then slot else none) = slot := by
  cases slot with
  | none => simp
  | some a => simp [h (by simp)]

/-- C4. For a path table with one entry per path and a non-empty filter tag,
after `filterPathsByTag` a path is in the table exactly when one of its eight
method operations is there and carries the tag; in a surviving path item each
method slot is the original one when its operation carries the tag and empty
otherwise, and `Ref`, `Summary` and `Description` are the original ones; a
path item that has an operation and all of whose operations carry the tag is
kept as it is; one without an operation that carries the tag is removed;
nothing but the path table changes; with an empty filter tag the state is
unchanged. -/
theorem filterPathsByTag_exact (s : State) (t p : Str) (ht : t ≠ [])
    (hP : (s.Paths.map Prod.fst).Nodup) :
    ((∃ kept, mapGet (filterPathsByTag t s).Paths p = some kept) ↔
      ∃ item, mapGet s.Paths p = some item ∧
        ∃ M, M ∈ httpVerbs ∧ carriesTag s t (slotOf M item)) ∧
    (∀ item kept, mapGet s.Paths p = some item →
      mapGet (filterPathsByTag t s).Paths p = some kept →
        kept.Ref = item.Ref ∧ kept.Summary = item.Summary ∧
        kept.Description = item.Description ∧
        ∀ M, M ∈ httpVerbs →
          (carriesTag s t (slotOf M item) → slotOf M kept = slotOf M item) ∧
          (¬ carriesTag s t (slotOf M item) → slotOf M kept = none)) ∧
    (∀ item, mapGet s.Paths p = some item →
      (∃ M, M ∈ httpVerbs ∧ slotOf M item ≠ none) →
      (∀ M, M ∈ httpVerbs → slotOf M item ≠ none → carriesTag s t (slotOf M item)) →
        mapGet (filterPathsByTag t s).Paths p = some item) ∧
    (∀ item, mapGet s.Paths p = some item →
      (∀ M, M ∈ httpVerbs → ¬ carriesTag s t (slotOf M item)) →
        mapGet (filterPathsByTag t s).Paths p = none) ∧
    filterPathsByTag t s = { s with Paths := (filterPathsByTag t s).Paths } ∧
    filterPathsByTag [] s = s := by
  have hget : mapGet (filterPathsByTag t s).Paths p =
      match mapGet s.Paths p with
      | some item =>
        if (filterPathItem s t item).2 = true then some (filterPathItem s t item).1 else none
      | none => none := by
    simp only [filterPathsByTag, if_neg ht]
    rw [filterPathsLoop_get s t s.Paths hP [] p]
    cases mapGet s.Paths p <;> simp [mapGet]
  have hhas : ∀ item, (filterPathItem s t item).2 = true ↔
      ∃ M, M ∈ httpVerbs ∧ carriesTag s t (slotOf M item) := by
    intro item
    rw [filterPathItem_has]
    constructor
    · rintro ⟨M, hM, h⟩
      exact ⟨M, hM, (keepSlot_iff s t _).mp h⟩
    · rintro ⟨M, hM, h⟩
      exact ⟨M, hM, (keepSlot_iff s t _).mpr h⟩
  refine ⟨?_, ?_, ?_, ?_, ?_, ?_⟩
  · rw [hget]
    cases hitem : mapGet s.Paths p with
    | none => simp
    | some item =>
      by_cases hk : (filterPathItem s t item).2 = true
      · simp only [hk, if_true]
        exact ⟨fun _ => ⟨item, rfl, (hhas item).mp hk⟩, fun _ => ⟨_, rfl⟩⟩
      · simp only [hk]
        constructor
        · rintro ⟨kept, hkept⟩
          simp at hkept
        · rintro ⟨item1, h1, h2⟩
          cases h1
          exact absurd ((hhas item).mpr h2) hk
  · intro item kept hitem hkept
    rw [hget, hitem] at hkept
    by_cases hk : (filterPathItem s t item).2 = true
    · simp only [hk, if_true, Option.some.injEq] at hkept
      subst hkept
      refine ⟨rfl, rfl, rfl, ?_⟩
      intro M hM
      rw [filterPathItem_slot s t item M hM]
      constructor
      · intro hc
        simp [(keepSlot_iff s t _).mpr hc]
      · intro hc
        have hf : ¬ keepSlot s t (slotOf M item) = true := fun h => hc ((keepSlot_iff s t _).mp h)
        simp [hf]
    · simp [hk] at hkept
  · intro item hitem hsome hall
    rw [hget, hitem]
    have hk : (filterPathItem s t item).2 = true := by
      rw [hhas]
      obtain ⟨M, hM, hne⟩ := hsome
      exact ⟨M, hM, hall M hM hne⟩
    have hkeep : ∀ M, M ∈ httpVerbs → slotOf M item ≠ none →
        keepSlot s t (slotOf M item) = true :=
      fun M hM hne => (keepSlot_iff s t _).mpr (hall M hM hne)
    simp only [hk, if_true, Option.some.injEq]
    obtain ⟨ref, summary, description, get, post, patch, put, delete, options, head, trace⟩ := item
    simp only [filterPathItem, PathItemObject.mk.injEq, true_and]
    exact ⟨keep_or_none s t get (hkeep "GET".toList (by decide)),
      keep_or_none s t post (hkeep "POST".toList (by decide)),
      keep_or_none s t patch (hkeep "PATCH".toList (by decide)),
      keep_or_none s t put (hkeep "PUT".toList (by decide)),
      keep_or_none s t delete (hkeep "DELETE".toList (by decide)),
      keep_or_none s t options (hkeep "OPTIONS".toList (by decide)),
      keep_or_none s t head (hkeep "HEAD".toList (by decide)),
      keep_or_none s t trace (hkeep "TRACE".toList (by decide))⟩
  · intro item hitem hnone
    rw [hget, hitem]
    have hk : ¬ (filterPathItem s t item).2 = true := by
      rw [hhas]
      rintro ⟨M, hM, h⟩
      exact hnone M hM h
    simp [hk]
  · simp [filterPathsByTag, ht]
  · simp [filterPathsByTag]

/-- C4, on the document of the spec: filtering by `public` removes `/internal`
and leaves `/public` with identical content. -/
theorem filterPathsByTag_exact_witness :
    mapGet (filterPathsByTag "public".toList demoTaggedState).Paths "/internal".toList = none ∧
    (filterPathsByTag "public".toList demoTaggedState).Paths =
      [("/public".toList, { Get := some 1, Post := some 2, Summary := "pets".toList })] :=
  ⟨(filterPathsByTag_exact demoTaggedState "public".toList "/internal".toList
      (by decide) (by decide)).2.2.2.1 { Get := some 0 } (by decide)
      (fun M hM hc =>
        absurd ((keepSlot_iff demoTaggedState "public".toList _).mpr hc)
          ((by decide : ∀ N, N ∈ httpVerbs →
            ¬ keepSlot demoTaggedState "public".toList
              (slotOf N ({ Get := some 0 } : PathItemObject)) = true) M hM)),
   by decide⟩

/-! ## The two gates of `Parse` -/

theorem dropWhile_head_false (p : Char → Bool) (l : Str) (c : Char) (r : Str)
    (h : l.dropWhile p = c :: r) : p c = false := by
  induction l with
  | nil => simp at h
  | cons a l ih =>
    by_cases ha : p a = true
    · rw [List.dropWhile_cons_of_pos ha] at h
      exact ih h
    · rw [List.dropWhile_cons_of_neg ha] at h
      cases h
      simpa using ha

theorem trimBy_head_false (p : Char → Bool) (x : Str) (c : Char) (r : Str)
    (h : trimBy p x = c :: r) : p c = false := by
  unfold trimBy trimRightBy trimLeftBy at h
  have hpre : ((x.dropWhile p).reverse.dropWhile p).reverse <+: x.dropWhile p := by
    have hs : (x.dropWhile p).reverse.dropWhile p <:+ (x.dropWhile p).reverse :=
      List.dropWhile_suffix p
    have := List.reverse_prefix.mpr hs
    simpa using this
  rw [h] at hpre
  obtain ⟨z, hz⟩ := hpre
  exact dropWhile_head_false p x c (r ++ z) (by simpa using hz.symm)

theorem fieldsAux_ne_nil (cur s : Str) (h : cur ≠ []) : fieldsAux cur s ≠ [] := by
  induction s generalizing cur with
  | nil => simp [fieldsAux, h]
  | cons c cs ih =>
    by_cases hc : isSpace c = true
    · simp [fieldsAux, hc, h]
    · simp only [fieldsAux, hc]
      exact ih (cur ++ [c]) (by simp)

theorem Fields_TrimSpace_ne_nil (x : Str) (h : TrimSpace x ≠ []) : Fields (TrimSpace x) ≠ [] := by
  cases hx : TrimSpace x with
  | nil => exact absurd hx h
  | cons c r =>
    have hc : isSpace c = false := trimBy_head_false isSpace x c r hx
    simp only [Fields, fieldsAux, hc]
    exact fieldsAux_ne_nil _ _ (by simp)

theorem pass1_no_route (env : Env) (operation : Ptr) (cs : List Str)
    (h : ∀ text, text ∈ cs → isRouteDirective env text = false)
    (op : OperationObject) (pending : Option pendingRoute) :
    (pass1 env operation cs op pending).1 = Outcome.ok pending := by
  induction cs generalizing op with
  | nil => rfl
  | cons text rest ih =>
    have hrest : ∀ x, x ∈ rest → isRouteDirective env x = false :=
      fun x hx => h x (List.mem_cons_of_mem _ hx)
    have htext := h text (List.mem_cons_self _ _)
    unfold pass1
    by_cases hlen : (TrimSpace (trimLeftBy (fun c => c == '/') text)).length = 0
    · simp only [hlen, if_true]
      exact ih hrest op
    · simp only [hlen, if_false]
      cases hF : Fields (TrimSpace (trimLeftBy (fun c => c == '/') text)) with
      | nil =>
        exact absurd hF (Fields_TrimSpace_ne_nil _ (by
          intro e
          exact hlen (by simp [e])))
      | cons attr more =>
        simp only [isRouteDirective, hF, Bool.or_eq_false_iff, beq_eq_false_iff_ne, ne_eq]
          at htext
        have hnr : ¬ (ToLower env attr = "@route".toList ∨ ToLower env attr = "@router".toList) :=
          fun e => e.elim htext.1 htext.2
        simp only [hnr, if_false]
        split
        · exact ih hrest _
        · exact ih hrest _

/-- C1, as amended. If no comment of the block is a route directive, or pass 1
ends without an error and a non-empty filter tag is configured that is not
among the tags pass 1 has collected, then `Parse` returns no error, records no resolver call
and leaves the path table, the schema registry, the known schemas, the used
operation IDs and both schema heaps as they were; the only trace is the
operation it had allocated, which nothing refers to. -/
theorem Parse_gate_noop (env : Env) (pkgPath pkgName : Str) (cs : List Str) (s : State)
    (hgate : (∀ text, text ∈ cs → isRouteDirective env text = false) ∨
      (∃ pending, (pass1 env s.operations.length cs {} none).1 = Outcome.ok pending ∧
        env.FilterTag ≠ [] ∧
        env.FilterTag ∉ (pass1 env s.operations.length cs {} none).2.Tags)) :
    (Parse env pkgPath pkgName cs s).1 = Outcome.ok () ∧
    (Parse env pkgPath pkgName cs s).2.resolverCalls = s.resolverCalls ∧
    (Parse env pkgPath pkgName cs s).2.Paths = s.Paths ∧
    (Parse env pkgPath pkgName cs s).2.Schemas = s.Schemas ∧
    (Parse env pkgPath pkgName cs s).2.usedOperationIds = s.usedOperationIds ∧
    (Parse env pkgPath pkgName cs s).2.KnownIDSchema = s.KnownIDSchema ∧
    (Parse env pkgPath pkgName cs s).2.schemaObjects = s.schemaObjects ∧
    (Parse env pkgPath pkgName cs s).2.orderedMaps = s.orderedMaps ∧
    (∃ op, (Parse env pkgPath pkgName cs s).2.operations = s.operations ++ [op]) := by
  unfold Parse
  split
  · exact ⟨rfl, rfl, rfl, rfl, rfl, rfl, rfl, rfl, _, rfl⟩
  · have key : ∃ pending, (pass1 env s.operations.length cs {} none).1 = Outcome.ok pending ∧
        (pending = none ∨ (env.FilterTag ≠ [] ∧
          env.FilterTag ∉ (pass1 env s.operations.length cs {} none).2.Tags)) := by
      rcases hgate with h | ⟨pending, h1, h2, h3⟩
      · exact ⟨none, pass1_no_route env _ cs h {} none, Or.inl rfl⟩
      · exact ⟨pending, h1, Or.inr ⟨h2, h3⟩⟩
    obtain ⟨pending, hp, hcase⟩ := key
    rcases hres : pass1 env s.operations.length cs {} none with ⟨out, op⟩
    rw [hres] at hp hcase
    simp only at hp hcase
    subst hp
    cases pending with
    | none => exact ⟨rfl, rfl, rfl, rfl, rfl, rfl, rfl, rfl, _, rfl⟩
    | some route =>
      rcases hcase with h | ⟨h2, h3⟩
      · cases h
      · have hm : ¬ (operationMatchesFilter env op = true) := by
          simp only [operationMatchesFilter, if_neg h2, List.any_eq_true, beq_iff_eq,
            not_exists, not_and]
          intro x hx e
          exact h3 (e ▸ hx)
        simp only [h2, hm, ne_eq, not_false_eq_true, and_self, if_true]
        exact ⟨rfl, rfl, rfl, rfl, rfl, rfl, rfl, rfl, _, rfl⟩

/-- C1, on the block of the spec with the filter tag `billing`: pass 1 finds the
route and the tag `admin`, the tag gate fails, and nothing is registered or
resolved. -/
theorem Parse_gate_noop_witness :
    (Parse demoEnvBilling "app/h".toList "h".toList demoAdminBlock {}).1 = Outcome.ok () ∧
    (Parse demoEnvBilling "app/h".toList "h".toList demoAdminBlock {}).2.resolverCalls = [] ∧
    (Parse demoEnvBilling "app/h".toList "h".toList demoAdminBlock {}).2.Paths = [] ∧
    (Parse demoEnvBilling "app/h".toList "h".toList demoAdminBlock {}).2.Schemas = [] :=
  ⟨(Parse_gate_noop demoEnvBilling "app/h".toList "h".toList demoAdminBlock {}
      (Or.inr ⟨some { path := "/x".toList, method := "GET".toList, operation := some 0 },
        by decide, by decide, by decide⟩)).1,
   (Parse_gate_noop demoEnvBilling "app/h".toList "h".toList demoAdminBlock {}
      (Or.inr ⟨some { path := "/x".toList, method := "GET".toList, operation := some 0 },
        by decide, by decide, by decide⟩)).2.1,
   (Parse_gate_noop demoEnvBilling "app/h".toList "h".toList demoAdminBlock {}
      (Or.inr ⟨some { path := "/x".toList, method := "GET".toList, operation := some 0 },
        by decide, by decide, by decide⟩)).2.2.1,
   (Parse_gate_noop demoEnvBilling "app/h".toList "h".toList demoAdminBlock {}
      (Or.inr ⟨some { path := "/x".toList, method := "GET".toList, operation := some 0 },
        by decide, by decide, by decide⟩)).2.2.2.1⟩

/-! ## A failed declaration -/

/-- C2, the code at the failing input: `Parse` returns the invalid-status error
of the second line, and the path table, empty before the call, holds `/x` with
the GET slot bound to the operation of the failed declaration. -/
theorem Parse_error_leaves_route :
    (Parse demoEnv "app/h".toList "h".toList demoFailingBlock {}).1 =
      Outcome.error "parseResponseComment: Invalid http status code 999".toList ∧
    ({} : State).Paths = [] ∧
    (Parse demoEnv "app/h".toList "h".toList demoFailingBlock {}).2.Paths =
      [("/x".toList, { Get := some 0 })] := by
  decide

/-! ## Lemmas on the backtracking search -/

theorem star_run {α : Type} (C : Char → Bool) (k : Str → Str → Option α) (d : Str) :
    ∀ (acc rest : Str) (r : α), (∀ c, c ∈ d → C c = true) → stopsAt C rest →
      k (acc ++ d) rest = some r → star C k acc (d ++ rest) = some r := by
  induction d with
  | nil =>
    intro acc rest r _ hstop hk
    simp only [List.append_nil, List.nil_append] at hk ⊢
    cases rest with
    | nil => simpa [star] using hk
    | cons c cs => simpa [star, hstop c cs rfl] using hk
  | cons c d ih =>
    intro acc rest r hall hstop hk
    have hc : C c = true := hall c (List.mem_cons_self _ _)
    have hrec : star C k (acc ++ [c]) (d ++ rest) = some r :=
      ih (acc ++ [c]) rest r (fun x hx => hall x (List.mem_cons_of_mem _ hx)) hstop
        (by simpa using hk)
    simp [star, hc, hrec]

theorem plus_run {α : Type} (C : Char → Bool) (k : Str → Str → Option α) (c : Char)
    (d rest : Str) (r : α) (hc : C c = true) (hall : ∀ x, x ∈ d → C x = true)
    (hstop : stopsAt C rest) (hk : k (c :: d) rest = some r) :
    plus C k (c :: (d ++ rest)) = some r := by
  simp only [plus, hc, if_true]
  exact star_run C k d [c] rest r hall hstop (by simpa using hk)

theorem star_isSome {α : Type} (C : Char → Bool) (k : Str → Str → Option α)
    (hk : ∀ a r, (k a r).isSome = true) : ∀ (s acc : Str), (star C k acc s).isSome = true := by
  intro s
  induction s with
  | nil =>
    intro acc
    simpa [star] using hk acc []
  | cons c cs ih =>
    intro acc
    by_cases hc : C c = true
    · simp only [star, hc, if_true]
      cases h : star C k (acc ++ [c]) cs with
      | none =>
        have := ih (acc ++ [c])
        simp [h] at this
      | some r => simp
    · simp only [star, hc]
      exact hk acc (c :: cs)

theorem star_none {α : Type} (C : Char → Bool) (k : Str → Str → Option α) :
    ∀ (s acc : Str), (∀ a r, r <:+ s → k a r = none) → star C k acc s = none := by
  intro s
  induction s with
  | nil =>
    intro acc h
    simpa [star] using h acc [] (List.suffix_refl _)
  | cons c cs ih =>
    intro acc h
    have h1 : star C k (acc ++ [c]) cs = none :=
      ih (acc ++ [c]) (fun a r hr => h a r (hr.trans (List.suffix_cons c cs)))
    have h2 : k acc (c :: cs) = none := h acc (c :: cs) (List.suffix_refl _)
    by_cases hc : C c = true
    · simp [star, hc, h1, h2]
    · simp [star, hc, h2]

theorem search_of_head {α : Type} (m : Str → Option α) (s : Str) (r : α) (h : m s = some r) :
    search m s = some r := by
  cases s with
  | nil => simpa [search] using h
  | cons c cs => simp [search, h]

theorem search_none {α : Type} (m : Str → Option α) :
    ∀ s : Str, (∀ r, r <:+ s → m r = none) → search m s = none := by
  intro s
  induction s with
  | nil =>
    intro h
    simpa [search] using h [] (List.suffix_refl _)
  | cons c cs ih =>
    intro h
    have h1 : search m cs = none := ih (fun r hr => h r (hr.trans (List.suffix_cons c cs)))
    have h2 : m (c :: cs) = none := h (c :: cs) (List.suffix_refl _)
    simp [search, h1, h2]

/-! ## Lemmas on trimming -/

theorem dropWhile_of_head (p : Char → Bool) (s : Str) (h : ∀ c r, s = c :: r → p c = false) :
    s.dropWhile p = s := by
  cases s with
  | nil => rfl
  | cons c r =>
    have hc : ¬ p c = true := by simp [h c r rfl]
    exact List.dropWhile_cons_of_neg hc

theorem trimBy_id (p : Char → Bool) (s : Str) (hh : ∀ c r, s = c :: r → p c = false)
    (hl : ∀ i c, s = i ++ [c] → p c = false) : trimBy p s = s := by
  unfold trimBy trimRightBy trimLeftBy
  rw [dropWhile_of_head p s hh]
  have hrev : s.reverse.dropWhile p = s.reverse := by
    apply dropWhile_of_head
    intro c r hcr
    apply hl r.reverse c
    have := congrArg List.reverse hcr
    simpa using this
  rw [hrev, List.reverse_reverse]

theorem trimBy_cons_of_pos (p : Char → Bool) (c : Char) (s : Str) (hc : p c = true) :
    trimBy p (c :: s) = trimBy p s := by
  unfold trimBy trimLeftBy
  rw [List.dropWhile_cons_of_pos hc]

/-! ## The route grammar -/

theorem isSpace_of_isRoutePathChar (c : Char) (h : isRoutePathChar c = true) :
    isSpace c = false := by
  simp only [isRoutePathChar, Bool.or_eq_true] at h
  rcases h with ((((h | h) | h) | h) | h) | h
  · simp only [isWord, Bool.or_eq_true, Bool.and_eq_true, decide_eq_true_eq, beq_iff_eq] at h
    simp only [isSpace, Bool.or_eq_false_iff, Bool.and_eq_false_iff, decide_eq_false_iff_not,
      beq_eq_false_iff_ne, ne_eq]
    omega
  all_goals
    have e := eq_of_beq h
    subst e
    decide

theorem routeFindStringSubmatch_shape (p m : Str) (hp : p ≠ [])
    (hpc : ∀ c, c ∈ p → isRoutePathChar c = true) (hm : m ≠ [])
    (hmb : ∀ c, c ∈ m → c ≠ ']') :
    ∃ whole, routeFindStringSubmatch (p ++ (' ' :: '[' :: (m ++ [']']))) = [whole, p, m] := by
  obtain ⟨c, p1, rfl⟩ := List.exists_cons_of_ne_nil hp
  obtain ⟨b, m1, rfl⟩ := List.exists_cons_of_ne_nil hm
  have hmt : ∀ x, x ∈ b :: m1 → (fun c => c != ']') x = true := by
    intro x hx
    simpa using hmb x hx
  have h3 : plus (fun c => c != ']')
      (fun g2 r4 => some [(c :: p1 ++ (' ' :: '[' :: (b :: m1 ++ [']']))).take
        ((c :: p1 ++ (' ' :: '[' :: (b :: m1 ++ [']']))).length - r4.length), c :: p1, g2])
      (b :: (m1 ++ [']'])) =
      some [(c :: p1 ++ (' ' :: '[' :: (b :: m1 ++ [']']))).take
        ((c :: p1 ++ (' ' :: '[' :: (b :: m1 ++ [']']))).length - 1), c :: p1, b :: m1] :=
    plus_run _ _ b m1 [']'] _ (hmt b (List.mem_cons_self _ _))
      (fun x hx => hmt x (List.mem_cons_of_mem _ hx))
      (by intro x xs e; cases e; decide) rfl
  have h1 := plus_run isRoutePathChar
    (fun g1 r1 =>
      plus (fun c => c != '[') (fun _ r2 =>
        match r2 with
        | [] => none
        | c0 :: r3 =>
          if c0 = '[' then
            plus (fun c => c != ']')
              (fun g2 r4 => some [(c :: p1 ++ (' ' :: '[' :: (b :: m1 ++ [']']))).take
                ((c :: p1 ++ (' ' :: '[' :: (b :: m1 ++ [']']))).length - r4.length), g1, g2]) r3
          else none) r1)
    c p1 (' ' :: '[' :: (b :: m1 ++ [']'])) _ (hpc c (List.mem_cons_self _ _))
    (fun x hx => hpc x (List.mem_cons_of_mem _ hx))
    (by intro x xs e; cases e; decide)
    (by
      have h2 := plus_run (fun c => c != '[')
        (fun _ r2 =>
          match r2 with
          | [] => none
          | c0 :: r3 =>
            if c0 = '[' then
              plus (fun c => c != ']')
                (fun g2 r4 => some [(c :: p1 ++ (' ' :: '[' :: (b :: m1 ++ [']']))).take
                  ((c :: p1 ++ (' ' :: '[' :: (b :: m1 ++ [']']))).length - r4.length),
                  c :: p1, g2]) r3
            else none)
        ' ' [] ('[' :: (b :: m1 ++ [']'])) _ (by decide) (by simp)
        (by intro x xs e; cases e; decide)
        (by simpa using h3)
      simpa using h2)
  unfold routeFindStringSubmatch
  rw [search_of_head routeRegexAt _ _ (by simpa [routeRegexAt] using h1)]
  exact ⟨_, rfl⟩

theorem keyword_length (env : Env) (kw : Str)
    (hkw : ToLower env kw = "@route".toList ∨ ToLower env kw = "@router".toList) :
    kw.length = 6 ∨ kw.length = 7 := by
  rcases hkw with h | h
  · left
    have := congrArg List.length h
    simpa [ToLower] using this
  · right
    have := congrArg List.length h
    simpa [ToLower] using this

/-- C5. For a keyword that lower-cases to `@route` or `@router`, a non-empty
path token of word characters, `.`, `/`, `-`, `{`, `}` and a non-empty method
text without `[` and `]`, `parseRouteInfo` on `<keyword> <path> [<method>]`
succeeds with exactly that path and the upper-cased method. -/
theorem parseRouteInfo_round_trip (env : Env) (kw p m : Str)
    (hkw : ToLower env kw = "@route".toList ∨ ToLower env kw = "@router".toList)
    (hp : p ≠ []) (hpc : ∀ c, c ∈ p → isRoutePathChar c = true)
    (hm : m ≠ []) (hmb : ∀ c, c ∈ m → c ≠ '[' ∧ c ≠ ']') :
    parseRouteInfo env (kw ++ (' ' :: (p ++ (' ' :: '[' :: (m ++ [']']))))) =
      Outcome.ok { path := p, method := ToUpper env m, operation := none } := by
  obtain ⟨whole, hms⟩ := routeFindStringSubmatch_shape p m hp hpc hm (fun c hc => (hmb c hc).2)
  have htrim : TrimSpace (p ++ (' ' :: '[' :: (m ++ [']']))) =
      p ++ (' ' :: '[' :: (m ++ [']'])) := by
    apply trimBy_id
    · intro c r e
      obtain ⟨c0, p1, rfl⟩ := List.exists_cons_of_ne_nil hp
      simp only [List.cons_append, List.cons.injEq] at e
      rw [← e.1]
      exact isSpace_of_isRoutePathChar c0 (hpc c0 (List.mem_cons_self _ _))
    · intro i c e
      have e1 : p ++ (' ' :: '[' :: (m ++ [']'])) = (p ++ (' ' :: '[' :: m)) ++ [']'] := by simp
      rw [e1] at e
      have := List.append_inj_right' e rfl
      cases this
      decide
  have hsrc : TrimSpace ((kw ++ (' ' :: (p ++ (' ' :: '[' :: (m ++ [']']))))).drop 7) =
      p ++ (' ' :: '[' :: (m ++ [']'])) := by
    rcases keyword_length env kw hkw with h6 | h7
    · have : (kw ++ (' ' :: (p ++ (' ' :: '[' :: (m ++ [']']))))).drop 7 =
          p ++ (' ' :: '[' :: (m ++ [']'])) := by
        have : List.drop (kw.length + 1) (kw ++ (' ' :: (p ++ (' ' :: '[' :: (m ++ [']']))))) =
            List.drop 1 (' ' :: (p ++ (' ' :: '[' :: (m ++ [']'])))) := List.drop_append 1
        rw [h6] at this
        simpa using this
      rw [this, htrim]
    · have : (kw ++ (' ' :: (p ++ (' ' :: '[' :: (m ++ [']']))))).drop 7 =
          ' ' :: (p ++ (' ' :: '[' :: (m ++ [']']))) := by
        have : List.drop (kw.length + 0) (kw ++ (' ' :: (p ++ (' ' :: '[' :: (m ++ [']']))))) =
            List.drop 0 (' ' :: (p ++ (' ' :: '[' :: (m ++ [']'])))) := List.drop_append 0
        rw [h7] at this
        simpa using this
      rw [this]
      unfold TrimSpace at htrim ⊢
      rw [trimBy_cons_of_pos isSpace ' ' _ (by decide), htrim]
  have hlen : ¬ (kw ++ (' ' :: (p ++ (' ' :: '[' :: (m ++ [']']))))).length < 7 := by
    rcases keyword_length env kw hkw with h | h
    · simp only [List.length_append, List.length_cons, h]
      omega
    · simp [h]
  unfold parseRouteInfo
  simp only [hlen, if_false, hsrc, hms]
  simp

/-- C5, on the directive of the spec: `@router /pets/{id} [delete]` gives the
path `/pets/{id}` and the method `DELETE`. -/
theorem parseRouteInfo_round_trip_witness :
    parseRouteInfo demoEnv "@router /pets/\x7bid\x7d [delete]".toList =
      Outcome.ok { path := "/pets/\x7bid\x7d".toList, method := "DELETE".toList,
                   operation := none } :=
  parseRouteInfo_round_trip demoEnv "@router".toList "/pets/\x7bid\x7d".toList
    "delete".toList (by decide) (by decide) (by decide) (by decide) (by decide)

/-! ## The response grammar -/

theorem respDescription_isSome (jsonType goType r6 : Str) :
    (respDescription jsonType goType r6).isSome = true := by
  unfold respDescription
  exact star_isSome (fun c => c != '\n')
    (fun description r7 => some (jsonType, goType, description, r7)) (fun _ _ => rfl) r6 []

theorem respNotQuote_isSome (jsonType goType r5 : Str) :
    (respNotQuote jsonType goType r5).isSome = true := by
  unfold respNotQuote
  exact star_isSome _ _ (fun _ r => respDescription_isSome jsonType goType r) r5 []

theorem respGoType_isSome (jsonType r4 : Str) : (respGoType jsonType r4).isSome = true := by
  unfold respGoType opt
  cases plus isGoTypeChar (fun goType r5 => respNotQuote jsonType goType r5) r4 with
  | none => exact respNotQuote_isSome jsonType [] r4
  | some r => rfl

theorem respSpace_isSome (jsonType : Str) (w : Char) (rest : Str) (hw : reSpace w = true) :
    (respSpace jsonType (w :: rest)).isSome = true := by
  simp only [respSpace, plus, hw, if_true]
  exact star_isSome _ _ (fun _ r => respGoType_isSome jsonType r) rest [w]

theorem respJsonType_isSome (w : Char) (rest : Str) (hw : reSpace w = true) :
    (respJsonType (w :: rest)).isSome = true := by
  unfold respJsonType opt
  cases plus isJsonTypeChar (fun jsonType r3 => respSpace jsonType r3) (w :: rest) with
  | none => exact respSpace_isSome [] w rest hw
  | some r => rfl

theorem responseTailAt_isSome (w : Char) (rest : Str) (hw : reSpace w = true) :
    (responseTailAt (w :: rest)).isSome = true := by
  simp only [responseTailAt, star, hw, if_true]
  cases star reSpace (fun _ r2 => respJsonType r2) ([] ++ [w]) rest with
  | none => exact respJsonType_isSome w rest hw
  | some r => rfl

theorem isDigit_of_reSpace (w : Char) (hw : reSpace w = true) : isDigit w = false := by
  simp only [reSpace, Bool.or_eq_true, beq_iff_eq] at hw
  rcases hw with (((h | h) | h) | h) | h <;> subst h <;> decide

theorem isJsonTypeChar_of_reSpace (w : Char) (hw : reSpace w = true) :
    isJsonTypeChar w = false := by
  simp only [reSpace, Bool.or_eq_true, beq_iff_eq] at hw
  rcases hw with (((h | h) | h) | h) | h <;> subst h <;> decide

/-- A status of digits followed by a blank is what the status group captures. -/
theorem responseFindStringSubmatch_status (d rest : Str) (w : Char) (hd : d ≠ [])
    (hdig : ∀ c, c ∈ d → isDigit c = true) (hw : reSpace w = true) :
    ∃ whole jsonType goType description,
      responseFindStringSubmatch (d ++ (w :: rest)) =
        [whole, d, jsonType, goType, description] := by
  obtain ⟨c, d1, rfl⟩ := List.exists_cons_of_ne_nil hd
  obtain ⟨x, hx⟩ := Option.isSome_iff_exists.mp (responseTailAt_isSome w rest hw)
  obtain ⟨jsonType, goType, description, r7⟩ := x
  have h1 := plus_run isDigit
    (fun status r1 =>
      match responseTailAt r1 with
      | some (jsonType, goType, description, r7) =>
        some [(c :: d1 ++ (w :: rest)).take ((c :: d1 ++ (w :: rest)).length - r7.length),
          status, jsonType, goType, description]
      | none => none)
    c d1 (w :: rest)
    [(c :: d1 ++ (w :: rest)).take ((c :: d1 ++ (w :: rest)).length - r7.length),
      c :: d1, jsonType, goType, description]
    (hdig c (List.mem_cons_self _ _))
    (fun y hy => hdig y (List.mem_cons_of_mem _ hy))
    (by intro y ys e; cases e; exact isDigit_of_reSpace _ hw)
    (by simp only [hx])
  unfold responseFindStringSubmatch
  rw [search_of_head responseRegexAt _ _ (by simpa [responseRegexAt] using h1)]
  exact ⟨_, _, _, _, rfl⟩

theorem respSpace_none_of_digits (jsonType : Str) (y : Str)
    (hy : ∀ c, c ∈ y → isDigit c = true) : respSpace jsonType y = none := by
  cases y with
  | nil => rfl
  | cons c cs =>
    have hc : reSpace c = false := by
      cases h : reSpace c with
      | false => rfl
      | true =>
        have := isDigit_of_reSpace c h
        rw [hy c (List.mem_cons_self _ _)] at this
        cases this
    simp [respSpace, plus, hc]

theorem responseTailAt_none_of_digits (y : Str) (hy : ∀ c, c ∈ y → isDigit c = true) :
    responseTailAt y = none := by
  have hsuf : ∀ r, r <:+ y → ∀ c, c ∈ r → isDigit c = true :=
    fun r hr c hc => hy c (hr.subset hc)
  have hjson : ∀ r, r <:+ y → respJsonType r = none := by
    intro r hr
    unfold respJsonType opt
    have hplus : plus isJsonTypeChar (fun jsonType r3 => respSpace jsonType r3) r = none := by
      cases r with
      | nil => rfl
      | cons c cs =>
        simp only [plus]
        split
        · apply star_none
          intro a r2 hr2
          exact respSpace_none_of_digits a r2 (hsuf r2 ((hr2.trans (List.suffix_cons c cs)).trans hr))
        · rfl
    rw [hplus]
    exact respSpace_none_of_digits [] r (hsuf r hr)
  unfold responseTailAt
  apply star_none
  intro a r hr
  exact hjson r hr

/-- A remainder that is nothing but digits does not match the response pattern. -/
theorem responseFindStringSubmatch_digits (d : Str) (hdig : ∀ c, c ∈ d → isDigit c = true) :
    responseFindStringSubmatch d = [] := by
  unfold responseFindStringSubmatch
  rw [search_none]
  · rfl
  · intro r hr
    have hr1 : ∀ c, c ∈ r → isDigit c = true := fun c hc => hdig c (hr.subset hc)
    unfold responseRegexAt
    cases r with
    | nil => rfl
    | cons c cs =>
      simp only [plus]
      split
      · apply star_none
        intro a r2 hr2
        have : responseTailAt r2 = none :=
          responseTailAt_none_of_digits r2
            (fun x hx => hr1 x ((hr2.trans (List.suffix_cons c cs)).subset hx))
        simp only [this]
      · rfl

/-- C7. For a remainder whose status token is a non-empty digit string, alone
or followed by a blank, that does not convert to an `int` or is not a valid
HTTP status code, `parseResponseComment` returns an error and the state after
the call is the state before it: no resolver call is recorded and the
responses of the operation are untouched. -/
theorem parseResponseComment_invalid_status (env : Env) (pkgPath pkgName : Str)
    (operation : Ptr) (d rest : Str) (s : State)
    (hd : d ≠ []) (hdig : ∀ c, c ∈ d → isDigit c = true)
    (hrest : rest = [] ∨ ∃ w r, rest = w :: r ∧ reSpace w = true)
    (hbad : Atoi d = none ∨ ∃ n, Atoi d = some n ∧ env.IsValidHTTPStatusCode n = false) :
    (∃ msg, (parseResponseComment env pkgPath pkgName operation (d ++ rest) s).1 =
      Outcome.error msg) ∧
    (parseResponseComment env pkgPath pkgName operation (d ++ rest) s).2 = s := by
  rcases hrest with rfl | ⟨w, r, rfl, hw⟩
  · have h0 := responseFindStringSubmatch_digits d hdig
    simp [parseResponseComment, h0]
  · obtain ⟨whole, jsonType, goType, description, hms⟩ :=
      responseFindStringSubmatch_status d r w hd hdig hw
    rcases hbad with hnone | ⟨n, hn, hinv⟩
    · simp [parseResponseComment, hms, hnone]
    · simp [parseResponseComment, hms, hn, hinv]

/-- C7, on the directive of the spec: `999 object User "bad"` is refused and
the state, with its one fresh operation, is unchanged. -/
theorem parseResponseComment_invalid_status_witness :
    (∃ msg, (parseResponseComment demoEnv "app/h".toList "h".toList 0
      "999 object User \"bad\"".toList demoKnownState).1 = Outcome.error msg) ∧
    (parseResponseComment demoEnv "app/h".toList "h".toList 0
      "999 object User \"bad\"".toList demoKnownState).2 = demoKnownState :=
  parseResponseComment_invalid_status demoEnv "app/h".toList "h".toList 0 "999".toList
    " object User \"bad\"".toList demoKnownState (by decide) (by decide)
    (Or.inr ⟨' ', "object User \"bad\"".toList, rfl, by decide⟩)
    (Or.inr ⟨999, by decide, by decide⟩)

/-! ## Simple responses -/

theorem star_exists {α : Type} (C : Char → Bool) (k : Str → Str → Option α)
    (Good : α → Prop) (q : Char) (V : Str) (hq : C q = false)
    (hk : ∀ acc u, q ∉ u → ∃ x, k acc (u ++ (q :: V)) = some x ∧ Good x) :
    ∀ (u acc : Str), q ∉ u → ∃ x, star C k acc (u ++ (q :: V)) = some x ∧ Good x := by
  intro u
  induction u with
  | nil =>
    intro acc _
    simp only [List.nil_append, star, hq]
    simpa using hk acc [] (by simp)
  | cons c u ih =>
    intro acc hu
    have hu1 : q ∉ u := fun h => hu (List.mem_cons_of_mem _ h)
    by_cases hc : C c = true
    · obtain ⟨x, hx, hgood⟩ := ih (acc ++ [c]) hu1
      refine ⟨x, ?_, hgood⟩
      simp [star, hc, hx]
    · simp only [List.cons_append, star, hc]
      simpa using hk acc (c :: u) hu

/-- After the jsonType, any quote-free text up to a quoted, one-line
description leaves that quoted text in the description group. -/
theorem respNotQuote_run (jsonType goType u d : Str) (hu : dquote ∉ u)
    (hnl : ∀ c, c ∈ d → c ≠ '\n') :
    respNotQuote jsonType goType (u ++ (dquote :: (d ++ [dquote]))) =
      some (jsonType, goType, dquote :: (d ++ [dquote]), []) := by
  unfold respNotQuote
  apply star_run
  · intro c hc
    have : c ≠ dquote := fun e => hu (e ▸ hc)
    simpa using this
  · intro c cs e
    cases e
    decide
  · unfold respDescription
    have := star_run (fun c => c != '\n')
      (fun description r7 => some (jsonType, goType, description, r7))
      (dquote :: (d ++ [dquote])) [] []
      (jsonType, goType, dquote :: (d ++ [dquote]), [])
      (by
        intro c hc
        simp only [List.mem_cons, List.mem_append, List.not_mem_nil, or_false] at hc
        rcases hc with e | hc | e
        · subst e
          decide
        · simpa using hnl c hc
        · subst e
          decide)
      (by intro c cs e; cases e) rfl
    simpa using this

theorem respGoType_good (jsonType u d : Str) (hu : dquote ∉ u)
    (hnl : ∀ c, c ∈ d → c ≠ '\n') :
    ∃ x, respGoType jsonType (u ++ (dquote :: (d ++ [dquote]))) = some x ∧
      x.1 = jsonType ∧ x.2.2.1 = dquote :: (d ++ [dquote]) := by
  have hfall : ∀ acc v, dquote ∉ v →
      ∃ x, (fun goType r5 => respNotQuote jsonType goType r5) acc
          (v ++ (dquote :: (d ++ [dquote]))) = some x ∧
        x.1 = jsonType ∧ x.2.2.1 = dquote :: (d ++ [dquote]) :=
    fun acc v hv => ⟨_, respNotQuote_run jsonType acc v d hv hnl, rfl, rfl⟩
  unfold respGoType opt
  cases u with
  | nil =>
    have : plus isGoTypeChar (fun goType r5 => respNotQuote jsonType goType r5)
        ([] ++ (dquote :: (d ++ [dquote]))) = none := by
      simp only [List.nil_append, plus]
      rfl
    rw [this]
    exact hfall [] [] (by simp)
  | cons c u =>
    by_cases hc : isGoTypeChar c = true
    · have hu1 : dquote ∉ u := fun h => hu (List.mem_cons_of_mem _ h)
      obtain ⟨x, hx, hgood⟩ := star_exists isGoTypeChar
        (fun goType r5 => respNotQuote jsonType goType r5)
        (fun x => x.1 = jsonType ∧ x.2.2.1 = dquote :: (d ++ [dquote]))
        dquote (d ++ [dquote]) (by decide) hfall u [c] hu1
      refine ⟨x, ?_, hgood⟩
      simp [plus, hc, hx]
    · have : plus isGoTypeChar (fun goType r5 => respNotQuote jsonType goType r5)
          (c :: u ++ (dquote :: (d ++ [dquote]))) = none := by
        simp [plus, hc]
      rw [this]
      exact hfall [] (c :: u) hu

theorem respSpace_good (jsonType u d : Str) (hu : dquote ∉ u)
    (hnl : ∀ c, c ∈ d → c ≠ '\n') :
    ∃ x, respSpace jsonType (' ' :: (u ++ (dquote :: (d ++ [dquote])))) = some x ∧
      x.1 = jsonType ∧ x.2.2.1 = dquote :: (d ++ [dquote]) := by
  have h := star_exists reSpace (fun _ r4 => respGoType jsonType r4)
    (fun x => x.1 = jsonType ∧ x.2.2.1 = dquote :: (d ++ [dquote]))
    dquote (d ++ [dquote]) (by decide)
    (fun _ v hv => respGoType_good jsonType v d hv hnl) u [' '] hu
  simpa [respSpace, plus, show reSpace ' ' = true by decide] using h

theorem simpleJsonTypes_facts :
    ∀ j, j ∈ simpleJsonTypes →
      j ≠ [] ∧ (∀ c, c ∈ j → isJsonTypeChar c = true) ∧ j.head?.map reSpace = some false ∧
      ¬ (j = "object".toList ∨ j = "array".toList ∨ j = "\x7bobject\x7d".toList ∨
        j = "\x7barray\x7d".toList) ∧
      (j = "\x7bstring\x7d".toList ∨ j = "\x7binteger\x7d".toList ∨
        j = "\x7bboolean\x7d".toList ∨ j = "string".toList ∨ j = "integer".toList ∨
        j = "boolean".toList) := by
  decide

theorem simpleResponseObject_content (j : Str) (hj : j ∈ simpleJsonTypes)
    (r : ResponseObject) :
    simpleResponseObject j r =
      { r with
        Content := mapSet r.Content ContentTypeJson
          { Schema := { Type_ := withoutBraces j } } } := by
  simp only [simpleJsonTypes, List.mem_cons, List.mem_singleton, List.not_mem_nil, or_false] at hj
  rcases hj with e | e | e | e | e | e <;> subst e <;> rfl

theorem trimBy_quotes (d : Str) (hd : dquote ∉ d) :
    trimBy (fun c => c == dquote) (dquote :: (d ++ [dquote])) = d := by
  have hall : ∀ l : Str, dquote ∉ l → l.dropWhile (fun c => c == dquote) = l := by
    intro l hl
    apply dropWhile_of_head
    intro c r e
    have : c ≠ dquote := fun h => hl (by rw [e, h]; exact List.mem_cons_self _ _)
    simpa using this
  unfold trimBy trimRightBy trimLeftBy
  rw [List.dropWhile_cons_of_pos (by simp)]
  cases d with
  | nil => simp [dquote]
  | cons c d1 =>
    have hc : c ≠ dquote := fun h => hd (by rw [h]; exact List.mem_cons_self _ _)
    rw [List.cons_append, List.dropWhile_cons_of_neg (by simpa using hc)]
    have hrev : (c :: (d1 ++ [dquote])).reverse = dquote :: (c :: d1).reverse := by simp
    rw [hrev, List.dropWhile_cons_of_pos (by simp),
      hall (c :: d1).reverse (fun h => hd (List.mem_reverse.mp h)), List.reverse_reverse]

/-- The groups of the response pattern on `<status> <jsonType> <text> "<description>"`. -/
theorem responseFindStringSubmatch_simple (st j u d : Str) (hst : st ≠ [])
    (hdig : ∀ c, c ∈ st → isDigit c = true) (hj : j ∈ simpleJsonTypes)
    (hu : dquote ∉ u) (hnl : ∀ c, c ∈ d → c ≠ '\n') :
    ∃ whole goType,
      responseFindStringSubmatch
        (st ++ (' ' :: (j ++ (' ' :: (u ++ (dquote :: (d ++ [dquote]))))))) =
        [whole, st, j, goType, dquote :: (d ++ [dquote])] := by
  obtain ⟨hjne, hjc, hjh, _, _⟩ := simpleJsonTypes_facts j hj
  obtain ⟨x, hx, hx1, hx2⟩ := respSpace_good j u d hu hnl
  obtain ⟨c, st1, rfl⟩ := List.exists_cons_of_ne_nil hst
  obtain ⟨b, j1, rfl⟩ := List.exists_cons_of_ne_nil hjne
  have hJ : respJsonType (b :: j1 ++ (' ' :: (u ++ (dquote :: (d ++ [dquote]))))) = some x := by
    unfold respJsonType opt
    rw [List.cons_append, plus_run isJsonTypeChar (fun jsonType r3 => respSpace jsonType r3) b j1
      (' ' :: (u ++ (dquote :: (d ++ [dquote])))) x (hjc b (List.mem_cons_self _ _))
      (fun y hy => hjc y (List.mem_cons_of_mem _ hy))
      (by intro y ys e; cases e; decide) hx]
  have hT : responseTailAt (' ' :: (b :: j1 ++ (' ' :: (u ++ (dquote :: (d ++ [dquote])))))) =
      some x := by
    unfold responseTailAt
    have := star_run reSpace (fun _ r2 => respJsonType r2) [' '] []
      (b :: j1 ++ (' ' :: (u ++ (dquote :: (d ++ [dquote]))))) x
      (by intro y hy; simp only [List.mem_singleton] at hy; subst hy; decide)
      (by
        intro y ys e
        simp only [List.cons_append, List.cons.injEq] at e
        rw [← e.1]
        simpa using hjh)
      hJ
    simpa using this
  obtain ⟨x1, x2, x3, x4⟩ := x
  simp only at hx1 hx2
  subst hx1 hx2
  have h1 := plus_run isDigit
    (fun status r1 =>
      match responseTailAt r1 with
      | some (jsonType, goType, description, r7) =>
        some [(c :: st1 ++ (' ' :: (b :: j1 ++ (' ' :: (u ++ (dquote :: (d ++ [dquote]))))))).take
          ((c :: st1 ++ (' ' :: (b :: j1 ++ (' ' :: (u ++ (dquote ::
            (d ++ [dquote]))))))).length - r7.length),
          status, jsonType, goType, description]
      | none => none)
    c st1 (' ' :: (b :: j1 ++ (' ' :: (u ++ (dquote :: (d ++ [dquote]))))))
    [(c :: st1 ++ (' ' :: (b :: j1 ++ (' ' :: (u ++ (dquote :: (d ++ [dquote]))))))).take
      ((c :: st1 ++ (' ' :: (b :: j1 ++ (' ' :: (u ++ (dquote ::
        (d ++ [dquote]))))))).length - x4.length),
      c :: st1, b :: j1, x2, dquote :: (d ++ [dquote])]
    (hdig c (List.mem_cons_self _ _))
    (fun y hy => hdig y (List.mem_cons_of_mem _ hy))
    (by intro y ys e; cases e; decide)
    (by simp only [hT])
  unfold responseFindStringSubmatch
  rw [search_of_head responseRegexAt _ _ (by simpa [responseRegexAt] using h1)]
  exact ⟨_, _, rfl⟩

/-- C8, as the code has it. For a digit string that converts to a valid
status, one of the six simple jsonType keywords, a type token without a double
quote and a description without a double quote or line feed,
`parseResponseComment` on `<status> <jsonType> <type> "<description>"` returns
no error, changes nothing but the operation (so no resolver call is recorded),
and stores under the status a response with that description and exactly one
content entry: under `application/json`, a schema of the jsonType without its
braces. -/
theorem parseResponseComment_simple (env : Env) (pkgPath pkgName : Str) (operation : Ptr)
    (st j ty d : Str) (n : Int) (s : State) (op : OperationObject)
    (hst : st ≠ []) (hdig : ∀ c, c ∈ st → isDigit c = true)
    (hn : Atoi st = some n) (hv : env.IsValidHTTPStatusCode n = true)
    (hj : j ∈ simpleJsonTypes) (hty : dquote ∉ ty)
    (hd : dquote ∉ d) (hnl : ∀ c, c ∈ d → c ≠ '\n')
    (hop : s.operations[operation]? = some op) :
    parseResponseComment env pkgPath pkgName operation
        (st ++ (' ' :: (j ++ (' ' :: (ty ++ (' ' :: dquote :: (d ++ [dquote]))))))) s =
      (Outcome.ok (),
        { s with
          operations := s.operations.set operation
            { op with
              Responses := mapSet op.Responses st
                { Description := d,
                  Content := [(ContentTypeJson,
                    { Schema := { Type_ := withoutBraces j } })] } } }) := by
  obtain ⟨whole, goType, hms⟩ :=
    responseFindStringSubmatch_simple st j (ty ++ [' ']) d hst hdig hj
      (by
        intro h
        simp only [List.mem_append, List.mem_singleton] at h
        rcases h with h | h
        · exact hty h
        · exact absurd h (by decide))
      hnl
  have hshape : st ++ (' ' :: (j ++ (' ' :: (ty ++ (' ' :: dquote :: (d ++ [dquote])))))) =
      st ++ (' ' :: (j ++ (' ' :: ((ty ++ [' ']) ++ (dquote :: (d ++ [dquote])))))) := by
    simp
  obtain ⟨_, _, _, hnc, hsimple⟩ := simpleJsonTypes_facts j hj
  unfold parseResponseComment
  rw [hshape]
  simp only [hms, List.length_cons, List.length_nil, List.getD_cons_succ, List.getD_cons_zero,
    hn, hv, hnc, hsimple, if_true, if_false, not_true_eq_false, trimBy_quotes d hd,
    simpleResponseObject_content j hj, storeResponse, hop]
  simp [mapSet]

/-- C8 as amended, on the directive of the spec: `200 {string} string "ok"`
stores the description `ok` and one `application/json` entry typed `string`. -/
theorem parseResponseComment_simple_witness :
    parseResponseComment demoEnv "app/h".toList "h".toList 0
        "200 \x7bstring\x7d string \"ok\"".toList demoKnownState =
      (Outcome.ok (),
        { demoKnownState with
          operations :=
            [{ Responses := [("200".toList,
                { Description := "ok".toList,
                  Content := [("application/json".toList,
                    { Schema := { Type_ := "string".toList } })] })] }] }) :=
  parseResponseComment_simple demoEnv "app/h".toList "h".toList 0 "200".toList
    "\x7bstring\x7d".toList "string".toList "ok".toList 200 demoKnownState {}
    (by decide) (by decide) (by decide) (by decide) (by decide) (by decide) (by decide)
    (by decide) (by decide)

/-- C8 as stated fails on the directive of the spec: the response stored for
`200 {string} string "ok"` has no content entry under `text/plain`; its one
entry is under `application/json`. -/
theorem parseResponseComment_simple_not_text :
    ∃ resp,
      mapGet ((parseResponseComment demoEnv "app/h".toList "h".toList 0
        "200 \x7bstring\x7d string \"ok\"".toList demoKnownState).2.operations.getD 0
          {}).Responses "200".toList = some resp ∧
      resp.Description = "ok".toList ∧
      mapGet resp.Content ContentTypeText = none ∧
      resp.Content = [(ContentTypeJson, { Schema := { Type_ := "string".toList } })] :=
  ⟨{ Description := "ok".toList,
     Content := [(ContentTypeJson, { Schema := { Type_ := "string".toList } })] },
   by decide, by decide, by decide, by decide⟩

/-! ## Container overrides through the directive -/

/-- C9, the code at the failing input: on
`200 {object} Wrapper{data=Item,total=int} "list"` the goType group ends at the
comma, so the complex-response step gets `Wrapper{data=Item`, in which
`genericPattern` finds no override list; the text is sent to `RegisterType` as
a plain type name, the call fails and no response is stored.  With the single
pair `Wrapper{data=Item}` the same call succeeds. -/
theorem parseResponseComment_cuts_at_comma :
    (responseFindStringSubmatch
      "200 \x7bobject\x7d Wrapper\x7bdata=Item,total=int\x7d \"list\"".toList).getD 3 [] =
        "Wrapper\x7bdata=Item".toList ∧
    genericFindStringSubmatch "Wrapper\x7bdata=Item".toList = [] ∧
    (parseResponseComment demoEnv "app/h".toList "h".toList 0
      "200 \x7bobject\x7d Wrapper\x7bdata=Item,total=int\x7d \"list\"".toList
      demoKnownState).1 =
        Outcome.error "can not find definition of Wrapper\x7bdata=Item".toList ∧
    (parseResponseComment demoEnv "app/h".toList "h".toList 0
      "200 \x7bobject\x7d Wrapper\x7bdata=Item,total=int\x7d \"list\"".toList
      demoKnownState).2.resolverCalls =
        [ResolverCall.RegisterType "app/h".toList "h".toList "Wrapper\x7bdata=Item".toList,
         ResolverCall.ParseSchemaObject "app/h".toList "h".toList
           "Wrapper\x7bdata=Item".toList] ∧
    (parseResponseComment demoEnv "app/h".toList "h".toList 0
      "200 \x7bobject\x7d Wrapper\x7bdata=Item,total=int\x7d \"list\"".toList
      demoKnownState).2.operations = [{}] ∧
    (parseResponseComment demoEnv "app/h".toList "h".toList 0
      "200 \x7bobject\x7d Wrapper\x7bdata=Item\x7d \"list\"".toList
      demoKnownState).1 = Outcome.ok () := by
  decide

/-! ## Registration never overwrites -/

theorem mapPutIfAbsent_keeps_val {β : Type} (m : List (Str × β)) (key k : Str) (w v : β)
    (h : mapGet m k = some v) : mapGet (mapPutIfAbsent m key w) k = some v := by
  unfold mapPutIfAbsent
  cases h1 : mapGet m key with
  | some u => simpa using h
  | none =>
    have hne : k ≠ key := by
      intro e
      subst e
      rw [h1] at h
      cases h
    simp only [mapGet_mapSet_ne _ _ _ _ hne, h]

theorem mapPutIfAbsent_free {β : Type} (m : List (Str × β)) (key : Str) (w : β)
    (h : mapGet m key = none) : mapGet (mapPutIfAbsent m key w) key = some w := by
  unfold mapPutIfAbsent
  simp only [h, mapGet_mapSet_self]

theorem mapPutIfAbsent_other {β : Type} (m : List (Str × β)) (key k : Str) (w : β)
    (h : k ≠ key) : mapGet (mapPutIfAbsent m key w) k = mapGet m k := by
  unfold mapPutIfAbsent
  cases h1 : mapGet m key with
  | some u => rfl
  | none => simp only [mapGet_mapSet_ne _ _ _ _ h]

/-- C11. For a type that is neither primitive nor interface and whose schema ID
is in `KnownIDSchema`, after `RegisterType` every key that was in the registry
still maps to the same schema object; the qualified key is present (with the
known schema when it was free); the short key gets the known schema when it
differs from the qualified key and was free; no other key changes and the
schema heaps are untouched.  For a primitive or interface type name the
registry is left as it was. -/
theorem RegisterType_never_overwrites (env : Env) (pkgPath pkgName typeName : Str) (s : State) :
    ((env.IsBasicGoType typeName = true ∨ env.IsInterfaceType typeName = true) →
      (RegisterType env pkgPath pkgName typeName s).2.Schemas = s.Schemas) ∧
    (env.IsBasicGoType typeName = false → env.IsInterfaceType typeName = false →
      ∀ known,
        mapGet s.KnownIDSchema
          (env.GenSchemaObjectID pkgName typeName env.SchemaWithoutPkg) = some known →
        (∀ k v, mapGet s.Schemas k = some v →
          mapGet (RegisterType env pkgPath pkgName typeName s).2.Schemas k = some v) ∧
        (mapGet (RegisterType env pkgPath pkgName typeName s).2.Schemas
          (env.ReplaceBackslash
            (env.GenSchemaObjectID pkgName typeName env.SchemaWithoutPkg))).isSome = true ∧
        (mapGet s.Schemas (env.ReplaceBackslash
            (env.GenSchemaObjectID pkgName typeName env.SchemaWithoutPkg)) = none →
          mapGet (RegisterType env pkgPath pkgName typeName s).2.Schemas
            (env.ReplaceBackslash
              (env.GenSchemaObjectID pkgName typeName env.SchemaWithoutPkg)) = some known) ∧
        (env.ReplaceBackslash typeName ≠ env.ReplaceBackslash
            (env.GenSchemaObjectID pkgName typeName env.SchemaWithoutPkg) →
          mapGet s.Schemas (env.ReplaceBackslash typeName) = none →
          mapGet (RegisterType env pkgPath pkgName typeName s).2.Schemas
            (env.ReplaceBackslash typeName) = some known) ∧
        (∀ k, k ≠ env.ReplaceBackslash
            (env.GenSchemaObjectID pkgName typeName env.SchemaWithoutPkg) →
          k ≠ env.ReplaceBackslash typeName →
          mapGet (RegisterType env pkgPath pkgName typeName s).2.Schemas k =
            mapGet s.Schemas k) ∧
        (RegisterType env pkgPath pkgName typeName s).2.schemaObjects = s.schemaObjects ∧
        (RegisterType env pkgPath pkgName typeName s).2.orderedMaps = s.orderedMaps) := by
  constructor
  · intro hb
    have hb1 : (env.IsBasicGoType typeName || env.IsInterfaceType typeName) = true := by
      simpa using hb
    simp [RegisterType, hb1]
  · intro hnb hni known hk
    by_cases hl : env.ReplaceBackslash typeName =
        env.ReplaceBackslash (env.GenSchemaObjectID pkgName typeName env.SchemaWithoutPkg)
    · simp only [RegisterType, hnb, hni, Bool.or_self, Bool.false_eq_true, if_false, hk, hl,
        ne_eq, not_true_eq_false]
      refine ⟨?_, ?_, ?_, ?_, ?_, trivial, trivial⟩
      · intro k v hkv
        exact mapPutIfAbsent_keeps_val _ _ _ _ _ hkv
      · exact mapPutIfAbsent_present _ _ _
      · intro h
        exact mapPutIfAbsent_free _ _ _ h
      · intro h
        exact h.elim
      · intro k hk1 _
        exact mapPutIfAbsent_other _ _ _ _ hk1
    · simp only [RegisterType, hnb, hni, Bool.or_self, Bool.false_eq_true, if_false, hk, hl,
        ne_eq, not_false_eq_true, if_true]
      have hl2 : env.ReplaceBackslash
          (env.GenSchemaObjectID pkgName typeName env.SchemaWithoutPkg) ≠
          env.ReplaceBackslash typeName := fun e => hl e.symm
      refine ⟨?_, ?_, ?_, ?_, ?_, trivial, trivial⟩
      · intro k v hkv
        exact mapPutIfAbsent_keeps_val _ _ _ _ _ (mapPutIfAbsent_keeps_val _ _ _ _ _ hkv)
      · exact mapPutIfAbsent_keeps _ _ _ _ (mapPutIfAbsent_present _ _ _)
      · intro h
        rw [mapPutIfAbsent_other _ _ _ _ hl2]
        exact mapPutIfAbsent_free _ _ _ h
      · intro _ h
        apply mapPutIfAbsent_free
        rw [mapPutIfAbsent_other _ _ _ _ hl]
        exact h
      · intro k hk1 hk2
        rw [mapPutIfAbsent_other _ _ _ _ hk2, mapPutIfAbsent_other _ _ _ _ hk1]

/-- C11, on the known type `Item` of package `h` and an empty registry: the
qualified key `h.Item` and the short key `Item` both get the known schema. -/
theorem RegisterType_never_overwrites_witness :
    mapGet (RegisterType demoEnv "app/h".toList "h".toList "Item".toList demoKnownState).2.Schemas
      "h.Item".toList = some 1 ∧
    mapGet (RegisterType demoEnv "app/h".toList "h".toList "Item".toList demoKnownState).2.Schemas
      "Item".toList = some 1 :=
  ⟨((RegisterType_never_overwrites demoEnv "app/h".toList "h".toList "Item".toList
      demoKnownState).2 (by decide) (by decide) 1 (by decide)).2.2.1 (by decide),
   ((RegisterType_never_overwrites demoEnv "app/h".toList "h".toList "Item".toList
      demoKnownState).2 (by decide) (by decide) 1 (by decide)).2.2.2.1 (by decide) (by decide)⟩

/-! ## A route keyword without a remainder -/

/-- C14, the code at the failing input: on the line `@route`, six bytes long,
the slice `comment[len("@Router"):]` is out of range and `parseRouteInfo`
panics, and so does `Parse` on a block with that line; the line `@router`
gets the error that quotes it. -/
theorem parseRouteInfo_keyword_alone :
    parseRouteInfo demoEnv "@route".toList = Outcome.panic ∧
    (Parse demoEnv "app/h".toList "h".toList ["// @route".toList] {}).1 = Outcome.panic ∧
    parseRouteInfo demoEnv "@router".toList =
      Outcome.error "Can not parse router comment \"@router\", skipped".toList := by
  decide

/-! ## Unrecognized verbs -/

theorem bindMethod_unknown (M : Str) (o : Option Ptr) (item : PathItemObject)
    (hM : M ∉ httpVerbs) : bindMethod M o item = item := by
  simp only [httpVerbs, List.mem_cons, List.mem_singleton, List.not_mem_nil, or_false,
    not_or] at hM
  obtain ⟨h1, h2, h3, h4, h5, h6, h7, h8⟩ := hM
  simp only [bindMethod, h1, h2, h3, h4, h5, h6, h7, h8, if_false]

theorem mapSet_same {β : Type} (m : List (Str × β)) (k : Str) (v : β)
    (h : mapGet m k = some v) : mapSet m k v = m := by
  induction m with
  | nil => simp [mapGet] at h
  | cons e rest ih =>
    obtain ⟨k1, v1⟩ := e
    by_cases h1 : k1 = k
    · subst h1
      simp only [mapGet, if_true, Option.some.injEq] at h
      subst h
      simp [mapSet]
    · simp only [mapGet, h1, if_false] at h
      simp [mapSet, h1, ih h]

/-- C15, as the code has it. For a method that is none of the eight verbs
`addRouteToOpenAPI` returns no error and binds the operation to no slot: an
entry of the path table is never changed and the state stays as it was when
the path is already there; when the path is new, an empty path item is added
for it and nothing else changes. -/
theorem addRouteToOpenAPI_unknown_verb (s : State) (p M : Str) (o : Ptr)
    (hM : M ∉ httpVerbs) :
    (addRouteToOpenAPI (some { path := p, method := M, operation := some o }) s).1 =
      Outcome.ok () ∧
    (∀ item, mapGet s.Paths p = some item →
      (addRouteToOpenAPI (some { path := p, method := M, operation := some o }) s).2 = s) ∧
    (mapGet s.Paths p = none →
      (addRouteToOpenAPI (some { path := p, method := M, operation := some o }) s).2 =
        { s with Paths := mapSet s.Paths p {} }) ∧
    (∀ q item, mapGet s.Paths q = some item →
      mapGet (addRouteToOpenAPI
        (some { path := p, method := M, operation := some o }) s).2.Paths q = some item) ∧
    (∀ q item,
      mapGet (addRouteToOpenAPI
        (some { path := p, method := M, operation := some o }) s).2.Paths q = some item →
      mapGet s.Paths q = some item ∨ (q = p ∧ item = {})) := by
  simp only [addRouteToOpenAPI, bindRoute_spec, bindMethod_unknown M _ _ hM]
  refine ⟨trivial, ?_, ?_, ?_, ?_⟩
  · intro item h
    simp [h, mapSet_same _ _ _ h]
  · intro h
    simp [h]
  · intro q item h
    by_cases hq : q = p
    · subst hq
      simp [mapGet_mapSet_self, h]
    · simpa [mapGet_mapSet_ne _ _ _ _ hq] using h
  · intro q item h
    by_cases hq : q = p
    · subst hq
      rw [mapGet_mapSet_self] at h
      cases hp : mapGet s.Paths q with
      | none =>
        rw [hp] at h
        right
        simpa using h.symm
      | some it =>
        rw [hp] at h
        left
        simpa using h
    · left
      simpa [mapGet_mapSet_ne _ _ _ _ hq] using h

/-- C15 as amended, on the verb `FETCH` and a path table that has `/x`: the
call returns no error and the state is unchanged. -/
theorem addRouteToOpenAPI_unknown_verb_witness :
    "FETCH".toList ∉ httpVerbs ∧
    (addRouteToOpenAPI
      (some { path := "/public".toList, method := "FETCH".toList, operation := some 0 })
      demoTaggedState).1 = Outcome.ok () :=
  ⟨by decide,
   (addRouteToOpenAPI_unknown_verb demoTaggedState "/public".toList "FETCH".toList 0
      (by decide)).1⟩

/-- C15 as stated fails on a new path: binding the verb `FETCH` on `/x` in an
empty path table adds the path entry `/x` with an empty path item. -/
theorem addRouteToOpenAPI_unknown_verb_adds_path :
    (addRouteToOpenAPI
      (some { path := "/x".toList, method := "FETCH".toList, operation := some 0 })
      ({} : State)).2.Paths = [("/x".toList, {})] ∧
    (addRouteToOpenAPI
      (some { path := "/x".toList, method := "FETCH".toList, operation := some 0 })
      ({} : State)).2.Paths ≠ ({} : State).Paths := by
  decide

/-! ## Accumulated descriptions -/

theorem foldl_description (ts : List Str) :
    ∀ D : Str, ts.foldl (fun d t => Join [d, t] " ".toList) D =
      D ++ ts.foldr (fun x acc => " ".toList ++ x ++ acc) [] := by
  induction ts with
  | nil => intro D; simp
  | cons t rest ih =>
    intro D
    simp only [List.foldl_cons, List.foldr_cons, ih]
    simp [Join]

theorem parseOperationFromComment_description (env : Env) (pkgPath pkgName comment t : Str)
    (operation : Ptr) (s : State) (op : OperationObject)
    (hdesc : descriptionText env comment = some t)
    (hop : s.operations[operation]? = some op) :
    parseOperationFromComment env pkgPath pkgName comment operation s =
      (Outcome.ok (),
        { s with
          operations := s.operations.set operation
            { op with Description := Join [op.Description, t] " ".toList } }) := by
  unfold descriptionText at hdesc
  unfold parseOperationFromComment
  cases hF : Fields comment with
  | nil => simp [hF] at hdesc
  | cons attr more =>
    simp only [hF] at hdesc ⊢
    by_cases hlow : ToLower env attr = "@description".toList
    · simp only [hlow, if_true, Option.some.injEq] at hdesc
      subst hdesc
      have h1 : ¬ ("@description".toList = "@title".toList) := by decide
      simp only [hlow, h1, if_false, if_true, updateOperation, hop]
    · rw [if_neg hlow] at hdesc
      cases hdesc

/-- C17, as the code has it. For `@description` directives with the trimmed
texts `t1, ..., tn` (n ≥ 1) handled in order by the second pass, the
description afterwards is the description before, then one space, then the
texts joined with one space between consecutive texts; nothing that was there
is overwritten, and from a fresh operation the result starts with that
space. -/
theorem pass2_descriptions (env : Env) (pkgPath pkgName : Str) (operation : Ptr)
    (texts ts : List Str)
    (h : List.Forall₂ (fun text t =>
      descriptionText env (TrimSpace (trimLeftBy (fun c => c == '/') text)) = some t) texts ts)
    (hts : ts ≠ []) (s : State) (op : OperationObject)
    (hop : s.operations[operation]? = some op) :
    pass2 env pkgPath pkgName operation texts s =
      (Outcome.ok (),
        { s with
          operations := s.operations.set operation
            { op with Description := op.Description ++ (' ' :: Join ts " ".toList) } }) := by
  have hgen : ∀ (s : State) (op : OperationObject), s.operations[operation]? = some op →
      pass2 env pkgPath pkgName operation texts s =
        (Outcome.ok (),
          { s with
            operations := s.operations.set operation
              { op with
                Description := ts.foldl (fun d t => Join [d, t] " ".toList) op.Description } }) := by
    clear hts hop
    induction h with
    | nil =>
      intro s op hop
      have hset : s.operations.set operation op = s.operations := by
        apply List.ext_getElem?
        intro i
        by_cases hi : operation = i
        · subst hi
          rw [List.getElem?_set_self', hop]
          rfl
        · rw [List.getElem?_set_ne hi]
      simp [pass2, hset]
    | @cons text t texts1 ts1 hd _ ih =>
      intro s op hop
      have hne : ¬ (TrimSpace (trimLeftBy (fun c => c == '/') text)).length = 0 := by
        intro h0
        have h1 : TrimSpace (trimLeftBy (fun c => c == '/') text) = [] :=
          List.length_eq_zero.mp h0
        rw [h1] at hd
        simp [descriptionText, Fields, fieldsAux] at hd
      have hlen : (s.operations.set operation
          { op with Description := Join [op.Description, t] " ".toList })[operation]? =
          some { op with Description := Join [op.Description, t] " ".toList } := by
        have hlt : operation < s.operations.length := by
          by_contra hge
          rw [List.getElem?_eq_none (Nat.le_of_not_lt hge)] at hop
          cases hop
        exact List.getElem?_set_self hlt
      unfold pass2
      simp only [hne, if_false,
        parseOperationFromComment_description env pkgPath pkgName _ t operation s op hd hop]
      rw [ih _ _ hlen]
      simp [List.set_set]
  rw [hgen s op hop, foldl_description]
  obtain ⟨t, rest, rfl⟩ := List.exists_cons_of_ne_nil hts
  simp [Join]

/-- C17 as amended, on two directives and a fresh operation: `@description A`
then `@description B` leave the description ` A B`. -/
theorem pass2_descriptions_witness :
    pass2 demoEnv "app/h".toList "h".toList 0
        ["// @description A".toList, "// @description B".toList] demoKnownState =
      (Outcome.ok (),
        { demoKnownState with operations := [{ Description := " A B".toList }] }) :=
  pass2_descriptions demoEnv "app/h".toList "h".toList 0
    ["// @description A".toList, "// @description B".toList] ["A".toList, "B".toList]
    (List.Forall₂.cons (by decide) (List.Forall₂.cons (by decide) List.Forall₂.nil))
    (by decide) demoKnownState {} (by decide)

/-- C17 as stated fails on one directive: from a fresh operation the single
directive `@description X` leaves the description ` X`, with a leading space,
not `X`. -/
theorem pass2_description_leading_space :
    (pass2 demoEnv "app/h".toList "h".toList 0 ["// @description X".toList]
      demoKnownState).2.operations = [{ Description := " X".toList }] ∧
    " X".toList ≠ "X".toList := by
  decide

/-! ## The optional parts of the response grammar -/

theorem responseTailAt_description_only (d : Str) (hnl : ∀ c, c ∈ d → c ≠ '\n') :
    responseTailAt (' ' :: dquote :: (d ++ [dquote])) =
      some ([], [], dquote :: (d ++ [dquote]), []) := by
  have hq := respNotQuote_run [] [] [] d (by simp) hnl
  simp only [List.nil_append] at hq
  have h1 : reSpace ' ' = true := by decide
  have h2 : reSpace dquote = false := by decide
  have h3 : isJsonTypeChar dquote = false := by decide
  have h4 : isJsonTypeChar ' ' = false := by decide
  have h5 : isGoTypeChar dquote = false := by decide
  have hgo : respGoType [] (dquote :: (d ++ [dquote])) =
      some ([], [], dquote :: (d ++ [dquote]), []) := by
    simp [respGoType, opt, plus, h5, hq]
  have hjson : respJsonType (dquote :: (d ++ [dquote])) = none := by
    simp [respJsonType, opt, plus, h3, respSpace, h2]
  have hsp : respSpace [] (' ' :: dquote :: (d ++ [dquote])) =
      some ([], [], dquote :: (d ++ [dquote]), []) := by
    simp [respSpace, plus, h1, star, h2, hgo]
  have hjson2 : respJsonType (' ' :: dquote :: (d ++ [dquote])) =
      some ([], [], dquote :: (d ++ [dquote]), []) := by
    simp [respJsonType, opt, plus, h4, hsp]
  unfold responseTailAt
  simp only [star, h1, h2, if_true, hjson, hjson2, Bool.false_eq_true, if_false]

/-- The groups of the response pattern on `<status> "<description>"`. -/
theorem responseFindStringSubmatch_description_only (st d : Str) (hst : st ≠ [])
    (hdig : ∀ c, c ∈ st → isDigit c = true) (hnl : ∀ c, c ∈ d → c ≠ '\n') :
    ∃ whole,
      responseFindStringSubmatch (st ++ (' ' :: dquote :: (d ++ [dquote]))) =
        [whole, st, [], [], dquote :: (d ++ [dquote])] := by
  obtain ⟨c, st1, rfl⟩ := List.exists_cons_of_ne_nil hst
  have hT := responseTailAt_description_only d hnl
  have h1 := plus_run isDigit
    (fun status r1 =>
      match responseTailAt r1 with
      | some (jsonType, goType, description, r7) =>
        some [(c :: st1 ++ (' ' :: dquote :: (d ++ [dquote]))).take
          ((c :: st1 ++ (' ' :: dquote :: (d ++ [dquote]))).length - r7.length),
          status, jsonType, goType, description]
      | none => none)
    c st1 (' ' :: dquote :: (d ++ [dquote]))
    [(c :: st1 ++ (' ' :: dquote :: (d ++ [dquote]))).take
      ((c :: st1 ++ (' ' :: dquote :: (d ++ [dquote]))).length - ([] : Str).length),
      c :: st1, [], [], dquote :: (d ++ [dquote])]
    (hdig c (List.mem_cons_self _ _))
    (fun y hy => hdig y (List.mem_cons_of_mem _ hy))
    (by intro y ys e; cases e; decide)
    (by simp only [hT])
  unfold responseFindStringSubmatch
  rw [search_of_head responseRegexAt _ _ (by simpa [responseRegexAt] using h1)]
  exact ⟨_, rfl⟩

/-- C16, as the code has it. For a digit string that converts to a valid
status and a description without a double quote or line feed,
`parseResponseComment` on `<status> "<description>"` returns no error and
stores under the status a response with that description and no content; on
the status alone the pattern, which wants white space after the status, does
not match: the call returns an error and the state is unchanged. -/
theorem parseResponseComment_optional_parts (env : Env) (pkgPath pkgName : Str)
    (operation : Ptr) (st d : Str) (n : Int) (s : State) (op : OperationObject)
    (hst : st ≠ []) (hdig : ∀ c, c ∈ st → isDigit c = true)
    (hn : Atoi st = some n) (hv : env.IsValidHTTPStatusCode n = true)
    (hd : dquote ∉ d) (hnl : ∀ c, c ∈ d → c ≠ '\n')
    (hop : s.operations[operation]? = some op) :
    parseResponseComment env pkgPath pkgName operation
        (st ++ (' ' :: dquote :: (d ++ [dquote]))) s =
      (Outcome.ok (),
        { s with
          operations := s.operations.set operation
            { op with
              Responses := mapSet op.Responses st { Description := d, Content := [] } } }) ∧
    (∃ msg, (parseResponseComment env pkgPath pkgName operation st s).1 = Outcome.error msg) ∧
    (parseResponseComment env pkgPath pkgName operation st s).2 = s := by
  refine ⟨?_, ?_⟩
  · obtain ⟨whole, hms⟩ := responseFindStringSubmatch_description_only st d hst hdig hnl
    have h1 : ¬ (([] : Str) = "object".toList ∨ ([] : Str) = "array".toList ∨
        ([] : Str) = "\x7bobject\x7d".toList ∨ ([] : Str) = "\x7barray\x7d".toList) := by decide
    have h2 : ¬ (([] : Str) = "\x7bstring\x7d".toList ∨ ([] : Str) = "\x7binteger\x7d".toList ∨
        ([] : Str) = "\x7bboolean\x7d".toList ∨ ([] : Str) = "string".toList ∨
        ([] : Str) = "integer".toList ∨ ([] : Str) = "boolean".toList) := by decide
    unfold parseResponseComment
    simp only [hms, List.length_cons, List.length_nil, List.getD_cons_succ, List.getD_cons_zero,
      hn, hv, h1, h2, if_true, if_false, not_true_eq_false, trimBy_quotes d hd,
      storeResponse, hop]
    simp
  · have h0 := responseFindStringSubmatch_digits st hdig
    simp [parseResponseComment, h0]

/-- C16 as amended, on `204 "gone"`: the response stored under `204` has the
description `gone` and no content. -/
theorem parseResponseComment_optional_parts_witness :
    parseResponseComment demoEnv "app/h".toList "h".toList 0 "204 \"gone\"".toList
        demoKnownState =
      (Outcome.ok (),
        { demoKnownState with
          operations :=
            [{ Responses := [("204".toList, { Description := "gone".toList, Content := [] })] }] }) :=
  (parseResponseComment_optional_parts demoEnv "app/h".toList "h".toList 0 "204".toList
    "gone".toList 204 demoKnownState {} (by decide) (by decide) (by decide) (by decide)
    (by decide) (by decide) (by decide)).1

/-- C16 as stated fails on the status alone: for the remainder `204`
`parseResponseComment` returns an error and stores no response. -/
theorem parseResponseComment_status_alone_fails :
    (parseResponseComment demoEnv "app/h".toList "h".toList 0 "204".toList demoKnownState).1 =
      Outcome.error
        "parseResponseComment can not parse response comment \"204\"".toList ∧
    (parseResponseComment demoEnv "app/h".toList "h".toList 0 "204".toList
      demoKnownState).2.operations = [{}] := by
  decide

/-! ## Plain and array references -/

theorem complexResponseObject_no_overrides (env : Env) (pkgPath pkgName typ : Str)
    (r : ResponseObject) (s : State) (hov : overridesOf typ = []) :
    complexResponseObject env pkgPath pkgName typ r s =
      if HasPrefix (bracketReplaceAll (containerOf typ) "[]".toList) "map[]".toList = true then
        match ParseSchemaObject env pkgPath pkgName
            (bracketReplaceAll (containerOf typ) "[]".toList) s with
        | (res, s1) =>
          match res.schema with
          | none => (Outcome.panic, s1)
          | some schema =>
            match s1.schemaObjects[schema]? with
            | none => (Outcome.panic, s1)
            | some obj =>
              (Outcome.ok { r with
                  Content := mapSet r.Content ContentTypeJson { Schema := obj } }, s1)
      else if HasPrefix (bracketReplaceAll (containerOf typ) "[]".toList) "[]".toList = true then
        match RegisterType env pkgPath pkgName
            (replaceAll "[]".toList [] (bracketReplaceAll (containerOf typ) "[]".toList)) s with
        | (Outcome.error e, s1) => (Outcome.error e, s1)
        | (Outcome.panic, s1) => (Outcome.panic, s1)
        | (Outcome.ok typeName, s1) =>
          (Outcome.ok { r with
              Content := mapSet r.Content ContentTypeJson
                { Schema := { Type_ := "array".toList, Items := some s1.schemaObjects.length } } },
            { s1 with
              schemaObjects := s1.schemaObjects ++
                [if env.IsBasicGoType typeName = true then { Type_ := "string".toList }
                 else { Ref := env.AddSchemaRefLinkPrefix typeName }] })
      else
        match RegisterType env pkgPath pkgName (containerOf typ) s with
        | (Outcome.error e, s1) => (Outcome.error e, s1)
        | (Outcome.panic, s1) => (Outcome.panic, s1)
        | (Outcome.ok typeName, s1) =>
          if env.IsBasicGoType typeName = true then
            (Outcome.ok { r with
                Content := mapSet r.Content ContentTypeText
                  { Schema := { Type_ := "string".toList } } }, s1)
          else if env.IsInterfaceType typeName = true then
            (Outcome.ok { r with
                Content := mapSet r.Content ContentTypeJson
                  { Schema := { Type_ := "object".toList } } }, s1)
          else
            (Outcome.ok { r with
                Content := mapSet r.Content ContentTypeJson
                  { Schema := { Ref := env.AddSchemaRefLinkPrefix typeName } } }, s1) := by
  have hov2 : (if (genericFindStringSubmatch typ).length > 1 then
      collectFieldMappings (splitOnChar ',' ((genericFindStringSubmatch typ).getD 1 [])) []
      else []) = [] := hov
  unfold complexResponseObject
  simp only [hov2, List.length_nil, gt_iff_lt, Nat.lt_irrefl, if_false]
  rfl

theorem not_map_of_array (g : Str) (h : HasPrefix g "[]".toList = true) :
    HasPrefix g "map[]".toList = false := by
  have e1 : "[]".toList = ['[', ']'] := rfl
  have e2 : "map[]".toList = ['m', 'a', 'p', '[', ']'] := rfl
  rw [HasPrefix, e1] at h
  rw [HasPrefix, e2]
  cases g with
  | nil => simp [List.isPrefixOf] at h
  | cons c cs =>
    simp only [List.isPrefixOf, Bool.and_eq_true, beq_iff_eq] at h
    rw [← h.1]
    rfl

/-- C13, as the code has it. For a type reference without overrides that is
neither a map nor an array, `complexResponseObject` hands the container type
to `RegisterType`; an error of `RegisterType` is returned and no response
comes back; on a registered name it sets one content entry: for a name the
classifier reports as primitive, the text content type with a schema typed
`string` (whatever the primitive), for an interface name the JSON content with
a bare `object`, otherwise the JSON content with a reference to the
registered ID.  When the reference itself is primitive, nothing but the record
of the resolver call changes in the state, so no registry entry is created. -/
theorem complexResponseObject_plain (env : Env) (pkgPath pkgName typ : Str)
    (r : ResponseObject) (s : State) (hov : overridesOf typ = [])
    (hmap : HasPrefix (bracketReplaceAll (containerOf typ) "[]".toList) "map[]".toList = false)
    (harr : HasPrefix (bracketReplaceAll (containerOf typ) "[]".toList) "[]".toList = false) :
    (∀ e s1, RegisterType env pkgPath pkgName (containerOf typ) s = (Outcome.error e, s1) →
      complexResponseObject env pkgPath pkgName typ r s = (Outcome.error e, s1)) ∧
    (∀ typeName s1,
      RegisterType env pkgPath pkgName (containerOf typ) s = (Outcome.ok typeName, s1) →
      complexResponseObject env pkgPath pkgName typ r s =
        (Outcome.ok { r with
          Content := mapSet r.Content
            (if env.IsBasicGoType typeName = true then ContentTypeText else ContentTypeJson)
            { Schema :=
                if env.IsBasicGoType typeName = true then { Type_ := "string".toList }
                else if env.IsInterfaceType typeName = true then { Type_ := "object".toList }
                else { Ref := env.AddSchemaRefLinkPrefix typeName } } }, s1)) ∧
    (env.IsBasicGoType (containerOf typ) = true →
      complexResponseObject env pkgPath pkgName typ r s =
        (Outcome.ok { r with
          Content := mapSet r.Content ContentTypeText
            { Schema := { Type_ := "string".toList } } },
          { s with
            resolverCalls := s.resolverCalls ++
              [ResolverCall.RegisterType pkgPath pkgName (containerOf typ)] })) ∧
    (r.Content = [] → ∀ typeName s1 out s2,
      RegisterType env pkgPath pkgName (containerOf typ) s = (Outcome.ok typeName, s1) →
      complexResponseObject env pkgPath pkgName typ r s = (Outcome.ok out, s2) →
      out.Content.length = 1) := by
  have hun := complexResponseObject_no_overrides env pkgPath pkgName typ r s hov
  simp only [hmap, harr, Bool.false_eq_true, if_false] at hun
  have hok : ∀ typeName s1,
      RegisterType env pkgPath pkgName (containerOf typ) s = (Outcome.ok typeName, s1) →
      complexResponseObject env pkgPath pkgName typ r s =
        (Outcome.ok { r with
          Content := mapSet r.Content
            (if env.IsBasicGoType typeName = true then ContentTypeText else ContentTypeJson)
            { Schema :=
                if env.IsBasicGoType typeName = true then { Type_ := "string".toList }
                else if env.IsInterfaceType typeName = true then { Type_ := "object".toList }
                else { Ref := env.AddSchemaRefLinkPrefix typeName } } }, s1) := by
    intro typeName s1 h
    rw [hun, h]
    by_cases hb : env.IsBasicGoType typeName = true
    · simp [hb]
    · by_cases hi : env.IsInterfaceType typeName = true
      · simp [hb, hi]
      · simp [hb, hi]
  refine ⟨?_, hok, ?_, ?_⟩
  · intro e s1 h
    rw [hun, h]
  · intro hb
    have hreg : RegisterType env pkgPath pkgName (containerOf typ) s =
        (Outcome.ok (containerOf typ),
          { s with
            resolverCalls := s.resolverCalls ++
              [ResolverCall.RegisterType pkgPath pkgName (containerOf typ)] }) := by
      simp [RegisterType, hb]
    rw [hok _ _ hreg]
    simp [hb]
  · intro hr typeName s1 out s2 h hres
    rw [hok _ _ h] at hres
    simp only [Prod.mk.injEq, Outcome.ok.injEq] at hres
    rw [← hres.1, hr]
    simp [mapSet]

/-- C13 as amended, on the reference `int`: the content is `text/plain` with a
schema typed `string`, and only the record of the resolver call changes. -/
theorem complexResponseObject_plain_witness :
    complexResponseObject demoEnv "app/h".toList "h".toList "int".toList {} demoKnownState =
      (Outcome.ok
        { Content := [(ContentTypeText, { Schema := { Type_ := "string".toList } })] },
        { demoKnownState with
          resolverCalls :=
            [ResolverCall.RegisterType "app/h".toList "h".toList "int".toList] }) :=
  (complexResponseObject_plain demoEnv "app/h".toList "h".toList "int".toList {}
    demoKnownState (by decide) (by decide) (by decide)).2.2.1 (by decide)

/-- C13 as stated fails on the reference `int`: the schema of the text content
is typed `string`, not `integer`. -/
theorem complexResponseObject_plain_int_is_string :
    (complexResponseObject demoEnv "app/h".toList "h".toList "int".toList {}
      demoKnownState).1 =
      Outcome.ok
        { Content := [(ContentTypeText, { Schema := { Type_ := "string".toList } })] } ∧
    "string".toList ≠ "integer".toList := by
  decide

/-! ## Bracket normalisation of array references -/

theorem bracketRegexAt_group (w rest : Str) (hw : ∀ c, c ∈ w → isWord c = true) :
    bracketRegexAt ('[' :: (w ++ ']' :: rest)) = some (w.length + 2) := by
  have hstop : stopsAt isWord (']' :: rest) := by
    intro c cs h
    cases h
    decide
  simp only [bracketRegexAt, if_true]
  exact star_run isWord _ w [] (']' :: rest) _ hw hstop (by simp)

theorem bracketRegexAt_of_ne (c : Char) (cs : Str) (hc : c ≠ '[') :
    bracketRegexAt (c :: cs) = none := by
  simp [bracketRegexAt, hc]

theorem bracketRegexAt_some (t : Str) (n : Nat) (h : bracketRegexAt t = some n) :
    ∃ w rest, t = '[' :: (w ++ ']' :: rest) ∧ ∀ c, c ∈ w → isWord c = true := by
  have hstar : ∀ (s acc : Str) (n : Nat),
      star isWord (fun w r2 =>
        match r2 with
        | [] => none
        | d :: _ => if d = ']' then some (w.length + 2) else none) acc s = some n →
      ∃ w rest, s = w ++ ']' :: rest ∧ ∀ c, c ∈ w → isWord c = true := by
    intro s
    induction s with
    | nil =>
      intro acc n h
      simp [star] at h
    | cons c cs ih =>
      intro acc n h
      by_cases hc : isWord c = true
      · simp only [star, hc, if_true] at h
        cases hrec : star isWord (fun w r2 =>
            match r2 with
            | [] => none
            | d :: _ => if d = ']' then some (w.length + 2) else none) (acc ++ [c]) cs with
        | some r =>
          obtain ⟨w, rest, hcs, hw⟩ := ih (acc ++ [c]) r hrec
          refine ⟨c :: w, rest, by simp [hcs], ?_⟩
          intro x hx
          rcases List.mem_cons.1 hx with h1 | h1
          · rw [h1]; exact hc
          · exact hw x h1
        | none =>
          rw [hrec] at h
          by_cases hd : c = ']'
          · exact ⟨[], cs, by simp [hd], by simp⟩
          · simp [hd] at h
      · simp only [star, hc] at h
        by_cases hd : c = ']'
        · exact ⟨[], cs, by simp [hd], by simp⟩
        · simp [hd] at h
  cases t with
  | nil => simp [bracketRegexAt] at h
  | cons c r1 =>
    by_cases hc : c = '['
    · simp only [bracketRegexAt, hc, if_true] at h
      obtain ⟨w, rest, hr1, hw⟩ := hstar r1 [] n h
      exact ⟨w, rest, by rw [hc, hr1], hw⟩
    · simp [bracketRegexAt, hc] at h

theorem bracketReplaceAux_skip (repl : Str) (pre rest : Str) :
    bracketReplaceAux repl pre.length (pre ++ rest) = bracketReplaceAux repl 0 rest := by
  induction pre with
  | nil => rfl
  | cons c cs ih =>
    show bracketReplaceAux repl (cs.length + 1) (c :: (cs ++ rest)) = _
    rw [bracketReplaceAux]
    exact ih

theorem bracketReplaceAll_group (w rest repl : Str) (hw : ∀ c, c ∈ w → isWord c = true) :
    bracketReplaceAll ('[' :: (w ++ ']' :: rest)) repl = repl ++ bracketReplaceAll rest repl := by
  unfold bracketReplaceAll
  rw [bracketReplaceAux]
  simp only [bracketRegexAt_group w rest hw]
  have h1 : w ++ ']' :: rest = (w ++ [']']) ++ rest := by simp
  have h2 : w.length + 2 - 1 = (w ++ [']']).length := by simp
  rw [h1, h2, bracketReplaceAux_skip]

theorem bracketReplaceAll_no_bracket (E repl : Str) (hE : '[' ∉ E) :
    bracketReplaceAll E repl = E := by
  unfold bracketReplaceAll
  induction E with
  | nil => rfl
  | cons c cs ih =>
    have hc : c ≠ '[' := fun e => hE (e ▸ List.mem_cons_self _ _)
    have hcs : '[' ∉ cs := fun h => hE (List.mem_cons_of_mem _ h)
    rw [bracketReplaceAux]
    simp only [bracketRegexAt_of_ne c cs hc]
    rw [ih hcs]

theorem bracketReplaceAll_arrayRef (ws : List Str) (E repl : Str)
    (hws : ∀ w, w ∈ ws → ∀ c, c ∈ w → isWord c = true) (hE : '[' ∉ E) :
    bracketReplaceAll (arrayRef ws E) repl = ws.foldr (fun _ acc => repl ++ acc) E := by
  induction ws with
  | nil => exact bracketReplaceAll_no_bracket E repl hE
  | cons w ws ih =>
    show bracketReplaceAll ('[' :: (w ++ ']' :: arrayRef ws E)) repl = _
    rw [bracketReplaceAll_group w _ repl (hws w (List.mem_cons_self _ _)),
      ih (fun x hx => hws x (List.mem_cons_of_mem _ hx))]
    rfl

theorem replaceAll_pair (x : Str) :
    replaceAll "[]".toList [] ('[' :: ']' :: x) = replaceAll "[]".toList [] x := by
  have e1 : "[]".toList = ['[', ']'] := rfl
  rw [e1]
  unfold replaceAll
  rw [replaceAllAux]
  simp [List.isPrefixOf, replaceAllAux]

theorem replaceAll_no_bracket (E : Str) (hE : '[' ∉ E) : replaceAll "[]".toList [] E = E := by
  have e1 : "[]".toList = ['[', ']'] := rfl
  rw [e1]
  unfold replaceAll
  induction E with
  | nil => rfl
  | cons c cs ih =>
    have hc : ¬ '[' = c := fun e => hE (e ▸ List.mem_cons_self _ _)
    have hcs : '[' ∉ cs := fun h => hE (List.mem_cons_of_mem _ h)
    rw [replaceAllAux]
    simp [List.isPrefixOf, hc, ih hcs]

theorem replaceAll_pairs (ws : List Str) (E : Str) (hE : '[' ∉ E) :
    replaceAll "[]".toList [] (ws.foldr (fun _ acc => "[]".toList ++ acc) E) = E := by
  induction ws with
  | nil => exact replaceAll_no_bracket E hE
  | cons w ws ih =>
    show replaceAll "[]".toList [] ('[' :: ']' :: ws.foldr (fun _ acc => "[]".toList ++ acc) E) = E
    rw [replaceAll_pair, ih]

theorem shape_of_normalised (t : Str)
    (h : HasPrefix (bracketReplaceAll t "[]".toList) "[]".toList = true) :
    ∃ w rest, t = '[' :: (w ++ ']' :: rest) ∧ ∀ c, c ∈ w → isWord c = true := by
  have e1 : "[]".toList = ['[', ']'] := rfl
  rw [HasPrefix, e1] at h
  unfold bracketReplaceAll at h
  cases t with
  | nil => simp [bracketReplaceAux, List.isPrefixOf] at h
  | cons c cs =>
    cases hm : bracketRegexAt (c :: cs) with
    | some n => exact bracketRegexAt_some _ n hm
    | none =>
      rw [bracketReplaceAux] at h
      simp only [hm] at h
      cases cs with
      | nil => simp [bracketReplaceAux, List.isPrefixOf] at h
      | cons d ds =>
        cases hm2 : bracketRegexAt (d :: ds) with
        | some n2 =>
          obtain ⟨w2, rest2, h2, _⟩ := bracketRegexAt_some _ n2 hm2
          rw [bracketReplaceAux] at h
          simp only [hm2] at h
          simp [List.isPrefixOf] at h
        | none =>
          rw [bracketReplaceAux] at h
          simp only [hm2] at h
          simp only [List.isPrefixOf, Bool.and_eq_true, beq_iff_eq] at h
          have hc : c = '[' := h.1.symm
          have hd : d = ']' := h.2.1.symm
          have := bracketRegexAt_group [] ds (by simp)
          rw [hc, hd] at hm
          simp only [List.nil_append] at this
          rw [this] at hm
          cases hm

/-- C20. For a type reference without overrides whose container type, with
every bracketed size annotation replaced by `[]`, begins with `[]`: the
container type begins with a bracketed annotation `[w]`, which the
normalisation turns into `[]`; `complexResponseObject` hands the normalised
text with every `[]` deleted to `RegisterType`, and for a container type that
is a run of annotations before a bracket-free element type this text is the
element type; an error of `RegisterType` is returned and no response comes
back; on a registered name the JSON content is set to a schema of type `array`
whose items, a fresh schema object, is typed `string` when the name is a basic
type and is a reference to the registered ID otherwise. -/
theorem complexResponseObject_array (env : Env) (pkgPath pkgName typ : Str)
    (r : ResponseObject) (s : State) (hov : overridesOf typ = [])
    (harr : HasPrefix (bracketReplaceAll (containerOf typ) "[]".toList) "[]".toList = true) :
    (∃ w rest, containerOf typ = '[' :: (w ++ ']' :: rest) ∧
      (∀ c, c ∈ w → isWord c = true) ∧
      bracketReplaceAll (containerOf typ) "[]".toList =
        "[]".toList ++ bracketReplaceAll rest "[]".toList) ∧
    (∀ ws E, containerOf typ = arrayRef ws E →
      (∀ w, w ∈ ws → ∀ c, c ∈ w → isWord c = true) → '[' ∉ E →
      replaceAll "[]".toList [] (bracketReplaceAll (containerOf typ) "[]".toList) = E) ∧
    (∀ e s1,
      RegisterType env pkgPath pkgName
        (replaceAll "[]".toList [] (bracketReplaceAll (containerOf typ) "[]".toList)) s =
          (Outcome.error e, s1) →
      complexResponseObject env pkgPath pkgName typ r s = (Outcome.error e, s1)) ∧
    (∀ typeName s1,
      RegisterType env pkgPath pkgName
        (replaceAll "[]".toList [] (bracketReplaceAll (containerOf typ) "[]".toList)) s =
          (Outcome.ok typeName, s1) →
      complexResponseObject env pkgPath pkgName typ r s =
        (Outcome.ok { r with
          Content := mapSet r.Content ContentTypeJson
            { Schema := { Type_ := "array".toList, Items := some s1.schemaObjects.length } } },
          { s1 with
            schemaObjects := s1.schemaObjects ++
              [if env.IsBasicGoType typeName = true then { Type_ := "string".toList }
               else { Ref := env.AddSchemaRefLinkPrefix typeName }] }) ∧
      (complexResponseObject env pkgPath pkgName typ r s).2.schemaObjects[
          s1.schemaObjects.length]? =
        some (if env.IsBasicGoType typeName = true then { Type_ := "string".toList }
              else { Ref := env.AddSchemaRefLinkPrefix typeName })) := by
  have hun := complexResponseObject_no_overrides env pkgPath pkgName typ r s hov
  simp only [harr, not_map_of_array _ harr, Bool.false_eq_true, if_false, if_true] at hun
  refine ⟨?_, ?_, ?_, ?_⟩
  · obtain ⟨w, rest, hshape, hw⟩ := shape_of_normalised _ harr
    refine ⟨w, rest, hshape, hw, ?_⟩
    rw [hshape]
    exact bracketReplaceAll_group w rest _ hw
  · intro ws E hshape hws hE
    rw [hshape, bracketReplaceAll_arrayRef ws E _ hws hE]
    exact replaceAll_pairs ws E hE
  · intro e s1 h
    rw [hun, h]
  · intro typeName s1 h
    rw [hun, h]
    exact ⟨rfl, by simp⟩

/-- C20, on the references `[5]int` and `[3][4]Item`: the size annotations are
dropped, the element types `int` and `Item` are registered, and the JSON
content is an array whose items is typed `string` for `int` and refers to the
registered `h.Item` for `Item`. -/
theorem complexResponseObject_array_witness :
    replaceAll "[]".toList []
        (bracketReplaceAll (containerOf "[3][4]Item".toList) "[]".toList) = "Item".toList ∧
    complexResponseObject demoEnv "app/h".toList "h".toList "[5]int".toList {} demoKnownState =
      (Outcome.ok
        { Content := [(ContentTypeJson,
            { Schema := { Type_ := "array".toList, Items := some 4 } })] },
        { demoKnownState with
          schemaObjects := demoKnownState.schemaObjects ++ [{ Type_ := "string".toList }],
          resolverCalls :=
            [ResolverCall.RegisterType "app/h".toList "h".toList "int".toList] }) ∧
    (complexResponseObject demoEnv "app/h".toList "h".toList "[3][4]Item".toList {}
        demoKnownState).2.schemaObjects[4]? =
      some { Ref := "#/components/schemas/h.Item".toList } :=
  ⟨(complexResponseObject_array demoEnv "app/h".toList "h".toList "[3][4]Item".toList {}
      demoKnownState (by decide) (by decide)).2.1 ["3".toList, "4".toList] "Item".toList
      (by decide) (by decide) (by decide),
   ((complexResponseObject_array demoEnv "app/h".toList "h".toList "[5]int".toList {}
      demoKnownState (by decide) (by decide)).2.2.2 "int".toList
      { demoKnownState with
        resolverCalls := [ResolverCall.RegisterType "app/h".toList "h".toList "int".toList] }
      (by decide)).1,
   ((complexResponseObject_array demoEnv "app/h".toList "h".toList "[3][4]Item".toList {}
      demoKnownState (by decide) (by decide)).2.2.2 "h.Item".toList
      (RegisterType demoEnv "app/h".toList "h".toList "Item".toList demoKnownState).2
      (by decide)).2⟩

/-! ## Short-key pruning -/

theorem splitAux_ne_nil (sep : Char) (s : Str) : ∀ cur, splitAux sep cur s ≠ [] := by
  induction s with
  | nil => intro cur; simp [splitAux]
  | cons c cs ih =>
    intro cur
    by_cases hc : c = sep
    · simp [splitAux, hc]
    · simp only [splitAux, hc, if_false]
      exact ih _

theorem splitAux_no_sep (sep : Char) (s : Str) :
    ∀ cur, sep ∉ cur → ∀ piece, piece ∈ splitAux sep cur s → sep ∉ piece := by
  induction s with
  | nil =>
    intro cur hcur piece hp
    simp only [splitAux, List.mem_singleton] at hp
    rw [hp]
    exact hcur
  | cons c cs ih =>
    intro cur hcur piece hp
    by_cases hc : c = sep
    · simp only [splitAux, hc, if_true, List.mem_cons] at hp
      rcases hp with hp | hp
      · rw [hp]
        exact hcur
      · exact ih [] (by simp) piece hp
    · simp only [splitAux, hc, if_false] at hp
      refine ih (cur ++ [c]) ?_ piece hp
      intro hmem
      simp only [List.mem_append, List.mem_singleton] at hmem
      rcases hmem with hmem | hmem
      · exact hcur hmem
      · exact hc hmem.symm

theorem splitAux_of_no_sep (sep : Char) (s : Str) (h : sep ∉ s) :
    ∀ cur, splitAux sep cur s = [cur ++ s] := by
  induction s with
  | nil => intro cur; simp [splitAux]
  | cons c cs ih =>
    intro cur
    have hc : ¬ c = sep := fun e => h (by rw [e]; exact List.mem_cons_self _ _)
    have hcs : sep ∉ cs := fun e => h (List.mem_cons_of_mem _ e)
    simp only [splitAux, hc, if_false, ih hcs]
    simp

theorem getLast?_split (key : Str) :
    (splitOnChar '.' key).getLast? = some (lastSegment key) := by
  unfold lastSegment
  cases h : (splitOnChar '.' key).getLast? with
  | none =>
    rw [List.getLast?_eq_none_iff] at h
    exact absurd h (splitAux_ne_nil '.' key [])
  | some x => rfl

theorem lastSegment_no_dot (key : Str) : '.' ∉ lastSegment key :=
  splitAux_no_sep '.' key [] (by simp) _
    (List.mem_of_getLast?_eq_some (getLast?_split key))

theorem hasPkg_lastSegment (key : Str) : hasPkg (lastSegment key) = false := by
  unfold hasPkg splitOnChar
  rw [splitAux_of_no_sep '.' _ (lastSegment_no_dot key) []]
  simp

theorem mem_of_mapGet {β : Type} (m : List (Str × β)) (k : Str) (v : β)
    (h : mapGet m k = some v) : (k, v) ∈ m := by
  induction m with
  | nil => simp [mapGet] at h
  | cons e rest ih =>
    obtain ⟨k1, v1⟩ := e
    by_cases h1 : k1 = k
    · subst h1
      simp only [mapGet, if_true, Option.some.injEq] at h
      subst h
      exact List.mem_cons_self _ _
    · simp only [mapGet, h1, if_false] at h
      exact List.mem_cons_of_mem _ (ih h)

theorem mapGet_isSome_of_mem {β : Type} (m : List (Str × β)) (k : Str) (v : β)
    (h : (k, v) ∈ m) : (mapGet m k).isSome = true := by
  induction m with
  | nil => simp at h
  | cons e rest ih =>
    obtain ⟨k1, v1⟩ := e
    by_cases h1 : k1 = k
    · simp [mapGet, h1]
    · simp only [List.mem_cons, Prod.mk.injEq] at h
      rcases h with h | h
      · exact absurd h.1.symm h1
      · simp only [mapGet, h1, if_false]
        exact ih h

theorem mapGet_filter_key {β : Type} (m : List (Str × β)) (p : Str → Bool) (k : Str) :
    mapGet (m.filter (fun e => p e.1)) k = if p k = true then mapGet m k else none := by
  induction m with
  | nil => simp [mapGet]
  | cons e rest ih =>
    obtain ⟨k1, v1⟩ := e
    by_cases hp : p k1 = true
    · by_cases h1 : k1 = k
      · subst h1
        simp [List.filter, hp, mapGet]
      · simp [List.filter, hp, mapGet, h1, ih]
    · by_cases h1 : k1 = k
      · subst h1
        simp [List.filter, hp, ih]
      · simp [List.filter, hp, mapGet, h1, ih]

theorem mapGet_mapDelete {β : Type} (m : List (Str × β)) (x k : Str) :
    mapGet (mapDelete m x) k = if k = x then none else mapGet m k := by
  have h := mapGet_filter_key m (fun q => q != x) k
  unfold mapDelete
  rw [h]
  by_cases hk : k = x
  · simp [hk]
  · simp [hk]

theorem filterSchemaLoop_eq (order : List Str) :
    ∀ m : List (Str × Ptr),
      filterSchemaLoop order m =
        (Outcome.ok (),
          m.filter (fun e =>
            !(order.any (fun key =>
              (mapGet m key).isSome && (hasPkg key && lastSegment key == e.1))))) := by
  induction order with
  | nil =>
    intro m
    simp [filterSchemaLoop]
  | cons key rest ih =>
    intro m
    unfold filterSchemaLoop
    cases hkey : mapGet m key with
    | none =>
      simp only [ih m, List.any_cons, hkey, Option.isSome_none, Bool.false_and, Bool.false_or]
    | some v =>
      simp only [getLast?_split]
      by_cases hcond : (splitOnChar '.' key).length > 1 ∧
          (mapGet m (lastSegment key)).isSome = true
      · simp only [hcond, and_self, if_true, ih]
        have hpkg : hasPkg key = true := by simp [hasPkg, hcond.1]
        have hinner : ∀ x : Str,
            (rest.any (fun k =>
              (mapGet (mapDelete m (lastSegment key)) k).isSome &&
                (hasPkg k && lastSegment k == x))) =
            (rest.any (fun k => (mapGet m k).isSome && (hasPkg k && lastSegment k == x))) := by
          intro x
          congr 1
          funext k
          rw [mapGet_mapDelete]
          by_cases hk : k = lastSegment key
          · subst hk
            simp [hasPkg_lastSegment]
          · simp [hk]
        simp only [hinner]
        unfold mapDelete
        rw [List.filter_filter]
        congr 1
        apply List.filter_congr
        intro e _
        simp only [List.any_cons, hkey, Option.isSome_some, Bool.true_and, hpkg]
        by_cases he : e.1 = lastSegment key
        · simp [he]
        · have he2 : (lastSegment key == e.1) = false := by
            simpa using fun h : lastSegment key = e.1 => he h.symm
          have he3 : (e.1 != lastSegment key) = true := by simpa using he
          rw [he2, he3]
          simp
      · simp only [hcond, if_false, ih]
        congr 1
        apply List.filter_congr
        intro e he
        have hfalse : (hasPkg key && lastSegment key == e.1) = false := by
          by_cases hp : hasPkg key = true
          · have hlen : (splitOnChar '.' key).length > 1 := by
              simpa [hasPkg] using hp
            have hnot : ¬ (mapGet m (lastSegment key)).isSome = true := fun h => hcond ⟨hlen, h⟩
            have hne : ¬ lastSegment key = e.1 := by
              intro h
              apply hnot
              rw [h]
              exact mapGet_isSome_of_mem m e.1 e.2 he
            simp [hne]
          · simp [hp]
        simp only [List.any_cons, hfalse, Bool.and_false, Bool.false_or]

theorem any_present_eq_shadowedBy (order : List Str) (m : List (Str × Ptr))
    (hcov : ∀ k, (mapGet m k).isSome = true → k ∈ order) (x : Str) :
    order.any (fun key => (mapGet m key).isSome && (hasPkg key && lastSegment key == x)) =
      shadowedBy m x := by
  rw [Bool.eq_iff_iff]
  unfold shadowedBy
  simp only [List.any_eq_true, Bool.and_eq_true, beq_iff_eq]
  constructor
  · rintro ⟨key, _, hpres, hpkg, hlast⟩
    obtain ⟨v, hv⟩ := Option.isSome_iff_exists.mp hpres
    exact ⟨(key, v), mem_of_mapGet m key v hv, hpkg, hlast⟩
  · rintro ⟨e, he, hpkg, hlast⟩
    have hpres := mapGet_isSome_of_mem m e.1 e.2 he
    exact ⟨e.1, hcov e.1 hpres, hpres, hpkg, hlast⟩

theorem shadowedBy_no_dot (m : List (Str × Ptr)) (k : Str) (h : shadowedBy m k = true) :
    '.' ∉ k := by
  unfold shadowedBy at h
  simp only [List.any_eq_true, Bool.and_eq_true, beq_iff_eq] at h
  obtain ⟨e, _, _, hlast⟩ := h
  rw [← hlast]
  exact lastSegment_no_dot e.1

/-- C12. Whatever the order in which the keys of the registry are visited,
`filterSchemaWithoutPkg` does not panic and leaves the registry without the
entries whose key is the last segment of some key with at least two
`.`-separated segments: a key remains exactly when it was present and it is
not the case that it has no `.` while such a key shadows it; a remaining key
keeps its schema; a key with a `.` is never removed; nothing but the registry
changes; and two visiting orders give the same result. -/
theorem filterSchemaWithoutPkg_exact (order : List Str) (s : State)
    (hcov : ∀ e, e ∈ s.Schemas → e.1 ∈ order) :
    filterSchemaWithoutPkg order s =
      (Outcome.ok (),
        { s with Schemas := s.Schemas.filter (fun e => !shadowedBy s.Schemas e.1) }) ∧
    (∀ k, (mapGet (filterSchemaWithoutPkg order s).2.Schemas k).isSome = true ↔
      ((mapGet s.Schemas k).isSome = true ∧ ¬ ('.' ∉ k ∧ shadowedBy s.Schemas k = true))) ∧
    (∀ k v, mapGet (filterSchemaWithoutPkg order s).2.Schemas k = some v →
      mapGet s.Schemas k = some v) ∧
    (∀ k, '.' ∈ k →
      mapGet (filterSchemaWithoutPkg order s).2.Schemas k = mapGet s.Schemas k) ∧
    (∀ order2, (∀ e, e ∈ s.Schemas → e.1 ∈ order2) →
      filterSchemaWithoutPkg order2 s = filterSchemaWithoutPkg order s) := by
  have hmain : ∀ o, (∀ e, e ∈ s.Schemas → e.1 ∈ o) →
      filterSchemaWithoutPkg o s =
        (Outcome.ok (),
          { s with Schemas := s.Schemas.filter (fun e => !shadowedBy s.Schemas e.1) }) := by
    intro o ho
    unfold filterSchemaWithoutPkg
    rw [filterSchemaLoop_eq]
    have ho2 : ∀ k, (mapGet s.Schemas k).isSome = true → k ∈ o := by
      intro k hk
      obtain ⟨v, hv⟩ := Option.isSome_iff_exists.mp hk
      exact ho (k, v) (mem_of_mapGet _ _ _ hv)
    simp only [any_present_eq_shadowedBy o s.Schemas ho2]
  have hget : ∀ k, mapGet (filterSchemaWithoutPkg order s).2.Schemas k =
      if shadowedBy s.Schemas k = true then none else mapGet s.Schemas k := by
    intro k
    rw [hmain order hcov]
    have h := mapGet_filter_key s.Schemas (fun q => !shadowedBy s.Schemas q) k
    simp only at h
    rw [h]
    by_cases hs : shadowedBy s.Schemas k = true
    · simp [hs]
    · simp [hs]
  refine ⟨hmain order hcov, ?_, ?_, ?_, ?_⟩
  · intro k
    rw [hget]
    by_cases hs : shadowedBy s.Schemas k = true
    · have hnd := shadowedBy_no_dot s.Schemas k hs
      simp [hs, hnd]
    · simp [hs]
  · intro k v h
    rw [hget] at h
    by_cases hs : shadowedBy s.Schemas k = true
    · simp [hs] at h
    · simpa [hs] using h
  · intro k hk
    rw [hget]
    have hs : ¬ shadowedBy s.Schemas k = true := fun h => shadowedBy_no_dot s.Schemas k h hk
    simp [hs]
  · intro order2 h2
    rw [hmain order2 h2, hmain order hcov]

/-- C12, on a registry with `h.Wrapper`, `h.Item`, `Item` and `Other`: visited
in one order or another, only the short key `Item` is removed. -/
theorem filterSchemaWithoutPkg_exact_witness :
    filterSchemaWithoutPkg
      ["Item".toList, "Other".toList, "h.Item".toList, "h.Wrapper".toList]
      demoRegistryState =
      (Outcome.ok (),
        { demoRegistryState with
          Schemas := [("h.Wrapper".toList, 0), ("h.Item".toList, 1), ("Other".toList, 2)] }) ∧
    filterSchemaWithoutPkg
      ["h.Wrapper".toList, "h.Item".toList, "Item".toList, "Other".toList]
      demoRegistryState =
    filterSchemaWithoutPkg
      ["Item".toList, "Other".toList, "h.Item".toList, "h.Wrapper".toList]
      demoRegistryState :=
  ⟨(filterSchemaWithoutPkg_exact
      ["Item".toList, "Other".toList, "h.Item".toList, "h.Wrapper".toList]
      demoRegistryState (by decide)).1,
   (filterSchemaWithoutPkg_exact
      ["Item".toList, "Other".toList, "h.Item".toList, "h.Wrapper".toList]
      demoRegistryState (by decide)).2.2.2.2
      ["h.Wrapper".toList, "h.Item".toList, "Item".toList, "Other".toList] (by decide)⟩

/-! ## Field overrides of a container -/

theorem splitN2_of_mem (f : Str) (h : '=' ∈ f) :
    splitN2 '=' f =
      [f.takeWhile (fun c => c != '='), (f.dropWhile (fun c => c != '=')).drop 1] := by
  unfold splitN2
  cases hd : f.dropWhile (fun c => c != '=') with
  | nil =>
    rw [List.dropWhile_eq_nil_iff] at hd
    have := hd '=' h
    simp at this
  | cons a after => simp

theorem splitN2_of_not_mem (f : Str) (h : '=' ∉ f) : splitN2 '=' f = [f] := by
  unfold splitN2
  have hd : f.dropWhile (fun c => c != '=') = [] := by
    rw [List.dropWhile_eq_nil_iff]
    intro x hx
    have : x ≠ '=' := fun e => h (e ▸ hx)
    simpa using this
  rw [hd]

theorem TrimSpace_nil : TrimSpace [] = [] := rfl

theorem collectFieldMappings_cons (e : Str) (rest : List Str) (acc : List (Str × Str)) :
    collectFieldMappings (e :: rest) acc =
      match parseEntry e with
      | none => collectFieldMappings rest acc
      | some p => collectFieldMappings rest (mapSet acc p.1 p.2) := by
  by_cases h : '=' ∈ TrimSpace e
  · have hne : TrimSpace e ≠ [] := by
      intro h0
      rw [h0] at h
      simp at h
    simp only [collectFieldMappings, parseEntry, h, hne, if_true, if_false, splitN2_of_mem _ h]
    simp
  · simp only [collectFieldMappings, parseEntry, h, if_false, splitN2_of_not_mem _ h]
    simp

theorem collectFieldMappings_eq_foldl (entries : List Str) :
    ∀ acc, collectFieldMappings entries acc =
      (entries.filterMap parseEntry).foldl (fun m p => mapSet m p.1 p.2) acc := by
  induction entries with
  | nil => intro acc; simp [collectFieldMappings]
  | cons e rest ih =>
    intro acc
    rw [collectFieldMappings_cons]
    cases hp : parseEntry e with
    | none => simp [List.filterMap_cons, hp, ih]
    | some p => simp [List.filterMap_cons, hp, ih]

theorem mapGet_foldl_mapSet {β : Type} (ps : List (Str × β)) (f : Str) :
    ∀ acc : List (Str × β),
      mapGet (ps.foldl (fun m p => mapSet m p.1 p.2) acc) f =
        match ps.reverse.find? (fun p => p.1 == f) with
        | some p => some p.2
        | none => mapGet acc f := by
  induction ps with
  | nil => intro acc; simp
  | cons p ps ih =>
    intro acc
    rw [List.foldl_cons, ih, List.reverse_cons, List.find?_append]
    cases hfind : ps.reverse.find? (fun p => p.1 == f) with
    | some q => simp
    | none =>
      by_cases hpf : p.1 = f
      · simp [hpf, mapGet_mapSet]
      · have hfp : ¬ f = p.1 := fun e => hpf e.symm
        simp [hpf, hfp, mapGet_mapSet]

theorem mapGet_collectFieldMappings (entries : List Str) (f : Str) :
    mapGet (collectFieldMappings entries []) f = overrideOf entries f := by
  rw [collectFieldMappings_eq_foldl, mapGet_foldl_mapSet]
  unfold overrideOf
  cases (entries.filterMap parseEntry).reverse.find? (fun p => p.1 == f) with
  | some p => rfl
  | none => rfl

theorem mapSet_keys {β : Type} (m : List (Str × β)) (k : Str) (v : β) :
    (mapSet m k v).map Prod.fst =
      if k ∈ m.map Prod.fst then m.map Prod.fst else m.map Prod.fst ++ [k] := by
  induction m with
  | nil => simp [mapSet]
  | cons e rest ih =>
    obtain ⟨k1, v1⟩ := e
    by_cases h : k1 = k
    · subst h
      simp only [mapSet, if_true, List.map_cons, List.mem_cons, true_or]
    · have h2 : ¬ k = k1 := fun e => h e.symm
      simp only [mapSet, h, if_false, List.map_cons, ih, List.mem_cons, h2, false_or]
      by_cases hk : k ∈ rest.map Prod.fst
      · simp only [hk, if_true]
      · simp only [hk, if_false, List.cons_append]

theorem mapSet_keys_extend {β : Type} (m : List (Str × β)) (k : Str) (v : β) :
    m.map Prod.fst <+: (mapSet m k v).map Prod.fst := by
  rw [mapSet_keys]
  by_cases hk : k ∈ m.map Prod.fst
  · simp only [hk, if_true]
    exact List.prefix_refl _
  · simp only [hk, if_false]
    exact List.prefix_append _ _

theorem mapSet_keys_nodup {β : Type} (m : List (Str × β)) (k : Str) (v : β)
    (h : (m.map Prod.fst).Nodup) : ((mapSet m k v).map Prod.fst).Nodup := by
  rw [mapSet_keys]
  by_cases hk : k ∈ m.map Prod.fst
  · simpa only [hk, if_true] using h
  · simp only [hk, if_false]
    rw [List.nodup_append]
    refine ⟨h, List.nodup_singleton _, ?_⟩
    intro a ha hb
    simp at hb
    exact hk (hb ▸ ha)

theorem foldl_mapSet_keys {β : Type} (ps : List (Str × β)) :
    ∀ acc : List (Str × β),
      (acc.map Prod.fst <+: (ps.foldl (fun m p => mapSet m p.1 p.2) acc).map Prod.fst) ∧
      ((acc.map Prod.fst).Nodup →
        ((ps.foldl (fun m p => mapSet m p.1 p.2) acc).map Prod.fst).Nodup) := by
  induction ps with
  | nil => intro acc; exact ⟨List.prefix_refl _, fun h => h⟩
  | cons p ps ih =>
    intro acc
    rw [List.foldl_cons]
    exact ⟨(mapSet_keys_extend acc p.1 p.2).trans (ih _).1,
      fun h => (ih _).2 (mapSet_keys_nodup acc p.1 p.2 h)⟩

theorem mapGet_of_mem_nodup {β : Type} (m : List (Str × β)) (k : Str) (v : β)
    (hn : (m.map Prod.fst).Nodup) (h : (k, v) ∈ m) : mapGet m k = some v := by
  induction m with
  | nil => simp at h
  | cons e rest ih =>
    obtain ⟨k1, v1⟩ := e
    rw [List.map_cons, List.nodup_cons] at hn
    rcases List.mem_cons.1 h with h1 | h1
    · cases h1
      simp [mapGet]
    · have hne : k1 ≠ k := by
        intro e
        have hk : k ∈ rest.map Prod.fst := List.mem_map.2 ⟨(k, v), h1, rfl⟩
        exact hn.1 (e ▸ hk)
      simp [mapGet, hne, ih hn.2 h1]

theorem collectFieldMappings_nodup (entries : List Str) :
    ((collectFieldMappings entries []).map Prod.fst).Nodup := by
  rw [collectFieldMappings_eq_foldl]
  exact (foldl_mapSet_keys _ []).2 (by simp)

theorem mem_collectFieldMappings (entries : List Str) (f T : Str) :
    (f, T) ∈ collectFieldMappings entries [] ↔ overrideOf entries f = some T := by
  rw [← mapGet_collectFieldMappings]
  exact ⟨mapGet_of_mem_nodup _ f T (collectFieldMappings_nodup entries), mem_of_mapGet _ f T⟩

theorem foldl_mapSet_ne_nil {β : Type} (ps : List (Str × β)) :
    ∀ acc : List (Str × β), (acc ≠ [] ∨ ps ≠ []) →
      ps.foldl (fun m p => mapSet m p.1 p.2) acc ≠ [] := by
  induction ps with
  | nil => intro acc h; simpa using h
  | cons p ps ih =>
    intro acc _
    rw [List.foldl_cons]
    apply ih
    left
    cases acc with
    | nil => simp [mapSet]
    | cons e rest =>
      obtain ⟨k1, v1⟩ := e
      by_cases h : k1 = p.1
      · simp [mapSet, h]
      · simp [mapSet, h]

theorem collectFieldMappings_ne_nil (entries : List Str)
    (h : ∃ e, e ∈ entries ∧ '=' ∈ TrimSpace e) : collectFieldMappings entries [] ≠ [] := by
  rw [collectFieldMappings_eq_foldl]
  apply foldl_mapSet_ne_nil
  right
  obtain ⟨e, he, heq⟩ := h
  intro hnil
  have hmem : ∀ p, parseEntry e = some p → p ∈ entries.filterMap parseEntry := by
    intro p hp
    exact List.mem_filterMap.2 ⟨e, he, hp⟩
  have hsome : ∃ p, parseEntry e = some p := by
    unfold parseEntry
    simp [heq]
  obtain ⟨p, hp⟩ := hsome
  have := hmem p hp
  rw [hnil] at this
  simp at this

theorem search_skip {α : Type} (m : Str → Option α) (pre rest : Str)
    (h : ∀ c tail, c ∈ pre → m (c :: tail) = none) :
    search m (pre ++ rest) = search m rest := by
  induction pre with
  | nil => rfl
  | cons c cs ih =>
    have h1 : m (c :: (cs ++ rest)) = none := h c _ (List.mem_cons_self _ _)
    have hrec := ih (fun c tail hc => h c tail (List.mem_cons_of_mem _ hc))
    show search m (c :: (cs ++ rest)) = search m rest
    rw [search, h1]
    exact hrec

theorem genericFindStringSubmatch_shape (W body : Str) (hW : '{' ∉ W) (hb : body ≠ [])
    (hbody : '}' ∉ body) :
    genericFindStringSubmatch (W ++ '{' :: (body ++ ['}'])) =
      ['{' :: (body ++ ['}']), body] := by
  unfold genericFindStringSubmatch
  rw [search_skip]
  · cases body with
    | nil => exact absurd rfl hb
    | cons b bs =>
      have hb1 : (fun c : Char => c != '}') b = true := by
        have : b ≠ '}' := fun e => hbody (e ▸ List.mem_cons_self _ _)
        simpa using this
      have hall : ∀ x, x ∈ bs → (fun c : Char => c != '}') x = true := by
        intro x hx
        have : x ≠ '}' := fun e => hbody (e ▸ List.mem_cons_of_mem _ hx)
        simpa using this
      have hstop : stopsAt (fun c : Char => c != '}') ['}'] := by
        intro c cs h
        cases h
        simp
      have hrun : genericRegexAt ('{' :: ((b :: bs) ++ ['}'])) =
          some ['{' :: ((b :: bs) ++ ['}']), b :: bs] := by
        simp only [genericRegexAt, if_true, List.cons_append]
        exact plus_run _ _ b bs ['}'] _ hb1 hall hstop (by simp)
      rw [search_of_head _ _ _ hrun]
      rfl
  · intro c tail hc
    have : c ≠ '{' := fun e => hW (e ▸ hc)
    simp [genericRegexAt, this]

theorem replaceFirst_shape (W old : Str) (hW : '{' ∉ W) :
    replaceFirst ('{' :: old) [] (W ++ '{' :: old) = W := by
  induction W with
  | nil => simp [replaceFirst]
  | cons c cs ih =>
    have hc : ¬ '{' = c := fun e => hW (e ▸ List.mem_cons_self _ _)
    have hcs : '{' ∉ cs := fun h => hW (List.mem_cons_of_mem _ h)
    simp [replaceFirst, hc, ih hcs]

theorem complexResponseObject_generic (env : Env) (pkgPath pkgName W body : Str)
    (r : ResponseObject) (s : State) (hW : '{' ∉ W) (hbody : '}' ∉ body)
    (hwell : ∃ e, e ∈ splitOnChar ',' body ∧ '=' ∈ TrimSpace e) :
    complexResponseObject env pkgPath pkgName (W ++ ['{'] ++ body ++ ['}']) r s =
      genericResponseObject env pkgPath pkgName (TrimSpace W)
        (collectFieldMappings (splitOnChar ',' body) []) r s := by
  have hb : body ≠ [] := by
    intro h0
    obtain ⟨e, he, heq⟩ := hwell
    rw [h0] at he
    have : e = [] := by simpa [splitOnChar, splitAux] using he
    rw [this] at heq
    simp [TrimSpace_nil] at heq
  have htyp : W ++ ['{'] ++ body ++ ['}'] = W ++ '{' :: (body ++ ['}']) := by simp
  have hlen : 0 < (collectFieldMappings (splitOnChar ',' body) []).length :=
    List.length_pos.2 (collectFieldMappings_ne_nil _ hwell)
  rw [htyp]
  unfold complexResponseObject
  simp only [genericFindStringSubmatch_shape W body hW hb hbody]
  simp [hlen, replaceFirst_shape W _ hW]

theorem overrideRun_unique (env : Env) (pkgPath pkgName : Str) (props : Ptr) :
    ∀ (fm : List (Str × Str)) (steps1 steps2 : List (Str × Ptr × State)) (s a b : State),
      overrideRun env pkgPath pkgName props fm steps1 s a →
      overrideRun env pkgPath pkgName props fm steps2 s b → steps1 = steps2 ∧ a = b := by
  intro fm
  induction fm with
  | nil =>
    intro steps1 steps2 s a b h1 h2
    cases steps1 with
    | nil =>
      cases steps2 with
      | nil =>
        simp only [overrideRun] at h1 h2
        exact ⟨rfl, h1.trans h2.symm⟩
      | cons e2 r2 => simp [overrideRun] at h2
    | cons e1 r1 => simp [overrideRun] at h1
  | cons e rest ih =>
    obtain ⟨f, T⟩ := e
    intro steps1 steps2 s a b h1 h2
    cases steps1 with
    | nil => simp [overrideRun] at h1
    | cons e1 r1 =>
      cases steps2 with
      | nil => simp [overrideRun] at h2
      | cons e2 r2 =>
        obtain ⟨g1, p1, t1⟩ := e1
        obtain ⟨g2, p2, t2⟩ := e2
        simp only [overrideRun] at h1 h2
        obtain ⟨hg1, hc1, m1, hm1, hr1⟩ := h1
        obtain ⟨hg2, hc2, m2, hm2, hr2⟩ := h2
        rw [hc1] at hc2
        simp only [Prod.mk.injEq, SchemaResult.mk.injEq, Option.some.injEq, and_true] at hc2
        obtain ⟨hp, ht⟩ := hc2
        subst hp
        subst ht
        rw [hm1] at hm2
        cases hm2
        obtain ⟨hrest, hab⟩ := ih r1 r2 _ a b hr1 hr2
        subst hg1
        subst hg2
        exact ⟨by rw [hrest], hab⟩

theorem overrideFields_ok (env : Env) (pkgPath pkgName : Str) (I : State → Prop)
    (hinv : resolverInvariant env pkgPath pkgName I) (props : Ptr) :
    ∀ (fm : List (Str × Str)) (s : State) (m : List (Str × Ptr)),
      I s → s.orderedMaps[props]? = some m →
      (∀ f T, (f, T) ∈ fm → ∀ t, I t →
        ∃ p, (ParseSchemaObject env pkgPath pkgName T t).1 = ⟨some p, none⟩) →
      ∃ (s2 : State) (steps : List (Str × Ptr × State)),
        overrideFields env pkgPath pkgName props fm s = (Outcome.ok (), s2) ∧
        overrideRun env pkgPath pkgName props fm steps s s2 ∧
        s2.orderedMaps[props]? =
          some ((steps.map (fun e => (e.1, e.2.1))).foldl (fun m e => mapSet m e.1 e.2) m) ∧
        (∀ (i : Nat) x, s.schemaObjects[i]? = some x → s2.schemaObjects[i]? = some x) ∧
        steps.map (fun e => e.1) = fm.map Prod.fst ∧
        (∀ e, e ∈ steps →
          (∃ T u, (e.1, T) ∈ fm ∧
            ParseSchemaObject env pkgPath pkgName T u = (⟨some e.2.1, none⟩, e.2.2)) ∧
          ∀ x, e.2.2.schemaObjects[e.2.1]? = some x → s2.schemaObjects[e.2.1]? = some x) := by
  intro fm
  induction fm with
  | nil =>
    intro s m _ hm _
    refine ⟨s, [], rfl, ?_, by simpa using hm, fun i x h => h, rfl, by simp⟩
    simp [overrideRun]
  | cons e rest ih =>
    obtain ⟨f, T⟩ := e
    intro s m hI hm hT
    obtain ⟨p, hp⟩ := hT f T (List.mem_cons_self _ _) s hI
    obtain ⟨hI1, hk1, hk2⟩ := hinv.1 T s hI
    have hcall : ParseSchemaObject env pkgPath pkgName T s =
        (⟨some p, none⟩, (ParseSchemaObject env pkgPath pkgName T s).2) := Prod.ext hp rfl
    have hm1 := hk2 props m hm
    have hlt : props < (ParseSchemaObject env pkgPath pkgName T s).2.orderedMaps.length := by
      by_contra hge
      rw [List.getElem?_eq_none (Nat.le_of_not_lt hge)] at hm1
      cases hm1
    obtain ⟨s2, steps, hrun, hchain, hfin, hheap, hkeys, hsteps⟩ :=
      ih { (ParseSchemaObject env pkgPath pkgName T s).2 with
           orderedMaps :=
             (ParseSchemaObject env pkgPath pkgName T s).2.orderedMaps.set props (mapSet m f p) }
        (mapSet m f p) (hinv.2 _ _ _ hI1) (List.getElem?_set_self hlt)
        (fun f1 T1 h1 => hT f1 T1 (List.mem_cons_of_mem _ h1))
    refine ⟨s2, (f, p, (ParseSchemaObject env pkgPath pkgName T s).2) :: steps,
      ?_, ?_, ?_, ?_, ?_, ?_⟩
    · rw [overrideFields, hcall]
      simp only [hm1]
      exact hrun
    · simp only [overrideRun]
      exact ⟨trivial, hcall, m, hm1, hchain⟩
    · simpa using hfin
    · intro i x hx
      exact hheap i x (hk1 i x hx)
    · simp [hkeys]
    · intro e he
      rcases List.mem_cons.1 he with h1 | h1
      · subst h1
        exact ⟨⟨T, s, List.mem_cons_self _ _, hcall⟩, fun x hx => hheap _ x hx⟩
      · obtain ⟨⟨T1, u, h2, h3⟩, h4⟩ := hsteps e h1
        exact ⟨⟨T1, u, List.mem_cons_of_mem _ h2, h3⟩, h4⟩

theorem overrideFields_fails (env : Env) (pkgPath pkgName : Str) (I : State → Prop)
    (hinv : resolverInvariant env pkgPath pkgName I) (props : Ptr) :
    ∀ (fm : List (Str × Str)) (s : State) (m : List (Str × Ptr)),
      I s → s.orderedMaps[props]? = some m →
      (∃ f T, (f, T) ∈ fm ∧ ∀ t, I t →
        (ParseSchemaObject env pkgPath pkgName T t).1.err ≠ none ∨
        (ParseSchemaObject env pkgPath pkgName T t).1.schema = none) →
      ∃ msg s2, overrideFields env pkgPath pkgName props fm s = (Outcome.error msg, s2) := by
  intro fm
  induction fm with
  | nil =>
    intro s m _ _ h
    obtain ⟨f, T, hmem, _⟩ := h
    simp at hmem
  | cons e rest ih =>
    obtain ⟨f, T⟩ := e
    intro s m hI hm hfail
    have hframe := hinv.1 T s hI
    rw [overrideFields]
    rcases hcall : ParseSchemaObject env pkgPath pkgName T s with ⟨res, s1⟩
    rw [hcall] at hframe
    obtain ⟨hI1, _, hk2⟩ := hframe
    have hm1 : s1.orderedMaps[props]? = some m := hk2 props m hm
    have hlt : props < s1.orderedMaps.length := by
      by_contra hge
      rw [List.getElem?_eq_none (Nat.le_of_not_lt hge)] at hm1
      cases hm1
    rcases res with ⟨sch, err⟩
    cases err with
    | some e => exact ⟨_, _, rfl⟩
    | none =>
      cases sch with
      | none => exact ⟨_, _, rfl⟩
      | some p =>
        simp only [hm1]
        apply ih _ (mapSet m f p) (hinv.2 _ _ _ hI1) (List.getElem?_set_self hlt)
        obtain ⟨f0, T0, hmem, hbad⟩ := hfail
        rcases List.mem_cons.1 hmem with h1 | h1
        · cases h1
          have h2 := hbad s hI
          rw [hcall] at h2
          simp at h2
        · exact ⟨f0, T0, h1, hbad⟩

theorem genericResponseObject_loop (env : Env) (pkgPath pkgName ct : Str)
    (fm : List (Str × Str)) (r : ResponseObject) (s s1 : State) (res : Option Ptr)
    (hres : ParseSchemaObject env pkgPath pkgName ct s = (⟨res, none⟩, s1))
    (halloc : allocated s1 res) :
    ∃ (c props : Ptr) (sB : State),
      sB.orderedMaps[props]? = some (resolvedProperties s1 res) ∧
      sB.schemaObjects[c]? = some { resolvedSchema s1 res with Properties := some props } ∧
      (∃ objs maps, sB = { s1 with schemaObjects := objs, orderedMaps := maps }) ∧
      (∀ c1 obj p, res = some c1 → s1.schemaObjects[c1]? = some obj →
        obj.Properties = some p → sB = s1 ∧ props = p) ∧
      genericResponseObject env pkgPath pkgName ct fm r s =
        match overrideFields env pkgPath pkgName props (env.mapOrder fm) sB with
        | (Outcome.ok _, s3) =>
          match s3.schemaObjects[c]? with
          | none => (Outcome.panic, s3)
          | some final =>
            (Outcome.ok { r with
                Content := mapSet r.Content ContentTypeJson { Schema := final } }, s3)
        | (Outcome.error e, s3) => (Outcome.error e, s3)
        | (Outcome.panic, s3) => (Outcome.panic, s3) := by
  cases res with
  | none =>
    refine ⟨s1.schemaObjects.length, s1.orderedMaps.length,
      { s1 with
        orderedMaps := s1.orderedMaps ++ [[]],
        schemaObjects := s1.schemaObjects ++
          [{ Type_ := "object".toList, Properties := some s1.orderedMaps.length }] },
      ?_, ?_, ⟨_, _, rfl⟩, ?_, ?_⟩
    · simp [resolvedProperties, resolvedSchema]
    · simp [resolvedSchema]
    · intro c1 obj p h
      cases h
    · unfold genericResponseObject
      rw [hres]
      simp
  | some c =>
    obtain ⟨obj, hobj, hprops⟩ := halloc c rfl
    cases hP : obj.Properties with
    | none =>
      have hlt : c < s1.schemaObjects.length := by
        by_contra hge
        rw [List.getElem?_eq_none (Nat.le_of_not_lt hge)] at hobj
        cases hobj
      refine ⟨c, s1.orderedMaps.length,
        { s1 with
          orderedMaps := s1.orderedMaps ++ [[]],
          schemaObjects := s1.schemaObjects.set c
            { obj with Properties := some s1.orderedMaps.length } },
        ?_, ?_, ⟨_, _, rfl⟩, ?_, ?_⟩
      · simp [resolvedProperties, resolvedSchema, hobj, hP]
      · simp [resolvedSchema, hobj, List.getElem?_set_self hlt]
      · intro c1 obj1 p h h1 h2
        cases h
        rw [hobj] at h1
        cases h1
        rw [hP] at h2
        cases h2
      · unfold genericResponseObject
        rw [hres]
        simp [hobj, hP]
    | some props =>
      obtain ⟨m, hm⟩ := hprops props hP
      have heta : ({ obj with Properties := some props } : SchemaObject) = obj := by
        cases obj
        simp only at hP
        subst hP
        rfl
      refine ⟨c, props, s1, ?_, ?_, ⟨_, _, rfl⟩, ?_, ?_⟩
      · simp [resolvedProperties, resolvedSchema, hobj, hP, hm]
      · simp [resolvedSchema, hobj, heta]
      · intro c1 obj1 p h h1 h2
        cases h
        rw [hobj] at h1
        cases h1
        rw [hP] at h2
        cases h2
        exact ⟨rfl, rfl⟩
      · unfold genericResponseObject
        rw [hres]
        simp [hobj, hP]

theorem demoEnv_resolverInvariant (pkgPath pkgName : Str) :
    resolverInvariant demoEnv pkgPath pkgName demoKnown := by
  refine ⟨?_, fun s objs maps hI => hI⟩
  intro T s hI
  unfold ParseSchemaObject
  simp only [demoEnv]
  unfold demoParseBasic
  by_cases hb : demoIsBasicGoType T = true
  · simp only [hb, if_true]
    refine ⟨hI, ?_, fun i m h => h⟩
    intro i x hx
    have hlt : i < s.schemaObjects.length := by
      by_contra hge
      rw [List.getElem?_eq_none (Nat.le_of_not_lt hge)] at hx
      cases hx
    show (s.schemaObjects ++ _)[i]? = some x
    rw [List.getElem?_append_left hlt]
    exact hx
  · simp only [hb, Bool.false_eq_true, if_false]
    unfold demoParseCustom
    split
    · exact ⟨hI, fun i x h => h, fun i m h => h⟩
    · exact ⟨hI, fun i x h => h, fun i m h => h⟩

theorem demoEnv_resolves_Item (pkgPath : Str) (t : State)
    (hI : demoKnown t) :
    (ParseSchemaObject demoEnv pkgPath "h".toList "Item".toList t).1 = ⟨some 1, none⟩ := by
  unfold ParseSchemaObject
  simp only [demoEnv]
  unfold demoParseBasic
  have hb : demoIsBasicGoType "Item".toList = false := by decide
  simp only [hb, Bool.false_eq_true, if_false]
  unfold demoParseCustom
  have hk : t.KnownIDSchema = demoKnownState.KnownIDSchema := hI
  simp only [hk]
  rfl

theorem demoEnv_resolves_int (pkgPath pkgName : Str) (t : State) :
    (ParseSchemaObject demoEnv pkgPath pkgName "int".toList t).1 =
      ⟨some t.schemaObjects.length, none⟩ := by
  unfold ParseSchemaObject
  simp only [demoEnv]
  unfold demoParseBasic
  have hb : demoIsBasicGoType "int".toList = true := by decide
  simp only [hb, if_true]

/-- C18, amended. A reference `W{body}` whose `W` has no `{`, whose `body` has
no `}` and in which some comma-separated entry has a `=`.  The resolver is
assumed to keep an invariant `I` and to leave allocated heap cells alone.
(1) If the resolver returns no error for the trimmed `W` and succeeds on the
type of the last `field=Type` entry of every field named, then
`complexResponseObject` returns no error and stores under `application/json`
W's resolved schema with the property map at `props`.  From the state `sB`
(the state after `W` was resolved, with a fresh cell where `W` had no schema
or no property map) the call runs the resolver over the field mappings
(`overrideRun`): `steps` holds, per field, the pointer the resolver returned
in this run and the state in which it returned it.  In the final property map
every named field has the pointer returned for the type of the last entry
naming it, and the object behind that pointer is the one the resolver left
there; every other field is as it was, and the original fields keep their
positions; entries without `=` and empty entries play no part.  (2) If the
resolver returns an error for `W`, an error is returned.  (3) If the resolver
fails on the type of the last entry of some field, an error is returned. -/
theorem complexResponseObject_overrides (env : Env) (pkgPath pkgName W body : Str)
    (r : ResponseObject) (s : State) (I : State → Prop)
    (hW : '{' ∉ W) (hbody : '}' ∉ body)
    (hwell : ∃ e, e ∈ splitOnChar ',' body ∧ '=' ∈ TrimSpace e)
    (hinv : resolverInvariant env pkgPath pkgName I)
    (hperm : (env.mapOrder (collectFieldMappings (splitOnChar ',' body) [])).Perm
      (collectFieldMappings (splitOnChar ',' body) [])) :
    (∀ res s1, ParseSchemaObject env pkgPath pkgName (TrimSpace W) s = (⟨res, none⟩, s1) →
      I s1 → allocated s1 res →
      (∀ f T, overrideOf (splitOnChar ',' body) f = some T → ∀ t, I t →
        ∃ p, (ParseSchemaObject env pkgPath pkgName T t).1 = ⟨some p, none⟩) →
      ∃ (s2 sB : State) (props : Ptr) (steps : List (Str × Ptr × State))
          (final : List (Str × Ptr)),
        complexResponseObject env pkgPath pkgName (W ++ ['{'] ++ body ++ ['}']) r s =
          (Outcome.ok { r with
            Content := mapSet r.Content ContentTypeJson
              { Schema := { resolvedSchema s1 res with Properties := some props } } }, s2) ∧
        (∃ objs maps, sB = { s1 with schemaObjects := objs, orderedMaps := maps }) ∧
        (∀ c obj p, res = some c → s1.schemaObjects[c]? = some obj →
          obj.Properties = some p → sB = s1 ∧ props = p) ∧
        sB.orderedMaps[props]? = some (resolvedProperties s1 res) ∧
        overrideRun env pkgPath pkgName props
          (env.mapOrder (collectFieldMappings (splitOnChar ',' body) [])) steps sB s2 ∧
        s2.orderedMaps[props]? = some final ∧
        (∀ f T, overrideOf (splitOnChar ',' body) f = some T →
          ∃ p u t, (f, p, t) ∈ steps ∧
            ParseSchemaObject env pkgPath pkgName T u = (⟨some p, none⟩, t) ∧
            mapGet final f = some p ∧
            ∀ x, t.schemaObjects[p]? = some x → s2.schemaObjects[p]? = some x) ∧
        (∀ g, overrideOf (splitOnChar ',' body) g = none →
          mapGet final g = mapGet (resolvedProperties s1 res) g) ∧
        (resolvedProperties s1 res).map Prod.fst <+: final.map Prod.fst) ∧
    (∀ res e s1, ParseSchemaObject env pkgPath pkgName (TrimSpace W) s = (⟨res, some e⟩, s1) →
      ∃ msg, complexResponseObject env pkgPath pkgName (W ++ ['{'] ++ body ++ ['}']) r s =
        (Outcome.error msg, s1)) ∧
    (∀ res s1, ParseSchemaObject env pkgPath pkgName (TrimSpace W) s = (⟨res, none⟩, s1) →
      I s1 → allocated s1 res →
      (∃ f T, overrideOf (splitOnChar ',' body) f = some T ∧ ∀ t, I t →
        (ParseSchemaObject env pkgPath pkgName T t).1.err ≠ none ∨
        (ParseSchemaObject env pkgPath pkgName T t).1.schema = none) →
      ∃ msg s2, complexResponseObject env pkgPath pkgName (W ++ ['{'] ++ body ++ ['}']) r s =
        (Outcome.error msg, s2)) := by
  rw [complexResponseObject_generic env pkgPath pkgName W body r s hW hbody hwell]
  have hmemfm : ∀ f T, (f, T) ∈ env.mapOrder (collectFieldMappings (splitOnChar ',' body) []) ↔
      overrideOf (splitOnChar ',' body) f = some T := fun f T =>
    hperm.mem_iff.trans (mem_collectFieldMappings _ f T)
  refine ⟨?_, ?_, ?_⟩
  · intro res s1 hres hI1 halloc hT
    obtain ⟨c, props, sB, hmB, hcB, ⟨objs, maps, hsB⟩, hmain, hgen⟩ :=
      genericResponseObject_loop env pkgPath pkgName (TrimSpace W)
        (collectFieldMappings (splitOnChar ',' body) []) r s s1 res hres halloc
    have hIB : I sB := hsB ▸ hinv.2 s1 objs maps hI1
    obtain ⟨s2, steps, hrun, hchain, hfin, hheap, hkeys, hsteps⟩ :=
      overrideFields_ok env pkgPath pkgName I hinv props
        (env.mapOrder (collectFieldMappings (splitOnChar ',' body) [])) sB _ hIB hmB
        (fun f T h => hT f T ((hmemfm f T).1 h))
    have hfindmem : ∀ g q,
        (steps.map (fun e => (e.1, e.2.1))).reverse.find? (fun p => p.1 == g) = some q →
        ∃ e, e ∈ steps ∧ e.1 = g ∧ e.2.1 = q.2 := by
      intro g q hfind
      have hqf : q.1 = g := by simpa using List.find?_some hfind
      have hqmem : q ∈ steps.map (fun e => (e.1, e.2.1)) :=
        List.mem_reverse.1 (List.mem_of_find?_eq_some hfind)
      obtain ⟨e, he, heq⟩ := List.mem_map.1 hqmem
      refine ⟨e, he, ?_, ?_⟩
      · rw [← hqf, ← heq]
      · rw [← heq]
    refine ⟨s2, sB, props, steps, _, ?_, ⟨objs, maps, hsB⟩, hmain, hmB, hchain, hfin, ?_, ?_,
      (foldl_mapSet_keys _ _).1⟩
    · rw [hgen, hrun]
      simp only [hheap c _ hcB]
    · intro f T hov
      have hkey : f ∈ steps.map (fun e => e.1) := by
        rw [hkeys]
        exact List.mem_map.2 ⟨(f, T), (hmemfm f T).2 hov, rfl⟩
      obtain ⟨e0, he0, he0f⟩ := List.mem_map.1 hkey
      rw [mapGet_foldl_mapSet]
      cases hfind : (steps.map (fun e => (e.1, e.2.1))).reverse.find? (fun p => p.1 == f) with
      | none =>
        rw [List.find?_eq_none] at hfind
        have := hfind (e0.1, e0.2.1)
          (List.mem_reverse.2 (List.mem_map.2 ⟨e0, he0, rfl⟩))
        simp [he0f] at this
      | some q =>
        obtain ⟨e, he, hef, heq⟩ := hfindmem f q hfind
        obtain ⟨⟨T1, u, h1, h2⟩, h3⟩ := hsteps e he
        have h4 := (hmemfm e.1 T1).1 h1
        rw [hef, hov] at h4
        cases h4
        refine ⟨e.2.1, u, e.2.2, ?_, h2, by rw [heq], h3⟩
        rw [← hef]
        exact he
    · intro g hg
      rw [mapGet_foldl_mapSet]
      cases hfind : (steps.map (fun e => (e.1, e.2.1))).reverse.find? (fun p => p.1 == g) with
      | none => rfl
      | some q =>
        obtain ⟨e, he, hef, _⟩ := hfindmem g q hfind
        obtain ⟨⟨T1, u, h1, _⟩, _⟩ := hsteps e he
        have h4 := (hmemfm e.1 T1).1 h1
        rw [hef, hg] at h4
        cases h4
  · intro res e s1 hres
    unfold genericResponseObject
    rw [hres]
    exact ⟨_, rfl⟩
  · intro res s1 hres hI1 halloc hfail
    obtain ⟨c, props, sB, hmB, _, ⟨objs, maps, hsB⟩, _, hgen⟩ :=
      genericResponseObject_loop env pkgPath pkgName (TrimSpace W)
        (collectFieldMappings (splitOnChar ',' body) []) r s s1 res hres halloc
    have hIB : I sB := hsB ▸ hinv.2 s1 objs maps hI1
    obtain ⟨f, T, hov, hbad⟩ := hfail
    obtain ⟨msg, s2, hrun⟩ :=
      overrideFields_fails env pkgPath pkgName I hinv props
        (env.mapOrder (collectFieldMappings (splitOnChar ',' body) [])) sB _ hIB hmB
        ⟨f, T, (hmemfm f T).2 hov, hbad⟩
    rw [hgen, hrun]
    exact ⟨msg, s2, rfl⟩

theorem demoKnownState_allocated :
    allocated (ParseSchemaObject demoEnv "app/h".toList "h".toList "Wrapper".toList
      demoKnownState).2 (some 0) := by
  intro c hc
  cases hc
  refine ⟨{ ID := "h.Wrapper".toList, Type_ := "object".toList, Properties := some 0 },
    by decide, ?_⟩
  intro props hp
  simp only [Option.some.injEq] at hp
  subst hp
  exact ⟨[("code".toList, 2), ("data".toList, 3)], by decide⟩

theorem demoOverrideBody_resolves (f T : Str)
    (hov : overrideOf (splitOnChar ',' demoOverrideBody) f = some T) (t : State)
    (hI : demoKnown t) :
    ∃ p, (ParseSchemaObject demoEnv "app/h".toList "h".toList T t).1 = ⟨some p, none⟩ := by
  have hmem := (mem_collectFieldMappings _ f T).2 hov
  have hfm : collectFieldMappings (splitOnChar ',' demoOverrideBody) [] =
      [("data".toList, "Item".toList), ("extra".toList, "int".toList)] := by decide
  rw [hfm] at hmem
  simp only [List.mem_cons, Prod.mk.injEq, List.mem_singleton, List.not_mem_nil, or_false] at hmem
  rcases hmem with ⟨_, h2⟩ | ⟨_, h2⟩
  · subst h2
    exact ⟨1, demoEnv_resolves_Item _ t hI⟩
  · subst h2
    exact ⟨_, demoEnv_resolves_int _ _ t⟩

/-- C18 as amended, on `Wrapper{data=Item, oops, , extra=int}` with the known
types of `demoKnownState`: no error; the stored schema is that of `h.Wrapper`
with its property map 0; the run resolves `Item` and `int`, in the state that
resolving `Wrapper` has left; `data` and `extra` end on the pointers of that
run, `code` stays, and `code`, `data` keep the first two positions.  The
entries `oops` and the empty one play no part. -/
theorem complexResponseObject_overrides_witness :
    ∃ (s2 : State) (steps : List (Str × Ptr × State)) (final : List (Str × Ptr)),
      complexResponseObject demoEnv "app/h".toList "h".toList
          ("Wrapper".toList ++ ['{'] ++ demoOverrideBody ++ ['}']) {} demoKnownState =
        (Outcome.ok { Content := [(ContentTypeJson,
          { Schema := { ID := "h.Wrapper".toList, Type_ := "object".toList,
                        Properties := some 0 } })] }, s2) ∧
      overrideRun demoEnv "app/h".toList "h".toList 0
        [("data".toList, "Item".toList), ("extra".toList, "int".toList)] steps
        (ParseSchemaObject demoEnv "app/h".toList "h".toList "Wrapper".toList
          demoKnownState).2 s2 ∧
      s2.orderedMaps[0]? = some final ∧
      (∀ f T, overrideOf (splitOnChar ',' demoOverrideBody) f = some T →
        ∃ p u t, (f, p, t) ∈ steps ∧
          ParseSchemaObject demoEnv "app/h".toList "h".toList T u = (⟨some p, none⟩, t) ∧
          mapGet final f = some p ∧
          ∀ x, t.schemaObjects[p]? = some x → s2.schemaObjects[p]? = some x) ∧
      (∀ g, overrideOf (splitOnChar ',' demoOverrideBody) g = none →
        mapGet final g = mapGet [("code".toList, 2), ("data".toList, 3)] g) ∧
      ["code".toList, "data".toList] <+: final.map Prod.fst := by
  obtain ⟨s2, sB, props, steps, final, h1, _, hmain, _, hrun, h2, h3, h4, h5⟩ :=
    (complexResponseObject_overrides demoEnv "app/h".toList "h".toList "Wrapper".toList
      demoOverrideBody {} demoKnownState demoKnown (by decide) (by decide)
      ⟨"data=Item".toList, by decide, by decide⟩ (demoEnv_resolverInvariant _ _)
      (List.Perm.refl _)).1 (some 0)
      (ParseSchemaObject demoEnv "app/h".toList "h".toList "Wrapper".toList demoKnownState).2
      (by decide) rfl demoKnownState_allocated demoOverrideBody_resolves
  obtain ⟨hsB, hprops⟩ := hmain 0
    { ID := "h.Wrapper".toList, Type_ := "object".toList, Properties := some 0 } 0 rfl
    (by decide) rfl
  subst hsB
  subst hprops
  exact ⟨s2, steps, final, h1, hrun, h2, h3, h4, h5⟩

/-- C18, the claim as worded fails. In `Wrapper{data=Item,data=int}` the entry
`data=Item` is well formed and the resolver succeeds on `Wrapper`, on `Item`
(pointer 1) and on `int`; the call returns no error, and the stored schema
maps `data` to the fresh integer schema resolved for `int` (pointer 4), not to
the schema of `Item`. -/
theorem complexResponseObject_overrides_last_entry_wins :
    "data=Item".toList ∈ splitOnChar ',' "data=Item,data=int".toList ∧
    parseEntry "data=Item".toList = some ("data".toList, "Item".toList) ∧
    (∀ t, demoKnown t →
      (ParseSchemaObject demoEnv "app/h".toList "h".toList "Item".toList t).1 =
        ⟨some 1, none⟩) ∧
    (complexResponseObject demoEnv "app/h".toList "h".toList
        "Wrapper\x7bdata=Item,data=int\x7d".toList {} demoKnownState).1 =
      Outcome.ok { Content := [(ContentTypeJson,
        { Schema := { ID := "h.Wrapper".toList, Type_ := "object".toList,
                      Properties := some 0 } })] } ∧
    (complexResponseObject demoEnv "app/h".toList "h".toList
        "Wrapper\x7bdata=Item,data=int\x7d".toList {} demoKnownState).2.orderedMaps[0]? =
      some [("code".toList, 2), ("data".toList, 4)] ∧
    (complexResponseObject demoEnv "app/h".toList "h".toList
        "Wrapper\x7bdata=Item,data=int\x7d".toList {} demoKnownState).2.schemaObjects[4]? =
      some { Type_ := "integer".toList } ∧
    (complexResponseObject demoEnv "app/h".toList "h".toList
        "Wrapper\x7bdata=Item,data=int\x7d".toList {} demoKnownState).2.schemaObjects[1]? =
      some { ID := "h.Item".toList, Type_ := "object".toList } :=
  ⟨by decide, by decide, fun t ht => demoEnv_resolves_Item _ t ht, by decide, by decide,
    by decide, by decide⟩

/-! ## The container a reference with overrides resolves to -/

/-- C19. Evaluation at `Wrapper{data=Item}` on a registry that holds
`h.Wrapper`.  Before the call the registered object (pointer 0, which is also
what the resolver returns for `Wrapper`) maps `data` to the string schema 3.
The call returns no error, the registry still holds pointer 0 under
`h.Wrapper`, and the property map of that object now maps `data` to the
schema 1 of `Item`.  A second use, `Wrapper{data=int}`, rewrites the same
property map again, so the schema stored for the first response, which shares
it, changes too. -/
theorem complexResponseObject_overwrites_registered_container :
    mapGet demoRegistryState.Schemas "h.Wrapper".toList = some 0 ∧
    demoRegistryState.schemaObjects[0]? =
      some { ID := "h.Wrapper".toList, Type_ := "object".toList, Properties := some 0 } ∧
    demoRegistryState.orderedMaps[0]? = some [("code".toList, 2), ("data".toList, 3)] ∧
    (ParseSchemaObject demoEnv "app/h".toList "h".toList "Wrapper".toList
        demoRegistryState).1 = ⟨some 0, none⟩ ∧
    (complexResponseObject demoEnv "app/h".toList "h".toList
        "Wrapper\x7bdata=Item\x7d".toList {} demoRegistryState).1 =
      Outcome.ok { Content := [(ContentTypeJson,
        { Schema := { ID := "h.Wrapper".toList, Type_ := "object".toList,
                      Properties := some 0 } })] } ∧
    mapGet demoAfterItem.Schemas "h.Wrapper".toList = some 0 ∧
    demoAfterItem.schemaObjects[0]? =
      some { ID := "h.Wrapper".toList, Type_ := "object".toList, Properties := some 0 } ∧
    demoAfterItem.orderedMaps[0]? = some [("code".toList, 2), ("data".toList, 1)] ∧
    (complexResponseObject demoEnv "app/h".toList "h".toList
        "Wrapper\x7bdata=int\x7d".toList {} demoAfterItem).2.orderedMaps[0]? =
      some [("code".toList, 2), ("data".toList, 4)] := by
  decide

/-! ## Map references -/

/-- C21. For a type reference without overrides whose container type, with
every bracketed annotation replaced by `[]`, begins with `map[]`,
`complexResponseObject` never returns an error, but it terminates normally
only when the resolver hands back a schema: then the JSON content is set to
the object behind the pointer, whether or not the resolver also reported an
error.  When the resolver returns no schema, the dereference `*schema` of the
missing schema is reached and the call panics, with no content set. -/
theorem complexResponseObject_map (env : Env) (pkgPath pkgName typ : Str)
    (r : ResponseObject) (s : State) (hov : overridesOf typ = [])
    (hmap : HasPrefix (bracketReplaceAll (containerOf typ) "[]".toList) "map[]".toList = true) :
    (∀ e, (complexResponseObject env pkgPath pkgName typ r s).1 ≠ Outcome.error e) ∧
    (∀ res s1,
      ParseSchemaObject env pkgPath pkgName
        (bracketReplaceAll (containerOf typ) "[]".toList) s = (res, s1) →
      res.schema = none →
      complexResponseObject env pkgPath pkgName typ r s = (Outcome.panic, s1)) ∧
    (∀ res s1 p obj,
      ParseSchemaObject env pkgPath pkgName
        (bracketReplaceAll (containerOf typ) "[]".toList) s = (res, s1) →
      res.schema = some p → s1.schemaObjects[p]? = some obj →
      complexResponseObject env pkgPath pkgName typ r s =
        (Outcome.ok { r with
          Content := mapSet r.Content ContentTypeJson { Schema := obj } }, s1)) := by
  have hun := complexResponseObject_no_overrides env pkgPath pkgName typ r s hov
  simp only [hmap, if_true] at hun
  refine ⟨?_, ?_, ?_⟩
  · intro e
    rw [hun]
    rcases ParseSchemaObject env pkgPath pkgName
      (bracketReplaceAll (containerOf typ) "[]".toList) s with ⟨res, s1⟩
    rcases res with ⟨sch, err⟩
    cases sch with
    | none => simp
    | some p =>
      cases hobj : s1.schemaObjects[p]? with
      | none => simp [hobj]
      | some obj => simp [hobj]
  · intro res s1 h hnone
    rw [hun, h]
    simp only [hnone]
  · intro res s1 p obj h hsome hobj
    rw [hun, h]
    simp only [hsome, hobj]

/-- C21, on the reference `map[string]Foo` with an unknown `Foo`: the resolver
returns an error and no schema, and the call panics. -/
theorem complexResponseObject_map_witness :
    (ParseSchemaObject demoEnv "app/h".toList "h".toList "map[]Foo".toList demoKnownState).1 =
      ⟨none, some "can not find definition of map[]Foo".toList⟩ ∧
    complexResponseObject demoEnv "app/h".toList "h".toList "map[string]Foo".toList {}
        demoKnownState =
      (Outcome.panic,
        { demoKnownState with
          resolverCalls :=
            [ResolverCall.ParseSchemaObject "app/h".toList "h".toList "map[]Foo".toList] }) :=
  ⟨by decide,
   (complexResponseObject_map demoEnv "app/h".toList "h".toList "map[string]Foo".toList {}
      demoKnownState (by decide) (by decide)).2.1
      ⟨none, some "can not find definition of map[]Foo".toList⟩ _ (by decide) rfl⟩

/-! ## The tag gate and a route line that does not parse -/

theorem pass1_ok_of_routes_parse (env : Env) (operation : Ptr) (cs : List Str)
    (h : ∀ text, text ∈ cs → isRouteDirective env text = true →
      ∃ route, parseRouteInfo env (TrimSpace (trimLeftBy (fun c => c == '/') text)) =
        Outcome.ok route)
    (op : OperationObject) (pending : Option pendingRoute) :
    ∃ p, (pass1 env operation cs op pending).1 = Outcome.ok p := by
  induction cs generalizing op pending with
  | nil => exact ⟨pending, rfl⟩
  | cons text rest ih =>
    have hrest : ∀ x, x ∈ rest → isRouteDirective env x = true →
        ∃ route, parseRouteInfo env (TrimSpace (trimLeftBy (fun c => c == '/') x)) =
          Outcome.ok route :=
      fun x hx => h x (List.mem_cons_of_mem _ hx)
    have htext := h text (List.mem_cons_self _ _)
    unfold pass1
    by_cases hlen : (TrimSpace (trimLeftBy (fun c => c == '/') text)).length = 0
    · simp only [hlen, if_true]
      exact ih hrest op pending
    · simp only [hlen, if_false]
      cases hF : Fields (TrimSpace (trimLeftBy (fun c => c == '/') text)) with
      | nil =>
        exact absurd hF (Fields_TrimSpace_ne_nil _ (by
          intro e
          exact hlen (by simp [e])))
      | cons attr more =>
        by_cases hr : ToLower env attr = "@route".toList ∨ ToLower env attr = "@router".toList
        · have hdir : isRouteDirective env text = true := by
            simp only [isRouteDirective, hF, Bool.or_eq_true, beq_iff_eq]
            exact hr
          obtain ⟨route, hroute⟩ := htext hdir
          simp only [hr, if_true, hroute]
          exact ih hrest _ _
        · simp only [hr, if_false]
          split
          · exact ih hrest _ _
          · exact ih hrest _ _

/-- C1 as stated fails on the block `// @tag admin`, `// @route /x` with the
filter tag `billing`: the only tag collected is `admin`, yet `Parse` returns
the error of the route line, which pass 1 meets before the tag gate. -/
theorem Parse_tag_gate_after_route_error :
    demoEnvBilling.FilterTag = "billing".toList ∧
    (pass1 demoEnvBilling 0 ["// @tag admin".toList, "// @route /x".toList] {} none).2.Tags =
      ["admin".toList] ∧
    (Parse demoEnvBilling "app/h".toList "h".toList
        ["// @tag admin".toList, "// @route /x".toList] {}).1 =
      Outcome.error "Can not parse router comment \"@route /x\", skipped".toList := by
  decide

end GoSwagger3
